import Mathlib

/-! FastDQL tensor core: `src/FastDQL/Mat.cpp`

A shallow embedding of `Mat` (the dense 2-D tensor with a parallel gradient array),
its serialisation (`Mat::Store` / `Mat::Load`), `MatPool` (the handle-indexed arena, with
and without its lock) and the cache of Gaussian samplers behind `GetRandomGaussian`.

Conventions of the embedding.

* C++ `int` values are mathematical integers (`Int`); signed overflow, which C++ leaves
  undefined, is outside the model.
* `double` is an abstract scalar type `α`; only the operations the source applies to it
  (`0.0`, `+`, `*`, `>`) are required, through type classes, so nothing is assumed about
  rounding.
* A fatal outcome (`ASSERT`, `Panic`, an out-of-range container index) is `Except.error`;
  a call that returns normally is `Except.ok` of the state it leaves behind. Assertions
  are taken as checked, the reading under which a violated precondition is fatal.
* U++ containers (`Vector<T>`, `Array<T>`) are lists; their member functions are modelled
  in the `Vec` namespace after U++ `Core/Vcont.h`.
* Random draws are inputs: the draw of `Randomf()` is an argument, and a sampler carries
  the stream of values its seeded generator produces.
-/

namespace FastDQL

/-- Fatal outcomes of a call. -/
inductive Err where
  /-- An `ASSERT(...)` of the source or of a U++ container member was violated. -/
  | assertion
  /-- A container was indexed outside `0 <= i < GetCount()`. -/
  | index
  /-- The call reached `Panic(...)`. -/
  | panic
  /-- A `Value` did not have the dynamic kind the conversion needs. -/
  | type
  deriving DecidableEq, Repr

/-! ## U++ `Vector<T>` -/

/-- U++ `Vector::GetCount()`. -/
def Vec.GetCount {α : Type} (v : List α) : Int := (v.length : Int)

/-- U++ `Vector::operator[]` used as an rvalue (`v[i]`); the member asserts
`i >= 0 && i < items`. -/
def Vec.Get {α : Type} (v : List α) (i : Int) : Except Err α :=
  if 0 ≤ i ∧ i < Vec.GetCount v then
    match v[i.toNat]? with
    | some x => .ok x
    | none => .error .index
  else .error .index

/-- U++ `Vector::operator[]` used as an lvalue (`v[i] = x`); same assertion as `Vec.Get`. -/
def Vec.Put {α : Type} (v : List α) (i : Int) (x : α) : Except Err (List α) :=
  if 0 ≤ i ∧ i < Vec.GetCount v then .ok (v.set i.toNat x) else .error .index

/-- U++ `Vector::SetCount(n, init)`: asserts `n >= 0`, trims to `n` items or appends
copies of `init` until there are `n` items. Items already present are kept. -/
def Vec.SetCountInit {α : Type} (v : List α) (n : Int) (init : α) : Except Err (List α) :=
  if n < 0 then .error .assertion
  else .ok (v.take n.toNat ++ List.replicate (n.toNat - v.length) init)

/-- U++ `Vector::SetCount(n)`: asserts `n >= 0`, trims to `n` items or appends
default-constructed items. For `double` a default-constructed item is not initialised;
`junk k` stands for whatever slot `k` holds then. Items already present are kept. -/
def Vec.SetCount {α : Type} (junk : Nat → α) (v : List α) (n : Int) : Except Err (List α) :=
  if n < 0 then .error .assertion
  else .ok (v.take n.toNat ++ (List.range' v.length (n.toNat - v.length)).map junk)

/-- U++ `Vector::Set(i, x)` (that is `Set(i, x, 1)`): asserts `i >= 0`, then `At(i)`
(which is `if(i >= items) SetCountR(i + 1)`) and stores `x` in slot `i`.
The vector grows when `i` is past its end. -/
def Vec.Set {α : Type} (junk : Nat → α) (v : List α) (i : Int) (x : α) :
    Except Err (List α) :=
  if i < 0 then .error .assertion
  else
    (if i ≥ Vec.GetCount v then Vec.SetCount junk v (i + 1) else .ok v) >>= fun v1 =>
    Vec.Put v1 i x

/-- U++ `Vector::Add(x)`. -/
def Vec.Add {α : Type} (v : List α) (x : α) : List α := v ++ [x]

/-! ## Counted loops -/

/-- The loop `for(int i = start; i < n; i++) body`, with `fuel = n - start` iterations
left to run; a fatal outcome of the body ends the loop. -/
def forLoopFrom {σ : Type} (body : Int → σ → Except Err σ) : Nat → Int → σ → Except Err σ
  | 0, _, s => .ok s
  | k + 1, i, s => body i s >>= fun s1 => forLoopFrom body k (i + 1) s1

/-- The loop `for(int i = 0; i < n; i++) body`. The bound is taken on entry: where the
source writes `i < v.GetCount()`, the body never changes the count of `v`. -/
def forLoop {σ : Type} (n : Int) (body : Int → σ → Except Err σ) (s : σ) : Except Err σ :=
  forLoopFrom body n.toNat 0 s

/-! ## `Mat` -/

/-- The data members of `Mat`. -/
structure Mat (α : Type) where
  width : Int
  height : Int
  length : Int
  weights : List α
  weight_gradients : List α
  deriving DecidableEq, Repr

/-- Source `Mat::Mat()`, the default constructor (lines 49-53). -/
def Mat.Mat0 {α : Type} : Mat α :=
  { width := 0, height := 0, length := 0, weights := [], weight_gradients := [] }

/-- Source `Mat::Mat(const Vector<double>& weights)` (lines 65-74). -/
def Mat.MatFlat {α : Type} [Zero α] (weights : List α) : Except Err (Mat α) :=
  let width : Int := 1
  let height : Int := Vec.GetCount weights
  let length : Int := height
  (Vec.SetCountInit ([] : List α) length 0) >>= fun g =>
  .ok { width := width, height := height, length := length, weights := weights,
        weight_gradients := g }

/-- Source `Mat::Mat(int width, int height, const Vector<double>& weights)` (lines 76-87). -/
def Mat.MatDimsFlat {α : Type} [Zero α] (width height : Int) (weights : List α) :
    Except Err (Mat α) :=
  if width > 0 ∧ height > 0 then
    let length : Int := width * height
    if length = Vec.GetCount weights then
      (Vec.SetCountInit ([] : List α) length 0) >>= fun g =>
      .ok { width := width, height := height, length := length, weights := weights,
            weight_gradients := g }
    else .error .assertion
  else .error .assertion

/-- Source `Mat::Mat(int width, int height, Mat& vol)` (lines 89-100). -/
def Mat.MatFrom {α : Type} [Zero α] (width height : Int) (vol : Mat α) :
    Except Err (Mat α) :=
  if width > 0 ∧ height > 0 then
    let length : Int := width * height
    let weights := vol.weights
    if Vec.GetCount weights = length then
      (Vec.SetCountInit ([] : List α) length 0) >>= fun g =>
      .ok { width := width, height := height, length := length, weights := weights,
            weight_gradients := g }
    else .error .assertion
  else .error .assertion

/-- Source `Mat& Mat::operator=(const Mat& src)` (lines 133-144). -/
def Mat.Assign {α : Type} (junk : Nat → α) (self src : Mat α) : Except Err (Mat α) :=
  (Vec.SetCount junk self.weights (Vec.GetCount src.weights)) >>= fun w0 =>
  (forLoop (Vec.GetCount w0)
    (fun i w => (Vec.Get src.weights i) >>= fun x => Vec.Set junk w i x) w0) >>= fun w1 =>
  (Vec.SetCount junk self.weight_gradients (Vec.GetCount src.weight_gradients)) >>= fun g0 =>
  (forLoop (Vec.GetCount g0)
    (fun i g => (Vec.Get src.weight_gradients i) >>= fun x => Vec.Put g i x) g0) >>= fun g1 =>
  .ok { width := src.width, height := src.height, length := src.length, weights := w1,
        weight_gradients := g1 }

/-- Source `Mat& Mat::Init(int width, int height, double default_value)` (lines 169-189).
The local `prev_length` of the source is never read and is left out. -/
def Mat.InitConst {α : Type} [Zero α] (junk : Nat → α) (self : Mat α)
    (width height : Int) (default_value : α) : Except Err (Mat α) :=
  if width > 0 ∧ height > 0 then
    let n : Int := width * height
    (Vec.SetCount junk self.weights n) >>= fun w0 =>
    (Vec.SetCount junk self.weight_gradients n) >>= fun g0 =>
    forLoop n
      (fun i s =>
        (Vec.Set junk s.weights i default_value) >>= fun w =>
        (Vec.Put s.weight_gradients i 0) >>= fun g =>
        .ok { s with weights := w, weight_gradients := g })
      { width := width, height := height, length := n, weights := w0,
        weight_gradients := g0 }
  else .error .assertion

/-- Source `Mat& Mat::Init(int width, int height, const Vector<double>& w)` (lines 191-211). -/
def Mat.InitFlat {α : Type} [Zero α] (junk : Nat → α) (self : Mat α)
    (width height : Int) (w : List α) : Except Err (Mat α) :=
  if width > 0 ∧ height > 0 then
    let n : Int := width * height
    if n = Vec.GetCount w then
      (Vec.SetCount junk self.weights n) >>= fun w0 =>
      (Vec.SetCount junk self.weight_gradients n) >>= fun g0 =>
      forLoop n
        (fun i s =>
          (Vec.Get w i) >>= fun x =>
          (Vec.Put s.weights i x) >>= fun ws =>
          (Vec.Put s.weight_gradients i 0) >>= fun g =>
          .ok { s with weights := ws, weight_gradients := g })
        { width := width, height := height, length := n, weights := w0,
          weight_gradients := g0 }
    else .error .assertion
  else .error .assertion

/-- Source `Mat::Mat(int width, int height, double c)` (lines 60-63): the assertion, then
`Init(width, height, c)` on the object under construction, whose vectors are empty. -/
def Mat.MatConst {α : Type} [Zero α] (junk : Nat → α) (width height : Int) (c : α) :
    Except Err (Mat α) :=
  if width > 0 ∧ height > 0 then Mat.InitConst junk Mat.Mat0 width height c
  else .error .assertion

/-- Source `int Mat::GetPos(int x, int y) const` (lines 213-216). -/
def Mat.GetPos {α : Type} (self : Mat α) (x y : Int) : Except Err Int :=
  if x ≥ 0 ∧ y ≥ 0 ∧ x < self.width ∧ y < self.height then .ok ((self.width * y) + x)
  else .error .assertion

/-- Source `double Mat::Get(int x, int y) const` (lines 218-221). -/
def Mat.Get {α : Type} (self : Mat α) (x y : Int) : Except Err α :=
  (self.GetPos x y) >>= fun ix => Vec.Get self.weights ix

/-- Source `void Mat::Set(int x, int y, double v)` (lines 223-226). -/
def Mat.Set {α : Type} (self : Mat α) (x y : Int) (v : α) : Except Err (Mat α) :=
  (self.GetPos x y) >>= fun ix =>
  (Vec.Put self.weights ix v) >>= fun w => .ok { self with weights := w }

/-- Source `void Mat::Add(int x, int y, double v)` (lines 228-231); named `AddCoord` because
`Mat.Add` would hide the addition class inside the `Mat` namespace. -/
def Mat.AddCoord {α : Type} [Add α] (self : Mat α) (x y : Int) (v : α) : Except Err (Mat α) :=
  (self.GetPos x y) >>= fun ix =>
  (Vec.Get self.weights ix) >>= fun old =>
  (Vec.Put self.weights ix (old + v)) >>= fun w => .ok { self with weights := w }

/-- Source `void Mat::Add(int i, double v)` (lines 233-235). -/
def Mat.AddFlat {α : Type} [Add α] (self : Mat α) (i : Int) (v : α) : Except Err (Mat α) :=
  (Vec.Get self.weights i) >>= fun old =>
  (Vec.Put self.weights i (old + v)) >>= fun w => .ok { self with weights := w }

/-- Source `double Mat::GetGradient(int x, int y) const` (lines 237-240). -/
def Mat.GetGradient {α : Type} (self : Mat α) (x y : Int) : Except Err α :=
  (self.GetPos x y) >>= fun ix => Vec.Get self.weight_gradients ix

/-- Source `void Mat::SetGradient(int x, int y, double v)` (lines 242-245). -/
def Mat.SetGradient {α : Type} (self : Mat α) (x y : Int) (v : α) : Except Err (Mat α) :=
  (self.GetPos x y) >>= fun ix =>
  (Vec.Put self.weight_gradients ix v) >>= fun g => .ok { self with weight_gradients := g }

/-- Source `void Mat::AddGradient(int x, int y, double v)` (lines 247-250). -/
def Mat.AddGradient {α : Type} [Add α] (self : Mat α) (x y : Int) (v : α) :
    Except Err (Mat α) :=
  (self.GetPos x y) >>= fun ix =>
  (Vec.Get self.weight_gradients ix) >>= fun old =>
  (Vec.Put self.weight_gradients ix (old + v)) >>= fun g =>
  .ok { self with weight_gradients := g }

/-- Source `void Mat::ZeroGradients()` (lines 252-255). -/
def Mat.ZeroGradients {α : Type} [Zero α] (self : Mat α) : Except Err (Mat α) :=
  forLoop (Vec.GetCount self.weight_gradients)
    (fun i s => (Vec.Put s.weight_gradients i 0) >>= fun g =>
      .ok { s with weight_gradients := g })
    self

/-- Source `double Mat::Get(int i) const` (lines 287-289). -/
def Mat.GetFlat {α : Type} (self : Mat α) (i : Int) : Except Err α :=
  Vec.Get self.weights i

/-- Source `double Mat::GetGradient(int i) const` (lines 291-293). -/
def Mat.GetGradientFlat {α : Type} (self : Mat α) (i : Int) : Except Err α :=
  Vec.Get self.weight_gradients i

/-- Source `void Mat::SetGradient(int i, double v)` (lines 295-297). -/
def Mat.SetGradientFlat {α : Type} (self : Mat α) (i : Int) (v : α) : Except Err (Mat α) :=
  (Vec.Put self.weight_gradients i v) >>= fun g => .ok { self with weight_gradients := g }

/-- Source `void Mat::AddGradient(int i, double v)` (lines 299-301). -/
def Mat.AddGradientFlat {α : Type} [Add α] (self : Mat α) (i : Int) (v : α) :
    Except Err (Mat α) :=
  (Vec.Get self.weight_gradients i) >>= fun old =>
  (Vec.Put self.weight_gradients i (old + v)) >>= fun g =>
  .ok { self with weight_gradients := g }

/-- Source `void Mat::Set(int i, double v)` (lines 303-305): the body is `weights.Set(i, v)`,
the growing `Vector::Set`, not `weights[i] = v`. -/
def Mat.SetFlat {α : Type} (junk : Nat → α) (self : Mat α) (i : Int) (v : α) :
    Except Err (Mat α) :=
  (Vec.Set junk self.weights i v) >>= fun w => .ok { self with weights := w }

/-- Source `void Mat::AddFrom(const Mat& volume)` (lines 257-261). -/
def Mat.AddFrom {α : Type} [Add α] (self volume : Mat α) : Except Err (Mat α) :=
  forLoop (Vec.GetCount self.weights)
    (fun i s =>
      (volume.GetFlat i) >>= fun d =>
      (Vec.Get s.weights i) >>= fun old =>
      (Vec.Put s.weights i (old + d)) >>= fun w => .ok { s with weights := w })
    self

/-- Source `void Mat::AddGradientFrom(const Mat& volume)` (lines 263-267). -/
def Mat.AddGradientFrom {α : Type} [Add α] (self volume : Mat α) : Except Err (Mat α) :=
  forLoop (Vec.GetCount self.weight_gradients)
    (fun i s =>
      (volume.GetGradientFlat i) >>= fun d =>
      (Vec.Get s.weight_gradients i) >>= fun old =>
      (Vec.Put s.weight_gradients i (old + d)) >>= fun g =>
      .ok { s with weight_gradients := g })
    self

/-- Source `void Mat::AddFromScaled(const Mat& volume, double a)` (lines 269-273). -/
def Mat.AddFromScaled {α : Type} [Add α] [Mul α] (self volume : Mat α) (a : α) :
    Except Err (Mat α) :=
  forLoop (Vec.GetCount self.weights)
    (fun i s =>
      (volume.GetFlat i) >>= fun d =>
      (Vec.Get s.weights i) >>= fun old =>
      (Vec.Put s.weights i (old + a * d)) >>= fun w => .ok { s with weights := w })
    self

/-- Source `void Mat::SetConst(double c)` (lines 275-279). -/
def Mat.SetConst {α : Type} (self : Mat α) (c : α) : Except Err (Mat α) :=
  forLoop (Vec.GetCount self.weights)
    (fun i s => (Vec.Put s.weights i c) >>= fun w => .ok { s with weights := w })
    self

/-- Source `void Mat::SetConstGradient(double c)` (lines 281-285). -/
def Mat.SetConstGradient {α : Type} (self : Mat α) (c : α) : Except Err (Mat α) :=
  forLoop (Vec.GetCount self.weight_gradients)
    (fun i s => (Vec.Put s.weight_gradients i c) >>= fun g =>
      .ok { s with weight_gradients := g })
    self

/-- The size invariant of a tensor: `length = width*height = weights.size = gradients.size`. -/
def Mat.SizeInv {α : Type} (self : Mat α) : Prop :=
  self.length = self.width * self.height
    ∧ Vec.GetCount self.weights = self.length
    ∧ Vec.GetCount self.weight_gradients = self.length

/-! ## U++ `Value` and `ValueMap` -/

/-- U++ `Value`, the dynamically typed value, restricted to the kinds `Mat::Store`
emits and `Mat::Load` reads. -/
inductive Value (α : Type) where
  /-- The void (Null) `Value`, as left by the default constructor `Value w;`. -/
  | void
  /-- A `Value` holding an `int`. -/
  | int (i : Int)
  /-- A `Value` holding a `double`. -/
  | dbl (d : α)
  /-- A `Value` holding a `ValueArray`. -/
  | array (xs : List (Value α))

/-- Conversion `Value -> int`, as in `this->width = value`. Only the `int` kind is
modelled; every other kind is reported as `Err.type`. -/
def Value.toInt {α : Type} : Value α → Except Err Int
  | .int i => .ok i
  | _ => .error .type

/-- Conversion `Value -> double`, as in `double value = w[i]`. Only the `double` kind is
modelled; every other kind is reported as `Err.type`. -/
def Value.toDouble {α : Type} : Value α → Except Err α
  | .dbl d => .ok d
  | _ => .error .type

/-- U++ `Value::Add(x)`: a void `Value` becomes a one-element array, an array is
extended, any other kind is a type error. -/
def Value.Add {α : Type} : Value α → Value α → Except Err (Value α)
  | .void, x => .ok (.array [x])
  | .array xs, x => .ok (.array (Vec.Add xs x))
  | _, _ => .error .type

/-- U++ `Value::operator[](int i)` on an array: the `i`-th item, with the bound
assertion of the underlying vector; on any other kind the access is reported as
`Err.type`. -/
def Value.At {α : Type} : Value α → Int → Except Err (Value α)
  | .array xs, i => Vec.Get xs i
  | _, _ => .error .type

/-- U++ `ValueMap::Find(key)`: the index of the first entry with that key, or `-1`. -/
def ValueMap.Find {α : Type} : List (String × Value α) → String → Int
  | [], _ => -1
  | (k, _) :: rest, key =>
    if k = key then 0
    else if ValueMap.Find rest key = -1 then -1 else ValueMap.Find rest key + 1

/-- U++ `ValueMap::GetValue(i)`: the value of entry `i`, with the bound assertion of the
underlying array. -/
def ValueMap.GetValue {α : Type} (map : List (String × Value α)) (i : Int) :
    Except Err (Value α) :=
  Vec.Get (map.map Prod.snd) i

/-- The statement `map.GetAdd(key) = v`: the value of the first entry with that key is
replaced, or a new entry is appended when the key is absent. -/
def ValueMap.GetAdd {α : Type} : List (String × Value α) → String → Value α →
    List (String × Value α)
  | [], key, v => [(key, v)]
  | (k, x) :: rest, key, v =>
    if k = key then (k, v) :: rest else (k, x) :: ValueMap.GetAdd rest key v

/-! ## `Mat::Store` and `Mat::Load` -/

/-- Source `void Mat::Store(ValueMap& map) const` (lines 311-328); `STOREVAR(json, field)` is
`map.GetAdd(#json) = this->field`. -/
def Mat.Store {α : Type} (self : Mat α) (map : List (String × Value α)) :
    Except Err (List (String × Value α)) :=
  let map1 := ValueMap.GetAdd map "sx" (.int self.width)
  let map2 := ValueMap.GetAdd map1 "sy" (.int self.height)
  (forLoop (Vec.GetCount self.weights)
    (fun i w => (Vec.Get self.weights i) >>= fun value => Value.Add w (.dbl value))
    Value.void) >>= fun w =>
  let map3 := ValueMap.GetAdd map2 "w" w
  (forLoop (Vec.GetCount self.weight_gradients)
    (fun i dw => (Vec.Get self.weight_gradients i) >>= fun value =>
      Value.Add dw (.dbl value))
    Value.void) >>= fun dw =>
  .ok (ValueMap.GetAdd map3 "dw" dw)

/-- Source `void Mat::Load(const ValueMap& map)` (lines 330-357); `LOADVAR(field, json)` is
`this->field = map.GetValue(map.Find(#json))`. -/
def Mat.Load {α : Type} [Zero α] (junk : Nat → α) (self : Mat α)
    (map : List (String × Value α)) : Except Err (Mat α) :=
  (ValueMap.GetValue map (ValueMap.Find map "sx")) >>= fun vsx =>
  vsx.toInt >>= fun width =>
  (ValueMap.GetValue map (ValueMap.Find map "sy")) >>= fun vsy =>
  vsy.toInt >>= fun height =>
  let length : Int := width * height
  (Vec.SetCountInit self.weights 0 0) >>= fun w0 =>
  (Vec.SetCountInit w0 length 0) >>= fun w1 =>
  (Vec.SetCountInit self.weight_gradients 0 0) >>= fun g0 =>
  (Vec.SetCountInit g0 length 0) >>= fun g1 =>
  (ValueMap.GetValue map (ValueMap.Find map "w")) >>= fun w =>
  (forLoop length
    (fun i s =>
      (w.At i) >>= fun e => e.toDouble >>= fun value =>
      (Vec.Set junk s.weights i value) >>= fun ws => .ok { s with weights := ws })
    { width := width, height := height, length := length, weights := w1,
      weight_gradients := g1 }) >>= fun s1 =>
  let i := ValueMap.Find map "dw"
  if i ≠ -1 then
    (ValueMap.GetValue map i) >>= fun dw =>
    forLoop length
      (fun i s =>
        (dw.At i) >>= fun e => e.toDouble >>= fun value =>
        (Vec.Put s.weight_gradients i value) >>= fun gs =>
        .ok { s with weight_gradients := gs })
      s1
  else .ok s1

/-! ## `MatPool` -/

/-- The data members of `MatPool` that `Mat.cpp` uses: `mats` (the owned tensors),
`tmp_mat` (the borrowed `Mat*` pointers, of an abstract pointer type `ρ`) and
`index_sequence`. -/
structure MatPool (α ρ : Type) where
  mats : List (Mat α)
  tmp_mat : List ρ
  index_sequence : List Int
  deriving DecidableEq, Repr

/-- What a `Mat&` returned by `MatPool::Get` refers to: element `i` of `mats` (holding
`m`), or the tensor behind the pointer `p` stored in element `pos` of `tmp_mat`. -/
inductive MatRef (α ρ : Type) where
  | persistent (i : Int) (m : Mat α)
  | temporary (pos : Int) (p : ρ)
  deriving DecidableEq, Repr

/-- The pool with no tensors, as constructed. -/
def MatPool.empty {α ρ : Type} : MatPool α ρ :=
  { mats := [], tmp_mat := [], index_sequence := [] }

/-- Source `void MatPool::InitMat(MatId& id, int width, int height, double default_value)`
(lines 366-372); returns the pool and the value written to `id.value`. -/
def MatPool.InitMat {α ρ : Type} [Zero α] (junk : Nat → α) (self : MatPool α ρ)
    (width height : Int) (default_value : α) : Except Err (MatPool α ρ × Int) :=
  let id := Vec.GetCount self.mats
  (Mat.InitConst junk Mat.Mat0 width height default_value) >>= fun mat =>
  .ok ({ self with mats := Vec.Add self.mats mat }, id)

/-- Source `void MatPool::InitMat(MatId& id)` (lines 374-379). -/
def MatPool.InitMatEmpty {α ρ : Type} (self : MatPool α ρ) : MatPool α ρ × Int :=
  let id := Vec.GetCount self.mats
  ({ self with mats := Vec.Add self.mats Mat.Mat0 }, id)

/-- Source `void MatPool::RandMat(int n, int d, double mu, double std, MatId& out)`
(lines 381-387). The free function `FastDQL::RandMat(n, d, mu, std, mat)` is not in
`Mat.cpp`; it is the parameter `randMat`, which receives the freshly added tensor. -/
def MatPool.RandMat {α ρ : Type}
    (randMat : Int → Int → α → α → Mat α → Except Err (Mat α))
    (self : MatPool α ρ) (n d : Int) (mu std : α) : Except Err (MatPool α ρ × Int) :=
  let out := Vec.GetCount self.mats
  (randMat n d mu std Mat.Mat0) >>= fun mat =>
  .ok ({ self with mats := Vec.Add self.mats mat }, out)

/-- Source `MatId MatPool::AddTempMat(Mat& mat)` (lines 389-396). -/
def MatPool.AddTempMat {α ρ : Type} (self : MatPool α ρ) (mat : ρ) : MatPool α ρ × Int :=
  let id := Vec.GetCount self.tmp_mat * -1 - 2
  ({ self with tmp_mat := Vec.Add self.tmp_mat mat }, id)

/-- Source `void MatPool::ClearTempMat()` (lines 398-400): `tmp_mat.SetCount(0)`. -/
def MatPool.ClearTempMat {α ρ : Type} (junk : Nat → ρ) (self : MatPool α ρ) :
    Except Err (MatPool α ρ) :=
  (Vec.SetCount junk self.tmp_mat 0) >>= fun t => .ok { self with tmp_mat := t }

/-- Source `Mat& MatPool::Get(const MatId& id)` (lines 402-409). -/
def MatPool.Get {α ρ : Type} (self : MatPool α ρ) (id : Int) : Except Err (MatRef α ρ) :=
  if id ≥ 0 then
    (Vec.Get self.mats id) >>= fun m => .ok (.persistent id m)
  else if id = -1 then .error .panic
  else
    let pos := id * -1 - 2
    (Vec.Get self.tmp_mat pos) >>= fun p => .ok (.temporary pos p)

/-- Source `int MatPool::GetInput(int pos)` (lines 411-413). -/
def MatPool.GetInput {α ρ : Type} (self : MatPool α ρ) (pos : Int) : Except Err Int :=
  Vec.Get self.index_sequence pos

/-! ## Sequences of pool calls -/

/-- One call of a `MatPool` member function, with its arguments. -/
inductive PoolCall (α ρ : Type) where
  | InitMat (width height : Int) (default_value : α)
  | InitMatEmpty
  | RandMat (n d : Int) (mu std : α)
  | AddTempMat (mat : ρ)
  | ClearTempMat
  | Get (id : Int)
  | GetInput (pos : Int)

/-- A handle value handed out by a pool call, tagged with the call family that issued
it: `InitMat` / `RandMat` (persistent) or `AddTempMat` (temporary). -/
inductive Issued where
  | persistent (value : Int)
  | temporary (value : Int)
  deriving DecidableEq, Repr

/-- The `MatId::value` of an issued handle. -/
def Issued.value : Issued → Int
  | .persistent v => v
  | .temporary v => v

/-- What surrounds a run of pool calls: the contents of uninitialised vector slots and
the free function `FastDQL::RandMat`. -/
structure PoolEnv (α ρ : Type) where
  junk : Nat → α
  junkPtr : Nat → ρ
  randMat : Int → Int → α → α → Mat α → Except Err (Mat α)

/-- Runs one pool call: the pool it leaves and the handle it issued, if any. -/
def MatPool.call {α ρ : Type} [Zero α] (env : PoolEnv α ρ) (self : MatPool α ρ) :
    PoolCall α ρ → Except Err (MatPool α ρ × Option Issued)
  | .InitMat width height default_value =>
    (self.InitMat env.junk width height default_value) >>= fun r =>
    .ok (r.1, some (.persistent r.2))
  | .InitMatEmpty => .ok (self.InitMatEmpty.1, some (.persistent self.InitMatEmpty.2))
  | .RandMat n d mu std =>
    (self.RandMat env.randMat n d mu std) >>= fun r => .ok (r.1, some (.persistent r.2))
  | .AddTempMat mat => .ok ((self.AddTempMat mat).1, some (.temporary (self.AddTempMat mat).2))
  | .ClearTempMat => (self.ClearTempMat env.junkPtr) >>= fun q => .ok (q, none)
  | .Get id => (self.Get id) >>= fun _ => .ok (self, none)
  | .GetInput pos => (self.GetInput pos) >>= fun _ => .ok (self, none)

/-- Runs a sequence of pool calls in order, collecting the handles issued (oldest
first); a fatal call ends the run. -/
def MatPool.run {α ρ : Type} [Zero α] (env : PoolEnv α ρ) :
    List (PoolCall α ρ) → MatPool α ρ → Except Err (MatPool α ρ × List Issued)
  | [], self => .ok (self, [])
  | c :: rest, self =>
    (self.call env c) >>= fun r =>
    (MatPool.run env rest r.1) >>= fun r2 =>
    .ok (r2.1, r.2.toList ++ r2.2)

/-- The calls that hand out a handle: both `InitMat` overloads, `RandMat`, `AddTempMat`. -/
def PoolCall.creates {α ρ : Type} : PoolCall α ρ → Bool
  | .InitMat _ _ _ => true
  | .InitMatEmpty => true
  | .RandMat _ _ _ _ => true
  | .AddTempMat _ => true
  | _ => false

/-- The call `ClearTempMat`. -/
def PoolCall.isClear {α ρ : Type} : PoolCall α ρ → Bool
  | .ClearTempMat => true
  | _ => false

/-- Which container and which element a `Mat&` returned by `MatPool::Get` lives in:
`(true, i)` for `mats[i]`, `(false, pos)` for `tmp_mat[pos]`. -/
def MatRef.slot {α ρ : Type} : MatRef α ρ → Bool × Int
  | .persistent i _ => (true, i)
  | .temporary pos _ => (false, pos)

/-- The issued handles `l` are exactly the valid handles of the pool: a persistent handle
was issued iff it indexes `mats`, a temporary handle was issued iff it decodes to an index
of `tmp_mat`, and no handle value was issued twice. -/
def HandlesMatch {α ρ : Type} (self : MatPool α ρ) (l : List Issued) : Prop :=
  (∀ v, Issued.persistent v ∈ l ↔ 0 ≤ v ∧ v < (self.mats.length : Int))
    ∧ (∀ v, Issued.temporary v ∈ l ↔ v ≤ -2 ∧ -(v + 2) < (self.tmp_mat.length : Int))
    ∧ (l.map Issued.value).Nodup

/-! ## Column selection -/

/-- Source `int Mat::GetMaxColumn() const` (lines 106-117). The loop state is the pair
`(max, pos)`; `negDblMax` stands for the constant `-DBL_MAX`. -/
def Mat.GetMaxColumn {α : Type} [LT α] [DecidableRel (fun a b : α => a < b)]
    (negDblMax : α) (self : Mat α) : Except Err Int :=
  (forLoop (Vec.GetCount self.weights)
    (fun i (s : α × Int) =>
      (Vec.Get self.weights i) >>= fun d =>
      if i = 0 ∨ d > s.1 then .ok (d, i) else .ok s)
    (negDblMax, -1)) >>= fun s => .ok s.2

/-- The loop of `Mat::GetSampledColumn` (lines 124-129), which returns from inside:
`some i` is `return i` at iteration `i`, `none` is the loop running to its end. `fuel`
is the number of iterations left, `x` the running sum. -/
def Mat.GetSampledColumnLoop {α : Type} [Add α] [LT α]
    [DecidableRel (fun a b : α => a < b)] (weights : List α) (r : α) :
    Nat → Int → α → Except Err (Option Int)
  | 0, _, _ => .ok none
  | k + 1, i, x =>
    (Vec.Get weights i) >>= fun w =>
    if x + w > r then .ok (some i)
    else Mat.GetSampledColumnLoop weights r k (i + 1) (x + w)

/-- Source `int Mat::GetSampledColumn() const` (lines 119-131), with the draw
`r = Randomf()` taken as an argument. -/
def Mat.GetSampledColumn {α : Type} [Zero α] [Add α] [LT α]
    [DecidableRel (fun a b : α => a < b)] (r : α) (self : Mat α) : Except Err Int :=
  (Mat.GetSampledColumnLoop self.weights r (Vec.GetCount self.weights).toNat 0 0) >>= fun o =>
  match o with
  | some i => .ok i
  | none => .ok (Vec.GetCount self.weights - 1)

/-- The running sum `x` of `Mat::GetSampledColumn` after `k` iterations:
`((0 + w[0]) + w[1]) + ... + w[k-1]`, added in index order. -/
def prefixSum {α : Type} [Zero α] [Add α] (weights : List α) (k : Nat) : α :=
  (weights.take k).foldl (fun x w => x + w) 0

/-! ## The Gaussian sampler cache -/

/-- Source class `RandomGaussian` (lines 7-22): a seeded generator behind a normal
distribution of standard deviation `sqrt(1/length)`. `stream` is the sequence of values
the seeded generator produces, `drawn` the number of values produced so far. -/
structure RandomGaussian (α : Type) where
  length : Int
  stream : Nat → α
  drawn : Nat

/-- Source `RandomGaussian::RandomGaussian(int length)` (lines 16-18): the generator is
seeded from `Random(1000000000)`; `newStream` is the sequence that seed determines. -/
def RandomGaussian.New {α : Type} (newStream : Nat → α) (length : Int) : RandomGaussian α :=
  { length := length, stream := newStream, drawn := 0 }

/-- Source `RandomGaussian::operator double()` (line 20): the next value of the stream,
and the sampler with its generator advanced. -/
def RandomGaussian.Get {α : Type} (self : RandomGaussian α) : α × RandomGaussian α :=
  (self.stream self.drawn, { self with drawn := self.drawn + 1 })

/-- U++ `ArrayMap::Find(key)`: the index of the first entry with that key, or `-1`. -/
def ArrayMap.Find {β : Type} : List (Int × β) → Int → Int
  | [], _ => -1
  | (k, _) :: rest, key =>
    if k = key then 0
    else if ArrayMap.Find rest key = -1 then -1 else ArrayMap.Find rest key + 1

/-- U++ `ArrayMap::Add(key, value)`: appends the entry. -/
def ArrayMap.Add {β : Type} (map : List (Int × β)) (key : Int) (value : β) : List (Int × β) :=
  Vec.Add map (key, value)

/-- Source `RandomGaussian& GetRandomGaussian(int length)` (lines 30-43), without the
lock calls: the cache it leaves and the index of the entry the returned reference refers
to. `rands` is the process-wide `ArrayMap<int, RandomGaussian>`. -/
def GetRandomGaussian {α : Type} (newStream : Nat → α)
    (rands : List (Int × RandomGaussian α)) (length : Int) :
    Except Err (List (Int × RandomGaussian α) × Int) :=
  let i := ArrayMap.Find rands length
  if i = -1 then
    .ok (ArrayMap.Add rands length (RandomGaussian.New newStream length), Vec.GetCount rands)
  else
    (Vec.Get rands i) >>= fun _ => .ok (rands, i)

/-- Source `Mat& Mat::Init(int width, int height)` (lines 146-166): the tensor and the
sampler cache it leaves. Each `weights.Set(i, rand)` converts `rand` to `double`, which
draws from the sampler the reference `rand` refers to and advances it. -/
def Mat.InitRand {α : Type} [Zero α] (junk newStream : Nat → α)
    (rands : List (Int × RandomGaussian α)) (self : Mat α) (width height : Int) :
    Except Err (Mat α × List (Int × RandomGaussian α)) :=
  if width > 0 ∧ height > 0 then
    let n : Int := width * height
    (Vec.SetCountInit self.weights n 0) >>= fun w0 =>
    (Vec.SetCountInit self.weight_gradients n 0) >>= fun g0 =>
    (GetRandomGaussian newStream rands n) >>= fun got =>
    forLoop n
      (fun i (s : Mat α × List (Int × RandomGaussian α)) =>
        (Vec.Get s.2 got.2) >>= fun e =>
        (Vec.Put s.2 got.2 (e.1, e.2.Get.2)) >>= fun c =>
        (Vec.Set junk s.1.weights i e.2.Get.1) >>= fun w =>
        .ok ({ s.1 with weights := w }, c))
      ({ width := width, height := height, length := n, weights := w0,
         weight_gradients := g0 }, got.1)
  else .error .assertion

/-- Source `Mat::Mat(int width, int height)` (lines 55-58): the assertion, then
`Init(width, height)` on the object under construction, whose vectors are empty. -/
def Mat.MatRand {α : Type} [Zero α] (junk newStream : Nat → α)
    (rands : List (Int × RandomGaussian α)) (width height : Int) :
    Except Err (Mat α × List (Int × RandomGaussian α)) :=
  if width > 0 ∧ height > 0 then Mat.InitRand junk newStream rands Mat.Mat0 width height
  else .error .assertion

/-! ## The pool lock -/

/-- A `MatPool` together with the state of its `SpinLock lock` member, and a count of the
structural changes of `mats` / `tmp_mat` (append, clear) made while the lock was not
held. -/
structure LockedPool (α ρ : Type) where
  pool : MatPool α ρ
  held : Bool
  unguarded : Nat

/-- Source `lock.Enter()`, on a lock that is free. -/
def LockedPool.Enter {α ρ : Type} (self : LockedPool α ρ) : LockedPool α ρ :=
  { self with held := true }

/-- Source `lock.Leave()`. -/
def LockedPool.Leave {α ρ : Type} (self : LockedPool α ρ) : LockedPool α ρ :=
  { self with held := false }

/-- A structural change `f` of the containers, counted when the lock is not held. -/
def LockedPool.mutate {α ρ : Type} (self : LockedPool α ρ) (f : MatPool α ρ → MatPool α ρ) :
    LockedPool α ρ :=
  { self with pool := f self.pool,
              unguarded := if self.held then self.unguarded else self.unguarded + 1 }

/-- Writes the contents of the tensor last added to `mats` (through the reference
`Mat& mat = mats.Add()`); not a structural change. -/
def LockedPool.writeLast {α ρ : Type} (self : LockedPool α ρ) (mat : Mat α) :
    Except Err (LockedPool α ρ) :=
  (Vec.Put self.pool.mats (Vec.GetCount self.pool.mats - 1) mat) >>= fun ms =>
  .ok { self with pool := { self.pool with mats := ms } }

/-- Source `MatPool::InitMat(MatId&, int, int, double)` (lines 366-372), statement by
statement, lock calls included. -/
def LockedPool.InitMat {α ρ : Type} [Zero α] (junk : Nat → α) (self : LockedPool α ρ)
    (width height : Int) (default_value : α) : Except Err (LockedPool α ρ × Int) :=
  let s1 := self.Enter
  let id := Vec.GetCount s1.pool.mats
  let s2 := s1.mutate fun p => { p with mats := Vec.Add p.mats Mat.Mat0 }
  (Mat.InitConst junk Mat.Mat0 width height default_value) >>= fun mat =>
  (s2.writeLast mat) >>= fun s3 =>
  .ok (s3.Leave, id)

/-- Source `MatPool::InitMat(MatId&)` (lines 374-379), lock calls included. -/
def LockedPool.InitMatEmpty {α ρ : Type} (self : LockedPool α ρ) : LockedPool α ρ × Int :=
  let s1 := self.Enter
  let id := Vec.GetCount s1.pool.mats
  let s2 := s1.mutate fun p => { p with mats := Vec.Add p.mats Mat.Mat0 }
  (s2.Leave, id)

/-- Source `MatPool::RandMat` (lines 381-387), lock calls included. -/
def LockedPool.RandMat {α ρ : Type}
    (randMat : Int → Int → α → α → Mat α → Except Err (Mat α))
    (self : LockedPool α ρ) (n d : Int) (mu std : α) : Except Err (LockedPool α ρ × Int) :=
  let s1 := self.Enter
  let out := Vec.GetCount s1.pool.mats
  let s2 := s1.mutate fun p => { p with mats := Vec.Add p.mats Mat.Mat0 }
  (randMat n d mu std Mat.Mat0) >>= fun mat =>
  (s2.writeLast mat) >>= fun s3 =>
  .ok (s3.Leave, out)

/-- Source `MatPool::AddTempMat` (lines 389-396), lock calls included. -/
def LockedPool.AddTempMat {α ρ : Type} (self : LockedPool α ρ) (mat : ρ) :
    LockedPool α ρ × Int :=
  let s1 := self.Enter
  let id := Vec.GetCount s1.pool.tmp_mat * -1 - 2
  let s2 := s1.mutate fun p => { p with tmp_mat := Vec.Add p.tmp_mat mat }
  (s2.Leave, id)

/-- Source `MatPool::ClearTempMat` (lines 398-400): the body is the single statement
`tmp_mat.SetCount(0)`; there is no lock call. -/
def LockedPool.ClearTempMat {α ρ : Type} (self : LockedPool α ρ) : LockedPool α ρ :=
  self.mutate fun p => { p with tmp_mat := [] }

/-! ## Concrete instances -/

/-- A concrete environment over integer scalars and numbered pointers: uninitialised
slots read `99`, and `FastDQL::RandMat` leaves the tensor it is given as it is. -/
def sampleEnv : PoolEnv Int Nat :=
  { junk := fun _ => 99, junkPtr := fun _ => 0, randMat := fun _ _ _ _ m => .ok m }

/-- A pool holding one persistent 1x2 tensor, one temporary pointer and one input slot. -/
def samplePool : MatPool Int Nat :=
  { mats := [{ width := 1, height := 2, length := 2, weights := [3, 4],
               weight_gradients := [0, 0] }],
    tmp_mat := [7], index_sequence := [0] }

/-- A 2x2 tensor over the integers. -/
def sampleMat : Mat Int :=
  { width := 2, height := 2, length := 4, weights := [1, 2, 3, 4],
    weight_gradients := [5, 6, 7, 8] }

/-! ## Basic facts about the embedding -/

@[simp] theorem bind_ok_eq {α β : Type} (a : α) (f : α → Except Err β) :
    ((Except.ok a : Except Err α) >>= f) = f a := rfl

@[simp] theorem bind_error_eq {α β : Type} (e : Err) (f : α → Except Err β) :
    ((Except.error e : Except Err α) >>= f) = Except.error e := rfl

theorem bind_eq_ok_iff {α β : Type} (x : Except Err α) (f : α → Except Err β) (b : β) :
    (x >>= f) = Except.ok b ↔ ∃ a, x = Except.ok a ∧ f a = Except.ok b := by
  cases x with
  | error e => simp
  | ok a => simp

@[simp] theorem GetCount_eq {α : Type} (v : List α) : Vec.GetCount v = (v.length : Int) := rfl

theorem Vec_Get_natCast {α : Type} (v : List α) (k : Nat) (h : k < v.length) :
    Vec.Get v (k : Int) = Except.ok (v.get ⟨k, h⟩) := by
  unfold Vec.Get
  have h1 : (0 : Int) ≤ (k : Int) ∧ (k : Int) < Vec.GetCount v := by
    constructor
    · exact Int.natCast_nonneg k
    · simpa using h
  rw [if_pos h1]
  simp [List.getElem?_eq_getElem h]

theorem Vec_Get_eq_ok_iff {α : Type} (v : List α) (i : Int) (x : α) :
    Vec.Get v i = Except.ok x ↔ 0 ≤ i ∧ v[i.toNat]? = some x := by
  unfold Vec.Get
  by_cases h : 0 ≤ i ∧ i < Vec.GetCount v
  · rw [if_pos h]
    have hlt : i.toNat < v.length := by
      have := h.2
      simp only [GetCount_eq] at this
      omega
    simp [List.getElem?_eq_getElem hlt, h.1]
  · rw [if_neg h]
    constructor
    · intro hc
      cases hc
    · rintro ⟨h0, hx⟩
      exfalso
      apply h
      refine ⟨h0, ?_⟩
      have hlt : i.toNat < v.length := by
        rcases List.getElem?_eq_some_iff.mp hx with ⟨hl, _⟩
        exact hl
      simp only [GetCount_eq]
      omega

theorem Vec_Get_error {α : Type} (v : List α) (i : Int) (h : i < 0 ∨ (v.length : Int) ≤ i) :
    Vec.Get v i = Except.error Err.index := by
  unfold Vec.Get
  have : ¬ (0 ≤ i ∧ i < Vec.GetCount v) := by
    simp only [GetCount_eq]
    omega
  rw [if_neg this]

theorem Vec_Put_natCast {α : Type} (v : List α) (k : Nat) (x : α) (h : k < v.length) :
    Vec.Put v (k : Int) x = Except.ok (v.set k x) := by
  unfold Vec.Put
  have h1 : (0 : Int) ≤ (k : Int) ∧ (k : Int) < Vec.GetCount v := by
    constructor
    · exact Int.natCast_nonneg k
    · simpa using h
  rw [if_pos h1]
  simp

theorem Vec_Put_error {α : Type} (v : List α) (i : Int) (x : α)
    (h : i < 0 ∨ (v.length : Int) ≤ i) : Vec.Put v i x = Except.error Err.index := by
  unfold Vec.Put
  have : ¬ (0 ≤ i ∧ i < Vec.GetCount v) := by
    simp only [GetCount_eq]
    omega
  rw [if_neg this]

theorem Vec_Put_length {α : Type} (v v1 : List α) (i : Int) (x : α)
    (h : Vec.Put v i x = Except.ok v1) : v1.length = v.length := by
  unfold Vec.Put at h
  split at h
  · cases h
    simp
  · cases h

theorem Vec_Set_natCast {α : Type} (junk : Nat → α) (v : List α) (k : Nat) (x : α)
    (h : k < v.length) : Vec.Set junk v (k : Int) x = Except.ok (v.set k x) := by
  unfold Vec.Set
  have h0 : ¬ ((k : Int) < 0) := by omega
  have h1 : ¬ ((k : Int) ≥ Vec.GetCount v) := by
    simp only [GetCount_eq]
    omega
  rw [if_neg h0, if_neg h1, bind_ok_eq]
  exact Vec_Put_natCast v k x h

theorem Vec_SetCountInit_natCast {α : Type} (v : List α) (n : Nat) (init : α) :
    Vec.SetCountInit v (n : Int) init
      = Except.ok (v.take n ++ List.replicate (n - v.length) init) := by
  unfold Vec.SetCountInit
  have h0 : ¬ ((n : Int) < 0) := by omega
  rw [if_neg h0]
  simp

theorem Vec_SetCount_natCast {α : Type} (junk : Nat → α) (v : List α) (n : Nat) :
    Vec.SetCount junk v (n : Int)
      = Except.ok (v.take n ++ (List.range' v.length (n - v.length)).map junk) := by
  unfold Vec.SetCount
  have h0 : ¬ ((n : Int) < 0) := by omega
  rw [if_neg h0]
  simp

theorem Vec_SetCount_length {α : Type} (junk : Nat → α) (v v1 : List α) (n : Int)
    (h : Vec.SetCount junk v n = Except.ok v1) : (v1.length : Int) = n := by
  unfold Vec.SetCount at h
  split at h
  · cases h
  · cases h
    simp
    omega

theorem Vec_SetCountInit_length {α : Type} (v v1 : List α) (n : Int) (init : α)
    (h : Vec.SetCountInit v n init = Except.ok v1) : (v1.length : Int) = n := by
  unfold Vec.SetCountInit at h
  split at h
  · cases h
  · cases h
    simp
    omega

/-! ### Loops -/

theorem forLoopFrom_succ {σ : Type} (body : Int → σ → Except Err σ) (k : Nat) (i : Int)
    (s : σ) :
    forLoopFrom body (k + 1) i s
      = (forLoopFrom body k i s >>= fun s1 => body (i + (k : Int)) s1) := by
  induction k generalizing i s with
  | zero =>
    have e0 : i + ((0 : Nat) : Int) = i := by simp
    rw [e0]
    simp only [forLoopFrom, bind_ok_eq]
    cases hb : body i s <;> rfl
  | succ k ih =>
    have e1 : forLoopFrom body (k + 1 + 1) i s
        = (body i s >>= fun s1 => forLoopFrom body (k + 1) (i + 1) s1) := rfl
    have e2 : forLoopFrom body (k + 1) i s
        = (body i s >>= fun s1 => forLoopFrom body k (i + 1) s1) := rfl
    rw [e1, e2]
    cases hb : body i s with
    | error e => rfl
    | ok s1 =>
      simp only [bind_ok_eq]
      rw [ih]
      have e3 : i + 1 + (k : Int) = i + ((k + 1 : Nat) : Int) := by push_cast; ring
      rw [e3]

/-- Total-correctness rule for a counted loop: an invariant that holds on entry and that
every iteration re-establishes (without failing) holds when the loop returns, and the
loop does return. -/
theorem forLoopFrom_inv {σ : Type} (body : Int → σ → Except Err σ) (P : Nat → σ → Prop)
    (n : Nat) (s0 : σ) (h0 : P 0 s0)
    (hstep : ∀ k s, k < n → P k s → ∃ s1, body (k : Int) s = Except.ok s1 ∧ P (k + 1) s1) :
    ∃ s1, forLoopFrom body n 0 s0 = Except.ok s1 ∧ P n s1 := by
  have key : ∀ m, m ≤ n → ∃ s1, forLoopFrom body m 0 s0 = Except.ok s1 ∧ P m s1 := by
    intro m
    induction m with
    | zero => intro _; exact ⟨s0, rfl, h0⟩
    | succ m ih =>
      intro hm
      obtain ⟨s1, hs1, hP⟩ := ih (by omega)
      obtain ⟨s2, hs2, hP2⟩ := hstep m s1 (by omega) hP
      refine ⟨s2, ?_, hP2⟩
      rw [forLoopFrom_succ, hs1, bind_ok_eq]
      simpa using hs2
  exact key n le_rfl

/-- Preservation rule for a counted loop: a property every successful iteration keeps is
kept by every successful run of the loop. -/
theorem forLoopFrom_preserves {σ : Type} (body : Int → σ → Except Err σ) (Q : σ → Prop)
    (hstep : ∀ i s s1, Q s → body i s = Except.ok s1 → Q s1)
    (n : Nat) (i : Int) (s0 s1 : σ) (h0 : Q s0)
    (h : forLoopFrom body n i s0 = Except.ok s1) : Q s1 := by
  induction n generalizing i s0 with
  | zero =>
    simp only [forLoopFrom] at h
    cases h
    exact h0
  | succ n ih =>
    rw [forLoopFrom] at h
    obtain ⟨s2, hs2, hrest⟩ := (bind_eq_ok_iff _ _ _).mp h
    exact ih (i + 1) s2 (hstep i s0 s2 h0 hs2) hrest

/-! ### Constant initialisation -/

theorem list_eq_replicate_of_getElem? {α : Type} (l : List α) (N : Nat) (c : α)
    (hlen : l.length = N) (hall : ∀ j, j < N → l[j]? = some c) :
    l = List.replicate N c := by
  apply List.ext_getElem?
  intro j
  by_cases hj : j < N
  · rw [hall j hj]
    simp [List.getElem?_replicate, hj]
  · have h1 : l.length ≤ j := by omega
    rw [List.getElem?_eq_none h1]
    simp [List.getElem?_replicate, hj]

theorem list_eq_of_getElem? {α : Type} (l t : List α) (hlen : l.length = t.length)
    (hall : ∀ j, j < t.length → l[j]? = t[j]?) : l = t := by
  apply List.ext_getElem?
  intro j
  by_cases hj : j < t.length
  · exact hall j hj
  · have h1 : l.length ≤ j := by omega
    have h2 : t.length ≤ j := by omega
    rw [List.getElem?_eq_none h1, List.getElem?_eq_none h2]

theorem getElem?_set_step {α : Type} (l : List α) (k : Nat) (x c : α) (hk : k < l.length)
    (hprev : ∀ j, j < k → l[j]? = some c) (hx : x = c) :
    ∀ j, j < k + 1 → (l.set k x)[j]? = some c := by
  intro j hj
  by_cases hjk : j = k
  · subst hjk
    simp [List.getElem?_set, hk, hx]
  · have hlt : j < k := by omega
    rw [List.getElem?_set]
    have hne : ¬ (k = j) := fun e => hjk e.symm
    simp only [hne, if_false]
    exact hprev j hlt

/-- Source `Mat::Init(width, height, c)` with positive dimensions returns, from any prior state
of the tensor and whatever the uninitialised slots hold, the `width * height` tensor with
every weight `c` and every gradient `0`. -/
theorem Mat_InitConst_ok {α : Type} [Zero α] (junk : Nat → α) (self : Mat α)
    (width height : Int) (c : α) (hw : 0 < width) (hh : 0 < height) :
    Mat.InitConst junk self width height c
      = Except.ok { width := width, height := height, length := width * height,
                    weights := List.replicate (width * height).toNat c,
                    weight_gradients := List.replicate (width * height).toNat 0 } := by
  have hnpos : 0 < width * height := Int.mul_pos hw hh
  obtain ⟨N, hN⟩ : ∃ N : Nat, width * height = (N : Int) :=
    ⟨(width * height).toNat, by omega⟩
  unfold Mat.InitConst
  rw [if_pos ⟨hw, hh⟩]
  simp only [hN, Vec_SetCount_natCast, bind_ok_eq, forLoop, Int.toNat_ofNat]
  obtain ⟨s1, hs1, hP⟩ := forLoopFrom_inv
    (fun i s =>
        (Vec.Set junk s.weights i c) >>= fun w =>
        (Vec.Put s.weight_gradients i 0) >>= fun g =>
        (Except.ok { s with weights := w, weight_gradients := g } : Except Err (Mat α)))
    (fun k s => s.width = width ∧ s.height = height ∧ s.length = (N : Int)
        ∧ s.weights.length = N ∧ s.weight_gradients.length = N
        ∧ (∀ j, j < k → s.weights[j]? = some c)
        ∧ (∀ j, j < k → s.weight_gradients[j]? = some 0))
    N
    { width := width, height := height, length := (N : Int),
      weights := List.take N self.weights
        ++ List.map junk (List.range' self.weights.length (N - self.weights.length)),
      weight_gradients := List.take N self.weight_gradients
        ++ List.map junk
            (List.range' self.weight_gradients.length (N - self.weight_gradients.length)) }
    (by
      refine ⟨rfl, rfl, rfl, ?_, ?_, ?_, ?_⟩
      · simp; omega
      · simp; omega
      · intro j hj; omega
      · intro j hj; omega)
    (by
      intro k s hk ⟨h1, h2, h3, h4, h5, h6, h7⟩
      have hkw : k < s.weights.length := by omega
      have hkg : k < s.weight_gradients.length := by omega
      refine ⟨{ s with weights := s.weights.set k c,
                       weight_gradients := s.weight_gradients.set k 0 }, ?_, ?_⟩
      · simp only [Vec_Set_natCast junk _ k c hkw, Vec_Put_natCast _ k 0 hkg, bind_ok_eq]
      · refine ⟨h1, h2, h3, ?_, ?_, ?_, ?_⟩
        · simpa using h4
        · simpa using h5
        · exact getElem?_set_step s.weights k c c hkw h6 rfl
        · exact getElem?_set_step s.weight_gradients k 0 0 hkg h7 rfl)
  rw [hs1]
  obtain ⟨h1, h2, h3, h4, h5, h6, h7⟩ := hP
  have ew := list_eq_replicate_of_getElem? s1.weights N c h4 h6
  have eg := list_eq_replicate_of_getElem? s1.weight_gradients N 0 h5 h7
  cases s1
  simp only at h1 h2 h3 ew eg
  subst h1 h2 h3 ew eg
  rfl


/-! ### `MatPool::Get` -/

theorem MatPool_Get_persistent {α ρ : Type} (p : MatPool α ρ) (k : Nat)
    (hk : k < p.mats.length) :
    p.Get (k : Int) = Except.ok (MatRef.persistent (k : Int) (p.mats.get ⟨k, hk⟩)) := by
  unfold MatPool.Get
  have h0 : (k : Int) ≥ 0 := Int.natCast_nonneg k
  rw [if_pos h0, Vec_Get_natCast p.mats k hk, bind_ok_eq]

theorem MatPool_Get_temporary {α ρ : Type} (p : MatPool α ρ) (k : Nat)
    (hk : k < p.tmp_mat.length) :
    p.Get (-((k : Int) + 2))
      = Except.ok (MatRef.temporary (k : Int) (p.tmp_mat.get ⟨k, hk⟩)) := by
  unfold MatPool.Get
  have h0 : ¬ (-((k : Int) + 2) ≥ 0) := by omega
  have h1 : ¬ (-((k : Int) + 2) = -1) := by omega
  have e : -((k : Int) + 2) * -1 - 2 = (k : Int) := by ring
  rw [if_neg h0, if_neg h1]
  simp only [e]
  rw [Vec_Get_natCast p.tmp_mat k hk, bind_ok_eq]

/-- C4. `MatPool::Get(h)` is decided by `h` and the pool alone: a handle
`0 <= h < mats.GetCount()` resolves to `mats[h]`; a handle `h <= -2` with
`-(h+2) < tmp_mat.GetCount()` resolves to `tmp_mat[-(h+2)]`; `h = -1` is the panic
"Invalid MatId" in every pool; a non-negative handle at or past the persistent count
and a handle `h <= -2` whose decoded index is at or past the temporary count are fatal
index errors. These five cases cover every integer, so no call returns a default
tensor. -/
theorem MatPool_Get_cases {α ρ : Type} (p : MatPool α ρ) (h : Int) :
    (0 ≤ h ∧ h < (p.mats.length : Int) →
      ∃ m, p.mats[h.toNat]? = some m ∧ p.Get h = Except.ok (MatRef.persistent h m)) ∧
    (h ≤ -2 ∧ -(h + 2) < (p.tmp_mat.length : Int) →
      ∃ q, p.tmp_mat[(-(h + 2)).toNat]? = some q
        ∧ p.Get h = Except.ok (MatRef.temporary (-(h + 2)) q)) ∧
    (h = -1 → p.Get h = Except.error Err.panic) ∧
    ((p.mats.length : Int) ≤ h → p.Get h = Except.error Err.index) ∧
    (h ≤ -2 ∧ (p.tmp_mat.length : Int) ≤ -(h + 2) → p.Get h = Except.error Err.index) := by
  refine ⟨?_, ?_, ?_, ?_, ?_⟩
  · rintro ⟨h0, h1⟩
    obtain ⟨k, rfl⟩ : ∃ k : Nat, h = (k : Int) := ⟨h.toNat, by omega⟩
    have hk : k < p.mats.length := by omega
    refine ⟨p.mats.get ⟨k, hk⟩, ?_, MatPool_Get_persistent p k hk⟩
    simp [List.getElem?_eq_getElem hk]
  · rintro ⟨h0, h1⟩
    obtain ⟨k, hk0⟩ : ∃ k : Nat, -(h + 2) = (k : Int) := ⟨(-(h + 2)).toNat, by omega⟩
    have hk : k < p.tmp_mat.length := by omega
    have eh : h = -((k : Int) + 2) := by omega
    refine ⟨p.tmp_mat.get ⟨k, hk⟩, ?_, ?_⟩
    · rw [hk0]
      simp [List.getElem?_eq_getElem hk]
    · rw [hk0, eh]
      exact MatPool_Get_temporary p k hk
  · intro h1
    subst h1
    unfold MatPool.Get
    simp
  · intro h1
    unfold MatPool.Get
    have h0 : h ≥ 0 := by omega
    rw [if_pos h0, Vec_Get_error p.mats h (Or.inr h1), bind_error_eq]
  · rintro ⟨h0, h1⟩
    unfold MatPool.Get
    have hn0 : ¬ (h ≥ 0) := by omega
    have hn1 : ¬ (h = -1) := by omega
    rw [if_neg hn0, if_neg hn1]
    simp only
    rw [Vec_Get_error p.tmp_mat (h * -1 - 2) (Or.inr (by omega)), bind_error_eq]


/-! ### Single pool calls -/

theorem MatPool_InitMat_ok {α ρ : Type} [Zero α] (junk : Nat → α) (p : MatPool α ρ)
    (width height : Int) (c : α) (hw : 0 < width) (hh : 0 < height) :
    p.InitMat junk width height c
      = Except.ok
          ({ p with mats := p.mats ++
              [{ width := width, height := height, length := width * height,
                 weights := List.replicate (width * height).toNat c,
                 weight_gradients := List.replicate (width * height).toNat 0 }] },
           (p.mats.length : Int)) := by
  unfold MatPool.InitMat
  rw [Mat_InitConst_ok junk Mat.Mat0 width height c hw hh]
  rfl

/-- What a successful pool call does to the two containers: `mats` only ever gains
entries at its end, and so does `tmp_mat` unless the call is `ClearTempMat`. -/
theorem MatPool_call_frame {α ρ : Type} [Zero α] (env : PoolEnv α ρ) (p p1 : MatPool α ρ)
    (c : PoolCall α ρ) (o : Option Issued) (h : p.call env c = Except.ok (p1, o)) :
    (∃ t, p1.mats = p.mats ++ t) ∧ (c.isClear = false → ∃ t, p1.tmp_mat = p.tmp_mat ++ t) := by
  cases c with
  | InitMat width height default_value =>
    simp only [MatPool.call, MatPool.InitMat, bind_eq_ok_iff] at h
    obtain ⟨r, ⟨m, _, hr⟩, h2⟩ := h
    cases hr
    cases h2
    exact ⟨⟨[m], rfl⟩, fun _ => ⟨[], by simp⟩⟩
  | InitMatEmpty =>
    simp only [MatPool.call, MatPool.InitMatEmpty] at h
    cases h
    exact ⟨⟨[Mat.Mat0], rfl⟩, fun _ => ⟨[], by simp⟩⟩
  | RandMat n d mu std =>
    simp only [MatPool.call, MatPool.RandMat, bind_eq_ok_iff] at h
    obtain ⟨r, ⟨m, _, hr⟩, h2⟩ := h
    cases hr
    cases h2
    exact ⟨⟨[m], rfl⟩, fun _ => ⟨[], by simp⟩⟩
  | AddTempMat mat =>
    simp only [MatPool.call, MatPool.AddTempMat] at h
    cases h
    exact ⟨⟨[], by simp⟩, fun _ => ⟨[mat], rfl⟩⟩
  | ClearTempMat =>
    simp only [MatPool.call, MatPool.ClearTempMat, bind_eq_ok_iff] at h
    obtain ⟨q, ⟨t, _, hq⟩, h2⟩ := h
    cases hq
    cases h2
    exact ⟨⟨[], by simp⟩, fun hc => by simp [PoolCall.isClear] at hc⟩
  | Get id =>
    simp only [MatPool.call, bind_eq_ok_iff] at h
    obtain ⟨_, _, h2⟩ := h
    cases h2
    exact ⟨⟨[], by simp⟩, fun _ => ⟨[], by simp⟩⟩
  | GetInput pos =>
    simp only [MatPool.call, bind_eq_ok_iff] at h
    obtain ⟨_, _, h2⟩ := h
    cases h2
    exact ⟨⟨[], by simp⟩, fun _ => ⟨[], by simp⟩⟩

theorem MatPool_run_cons {α ρ : Type} [Zero α] (env : PoolEnv α ρ) (c : PoolCall α ρ)
    (rest : List (PoolCall α ρ)) (p p2 : MatPool α ρ) (hs : List Issued)
    (h : MatPool.run env (c :: rest) p = Except.ok (p2, hs)) :
    ∃ p1 o hs1, p.call env c = Except.ok (p1, o)
      ∧ MatPool.run env rest p1 = Except.ok (p2, hs1) ∧ hs = o.toList ++ hs1 := by
  simp only [MatPool.run, bind_eq_ok_iff] at h
  obtain ⟨⟨p1, o⟩, h1, ⟨p3, hs1⟩, h3, h4⟩ := h
  cases h4
  exact ⟨p1, o, hs1, h1, h3, rfl⟩

theorem MatPool_run_frame {α ρ : Type} [Zero α] (env : PoolEnv α ρ)
    (calls : List (PoolCall α ρ)) (p p2 : MatPool α ρ) (hs : List Issued)
    (h : MatPool.run env calls p = Except.ok (p2, hs)) :
    (∃ t, p2.mats = p.mats ++ t)
      ∧ ((∀ c ∈ calls, PoolCall.isClear c = false) → ∃ t, p2.tmp_mat = p.tmp_mat ++ t) := by
  induction calls generalizing p hs with
  | nil =>
    simp only [MatPool.run] at h
    cases h
    exact ⟨⟨[], by simp⟩, fun _ => ⟨[], by simp⟩⟩
  | cons c rest ih =>
    obtain ⟨p1, o, hs1, h1, h2, _⟩ := MatPool_run_cons env c rest p p2 hs h
    obtain ⟨⟨t1, e1⟩, f1⟩ := MatPool_call_frame env p p1 c o h1
    obtain ⟨⟨t2, e2⟩, f2⟩ := ih p1 hs1 h2
    refine ⟨⟨t1 ++ t2, by rw [e2, e1, List.append_assoc]⟩, ?_⟩
    intro hc
    obtain ⟨u1, g1⟩ := f1 (hc c (List.mem_cons_self c rest))
    obtain ⟨u2, g2⟩ := f2 (fun d hd => hc d (List.mem_cons_of_mem c hd))
    exact ⟨u1 ++ u2, by rw [g2, g1, List.append_assoc]⟩

/-- C2. `MatPool::AddTempMat(m)` appends `m` to `tmp_mat` at index
`k = (previous temporary count)`, leaves `mats` alone and returns the handle `-(k+2)`;
`MatPool::Get` on that handle returns the reference through slot `k`, which holds `m`,
and it still does so after any further successful calls among `AddTempMat`, both
`InitMat` overloads, `RandMat`, `Get` and `GetInput`, that is as long as `ClearTempMat`
has not been called. -/
theorem MatPool_AddTempMat_handle {α ρ : Type} [Zero α] (env : PoolEnv α ρ)
    (p : MatPool α ρ) (m : ρ) (calls : List (PoolCall α ρ)) (p2 : MatPool α ρ)
    (hs : List Issued) (hclear : ∀ c ∈ calls, PoolCall.isClear c = false)
    (hrun : MatPool.run env calls (p.AddTempMat m).1 = Except.ok (p2, hs)) :
    (p.AddTempMat m).2 = -((p.tmp_mat.length : Int) + 2)
      ∧ (p.AddTempMat m).1.tmp_mat = p.tmp_mat ++ [m]
      ∧ (p.AddTempMat m).1.mats = p.mats
      ∧ (p.AddTempMat m).1.Get (p.AddTempMat m).2
          = Except.ok (MatRef.temporary (p.tmp_mat.length : Int) m)
      ∧ p2.Get (p.AddTempMat m).2
          = Except.ok (MatRef.temporary (p.tmp_mat.length : Int) m) := by
  have hid : (p.AddTempMat m).2 = -((p.tmp_mat.length : Int) + 2) := by
    simp only [MatPool.AddTempMat, GetCount_eq]
    ring
  have htmp : (p.AddTempMat m).1.tmp_mat = p.tmp_mat ++ [m] := rfl
  have key : ∀ q : MatPool α ρ, (∃ t, q.tmp_mat = (p.tmp_mat ++ [m]) ++ t) →
      q.Get (-((p.tmp_mat.length : Int) + 2))
        = Except.ok (MatRef.temporary (p.tmp_mat.length : Int) m) := by
    rintro q ⟨t, ht⟩
    have hk : p.tmp_mat.length < q.tmp_mat.length := by
      rw [ht]
      simp
    rw [MatPool_Get_temporary q p.tmp_mat.length hk]
    have hget : q.tmp_mat[p.tmp_mat.length]? = some m := by
      rw [ht, List.append_assoc, List.getElem?_append_right (le_refl _)]
      simp
    have : q.tmp_mat.get ⟨p.tmp_mat.length, hk⟩ = m := by
      have h2 := List.getElem?_eq_getElem hk
      rw [hget] at h2
      exact (Option.some.inj h2).symm
    rw [this]
  refine ⟨hid, htmp, rfl, ?_, ?_⟩
  · rw [hid]
    exact key _ ⟨[], by simp [htmp]⟩
  · rw [hid]
    obtain ⟨t, ht⟩ := (MatPool_run_frame env calls _ p2 hs hrun).2 hclear
    exact key p2 ⟨t, by rw [ht, htmp]⟩


/-- Witness for C2 on `samplePool`: the pointer `8` is registered under handle `-3`
(slot 1), and after six further calls, one of each kind other than `ClearTempMat`, the
handle still resolves to slot 1 holding `8`. -/
theorem MatPool_AddTempMat_handle_witness :
    (samplePool.AddTempMat 8).2 = -3
      ∧ MatPool.run sampleEnv
          [PoolCall.InitMat 2 1 5, PoolCall.AddTempMat 9, PoolCall.RandMat 1 1 0 1,
           PoolCall.InitMatEmpty, PoolCall.Get 0, PoolCall.GetInput 0]
          (samplePool.AddTempMat 8).1
        = Except.ok
            ({ mats := [{ width := 1, height := 2, length := 2, weights := [3, 4],
                          weight_gradients := [0, 0] },
                        { width := 2, height := 1, length := 2, weights := [5, 5],
                          weight_gradients := [0, 0] },
                        { width := 0, height := 0, length := 0, weights := [],
                          weight_gradients := [] },
                        { width := 0, height := 0, length := 0, weights := [],
                          weight_gradients := [] }],
               tmp_mat := [7, 8, 9], index_sequence := [0] },
             [Issued.persistent 1, Issued.temporary (-4), Issued.persistent 2,
              Issued.persistent 3])
      ∧ MatPool.Get
          ({ mats := [{ width := 1, height := 2, length := 2, weights := [3, 4],
                        weight_gradients := [0, 0] },
                      { width := 2, height := 1, length := 2, weights := [5, 5],
                        weight_gradients := [0, 0] },
                      { width := 0, height := 0, length := 0, weights := [],
                        weight_gradients := [] },
                      { width := 0, height := 0, length := 0, weights := [],
                        weight_gradients := [] }],
             tmp_mat := [7, 8, 9], index_sequence := [0] } : MatPool Int Nat)
          (samplePool.AddTempMat 8).2
        = Except.ok (MatRef.temporary 1 8) :=
  ⟨rfl, rfl,
   (MatPool_AddTempMat_handle sampleEnv samplePool 8
      [PoolCall.InitMat 2 1 5, PoolCall.AddTempMat 9, PoolCall.RandMat 1 1 0 1,
       PoolCall.InitMatEmpty, PoolCall.Get 0, PoolCall.GetInput 0]
      _ _ (by simp [PoolCall.isClear]) rfl).2.2.2.2⟩

/-! ### Creation of persistent tensors -/

theorem MatPool_Get_append_last {α ρ : Type} (p : MatPool α ρ) (ms : List (Mat α))
    (m : Mat α) (h : p.mats = ms ++ [m]) :
    p.Get (ms.length : Int) = Except.ok (MatRef.persistent (ms.length : Int) m) := by
  have hk : ms.length < p.mats.length := by
    rw [h]
    simp
  rw [MatPool_Get_persistent p ms.length hk]
  have hget : p.mats[ms.length]? = some m := by
    rw [h, List.getElem?_append_right (le_refl _)]
    simp
  have h2 := List.getElem?_eq_getElem hk
  rw [hget] at h2
  have : p.mats.get ⟨ms.length, hk⟩ = m := (Option.some.inj h2).symm
  rw [this]

theorem MatPool_run_InitMat {α ρ : Type} [Zero α] (env : PoolEnv α ρ)
    (args : List (Int × Int × α)) (hargs : ∀ a ∈ args, 0 < a.1 ∧ 0 < a.2.1)
    (p : MatPool α ρ) :
    ∃ p2, MatPool.run env (args.map fun a => PoolCall.InitMat a.1 a.2.1 a.2.2) p
        = Except.ok (p2, (List.range' p.mats.length args.length).map
            fun k => Issued.persistent (k : Int))
      ∧ p2.mats.length = p.mats.length + args.length := by
  induction args generalizing p with
  | nil => exact ⟨p, rfl, rfl⟩
  | cons a rest ih =>
    obtain ⟨hw, hh⟩ := hargs a (List.mem_cons_self a rest)
    have hcall := MatPool_InitMat_ok env.junk p a.1 a.2.1 a.2.2 hw hh
    obtain ⟨p2, hrun, hlen⟩ := ih (fun b hb => hargs b (List.mem_cons_of_mem a hb))
      { p with mats := p.mats ++
          [{ width := a.1, height := a.2.1, length := a.1 * a.2.1,
             weights := List.replicate (a.1 * a.2.1).toNat a.2.2,
             weight_gradients := List.replicate (a.1 * a.2.1).toNat 0 }] }
    refine ⟨p2, ?_, ?_⟩
    · simp only [List.map_cons, MatPool.run, MatPool.call] at hrun ⊢
      rw [hcall]
      simp only [bind_ok_eq]
      rw [hrun]
      simp [List.range'_succ]
    · rw [hlen]
      simp
      omega

/-- C5. For positive `width` and `height`, `MatPool::InitMat(id, width, height, c)` on any
pool returns, sets `id` to the previous number of persistent tensors, appends exactly
one tensor to `mats` (the other entries and `tmp_mat` are kept), and the handle resolves
to that tensor: it has the given width and height, `length = width * height`,
`width * height` weights all equal to `c` and `width * height` gradients all equal to 0.
Hence any `N` successive creations with positive dimensions on the empty pool return the
handles `0, 1, ..., N-1` in order. -/
theorem MatPool_InitMat_creates {α ρ : Type} [Zero α] (env : PoolEnv α ρ) (p : MatPool α ρ)
    (width height : Int) (c : α) (hw : 0 < width) (hh : 0 < height)
    (args : List (Int × Int × α)) (hargs : ∀ a ∈ args, 0 < a.1 ∧ 0 < a.2.1) :
    (∃ p1 m, p.InitMat env.junk width height c = Except.ok (p1, (p.mats.length : Int))
        ∧ 0 ≤ (p.mats.length : Int)
        ∧ p1.mats = p.mats ++ [m] ∧ p1.mats.length = p.mats.length + 1
        ∧ p1.tmp_mat = p.tmp_mat
        ∧ p1.Get (p.mats.length : Int)
            = Except.ok (MatRef.persistent (p.mats.length : Int) m)
        ∧ m.width = width ∧ m.height = height ∧ m.length = width * height
        ∧ (m.weights.length : Int) = width * height ∧ (∀ x ∈ m.weights, x = c)
        ∧ (m.weight_gradients.length : Int) = width * height
        ∧ (∀ g ∈ m.weight_gradients, g = 0))
    ∧ (∃ p2, MatPool.run env (args.map fun a => PoolCall.InitMat a.1 a.2.1 a.2.2)
          (MatPool.empty : MatPool α ρ)
        = Except.ok (p2, (List.range args.length).map
            fun k => Issued.persistent (k : Int))
      ∧ p2.mats.length = args.length) := by
  constructor
  · have hpos : 0 < width * height := Int.mul_pos hw hh
    refine ⟨_, _, MatPool_InitMat_ok env.junk p width height c hw hh, ?_, rfl, ?_, rfl, ?_,
      rfl, rfl, rfl, ?_, ?_, ?_, ?_⟩
    · exact Int.natCast_nonneg _
    · simp
    · exact MatPool_Get_append_last _ p.mats _ rfl
    · simp only [List.length_replicate]
      omega
    · intro x hx
      exact List.eq_of_mem_replicate hx
    · simp only [List.length_replicate]
      omega
    · intro g hg
      exact List.eq_of_mem_replicate hg
  · obtain ⟨p2, hrun, hlen⟩ := MatPool_run_InitMat env args hargs (MatPool.empty : MatPool α ρ)
    refine ⟨p2, ?_, ?_⟩
    · rw [hrun, List.range_eq_range']
      rfl
    · rw [hlen]
      simp [MatPool.empty]

/-- Witness for C5: a 2x1 creation with constant `5` on `samplePool` (one persistent
tensor) returns handle 1, and three creations on the empty pool return 0, 1, 2. -/
theorem MatPool_InitMat_creates_witness :
    samplePool.InitMat sampleEnv.junk 2 1 5
        = Except.ok
            ({ samplePool with mats := samplePool.mats ++
                [{ width := 2, height := 1, length := 2, weights := [5, 5],
                   weight_gradients := [0, 0] }] }, 1)
      ∧ ∃ p2, MatPool.run sampleEnv
            ([((1 : Int), (1 : Int), (4 : Int)), (2, 3, 0), (1, 2, 9)].map
              fun a => PoolCall.InitMat a.1 a.2.1 a.2.2)
            (MatPool.empty : MatPool Int Nat)
          = Except.ok (p2, (List.range 3).map fun k => Issued.persistent (k : Int))
        ∧ p2.mats.length = 3 :=
  ⟨rfl,
   (MatPool_InitMat_creates sampleEnv samplePool 2 1 5 (by decide) (by decide)
      [((1 : Int), (1 : Int), (4 : Int)), (2, 3, 0), (1, 2, 9)] (by decide)).2⟩

/-! ### Stability of persistent handles -/

/-- C6. Persistent handles are index-stable: for every pool and every handle `h` with
`0 <= h < mats.GetCount()`, after any single pool call that returns (either `InitMat`
overload, `RandMat`, `AddTempMat`, `ClearTempMat`, `Get`, `GetInput`) the handle still
resolves, to element `h` of `mats` holding the same tensor (same dimensions, weights and
gradients) as before; the call leaves every earlier entry of `mats` in place and at most
appends to it. -/
theorem MatPool_persistent_stable {α ρ : Type} [Zero α] (env : PoolEnv α ρ)
    (p p1 : MatPool α ρ) (c : PoolCall α ρ) (o : Option Issued) (h : Int)
    (h0 : 0 ≤ h) (h1 : h < (p.mats.length : Int))
    (hcall : p.call env c = Except.ok (p1, o)) :
    (∃ m, p.Get h = Except.ok (MatRef.persistent h m)
        ∧ p1.Get h = Except.ok (MatRef.persistent h m))
      ∧ ∃ t, p1.mats = p.mats ++ t := by
  obtain ⟨⟨t, ht⟩, _⟩ := MatPool_call_frame env p p1 c o hcall
  refine ⟨?_, t, ht⟩
  obtain ⟨k, rfl⟩ : ∃ k : Nat, h = (k : Int) := ⟨h.toNat, by omega⟩
  have hk : k < p.mats.length := by omega
  have hk1 : k < p1.mats.length := by
    rw [ht]
    simp
    omega
  refine ⟨p.mats.get ⟨k, hk⟩, MatPool_Get_persistent p k hk, ?_⟩
  rw [MatPool_Get_persistent p1 k hk1]
  have e : p1.mats.get ⟨k, hk1⟩ = p.mats.get ⟨k, hk⟩ := by
    simp only [List.get_eq_getElem, ht]
    exact List.getElem_append_left hk
  rw [e]

/-- Witness for C6: `ClearTempMat` on `samplePool` keeps handle 0 resolving to the same
1x2 tensor. -/
theorem MatPool_persistent_stable_witness :
    (∃ m, samplePool.Get 0 = Except.ok (MatRef.persistent 0 m)
        ∧ MatPool.Get ({ samplePool with tmp_mat := [] } : MatPool Int Nat) 0
            = Except.ok (MatRef.persistent 0 m))
      ∧ ∃ t, ({ samplePool with tmp_mat := [] } : MatPool Int Nat).mats
            = samplePool.mats ++ t :=
  MatPool_persistent_stable sampleEnv samplePool { samplePool with tmp_mat := [] }
    PoolCall.ClearTempMat none 0 (by decide) (by decide) rfl


/-! ### Injectivity of the handle encoding -/

theorem MatPool_Get_slot {α ρ : Type} (p : MatPool α ρ) (v : Int) (r : MatRef α ρ)
    (h : p.Get v = Except.ok r) :
    (0 ≤ v ∧ r.slot = (true, v)) ∨ (v ≤ -2 ∧ r.slot = (false, -(v + 2))) := by
  unfold MatPool.Get at h
  by_cases h0 : v ≥ 0
  · rw [if_pos h0] at h
    obtain ⟨m, _, hm⟩ := (bind_eq_ok_iff _ _ _).mp h
    cases hm
    exact Or.inl ⟨h0, rfl⟩
  · rw [if_neg h0] at h
    by_cases h1 : v = -1
    · rw [if_pos h1] at h
      cases h
    · rw [if_neg h1] at h
      obtain ⟨q, _, hq⟩ := (bind_eq_ok_iff _ _ _).mp h
      cases hq
      refine Or.inr ⟨by omega, ?_⟩
      simp only [MatRef.slot, Prod.mk.injEq, true_and]
      ring

theorem MatPool_call_creates {α ρ : Type} [Zero α] (env : PoolEnv α ρ) (p p1 : MatPool α ρ)
    (c : PoolCall α ρ) (o : Option Issued) (hc : PoolCall.creates c = true)
    (h : p.call env c = Except.ok (p1, o)) :
    (∃ m, p1.mats = p.mats ++ [m] ∧ p1.tmp_mat = p.tmp_mat
        ∧ o = some (Issued.persistent (p.mats.length : Int)))
      ∨ (∃ q, p1.mats = p.mats ∧ p1.tmp_mat = p.tmp_mat ++ [q]
        ∧ o = some (Issued.temporary (-((p.tmp_mat.length : Int) + 2)))) := by
  cases c with
  | InitMat width height default_value =>
    simp only [MatPool.call, MatPool.InitMat, bind_eq_ok_iff] at h
    obtain ⟨r, ⟨m, _, hr⟩, h2⟩ := h
    cases hr
    cases h2
    exact Or.inl ⟨m, rfl, rfl, rfl⟩
  | InitMatEmpty =>
    simp only [MatPool.call, MatPool.InitMatEmpty] at h
    cases h
    exact Or.inl ⟨Mat.Mat0, rfl, rfl, rfl⟩
  | RandMat n d mu std =>
    simp only [MatPool.call, MatPool.RandMat, bind_eq_ok_iff] at h
    obtain ⟨r, ⟨m, _, hr⟩, h2⟩ := h
    cases hr
    cases h2
    exact Or.inl ⟨m, rfl, rfl, rfl⟩
  | AddTempMat mat =>
    simp only [MatPool.call, MatPool.AddTempMat] at h
    cases h
    refine Or.inr ⟨mat, rfl, rfl, ?_⟩
    simp only [GetCount_eq, Option.some.injEq, Issued.temporary.injEq]
    ring
  | ClearTempMat => simp [PoolCall.creates] at hc
  | Get id => simp [PoolCall.creates] at hc
  | GetInput pos => simp [PoolCall.creates] at hc

theorem HandlesMatch_step {α ρ : Type} [Zero α] (env : PoolEnv α ρ) (p p1 : MatPool α ρ)
    (c : PoolCall α ρ) (o : Option Issued) (l : List Issued)
    (hc : PoolCall.creates c = true) (h : p.call env c = Except.ok (p1, o))
    (hI : HandlesMatch p l) : HandlesMatch p1 (l ++ o.toList) := by
  obtain ⟨ha, hb, hn⟩ := hI
  rcases MatPool_call_creates env p p1 c o hc h with ⟨m, e1, e2, e3⟩ | ⟨q, e1, e2, e3⟩
  · subst e3
    refine ⟨?_, ?_, ?_⟩
    · intro v
      simp only [Option.toList, List.mem_append, List.mem_singleton, Issued.persistent.injEq,
        ha v, e1, List.length_append, List.length_singleton]
      push_cast
      omega
    · intro v
      simp only [Option.toList, List.mem_append, List.mem_singleton, hb v, e2]
      constructor
      · rintro (h1 | h1)
        · exact h1
        · cases h1
      · intro h1
        exact Or.inl h1
    · simp only [Option.toList, List.map_append, List.map_cons, List.map_nil, Issued.value]
      rw [List.nodup_append]
      refine ⟨hn, List.nodup_singleton _, ?_⟩
      intro x hx hx2
      rw [List.mem_singleton] at hx2
      subst hx2
      obtain ⟨i, hi, hv⟩ := List.mem_map.mp hx
      cases i with
      | persistent w =>
        simp only [Issued.value] at hv
        subst hv
        have := (ha _).mp hi
        omega
      | temporary w =>
        simp only [Issued.value] at hv
        subst hv
        have := (hb _).mp hi
        omega
  · subst e3
    refine ⟨?_, ?_, ?_⟩
    · intro v
      simp only [Option.toList, List.mem_append, List.mem_singleton, ha v, e1]
      constructor
      · rintro (h1 | h1)
        · exact h1
        · cases h1
      · intro h1
        exact Or.inl h1
    · intro v
      simp only [Option.toList, List.mem_append, List.mem_singleton, Issued.temporary.injEq,
        hb v, e2, List.length_append, List.length_singleton]
      push_cast
      omega
    · simp only [Option.toList, List.map_append, List.map_cons, List.map_nil, Issued.value]
      rw [List.nodup_append]
      refine ⟨hn, List.nodup_singleton _, ?_⟩
      intro x hx hx2
      rw [List.mem_singleton] at hx2
      subst hx2
      obtain ⟨i, hi, hv⟩ := List.mem_map.mp hx
      cases i with
      | persistent w =>
        simp only [Issued.value] at hv
        have := (ha _).mp hi
        omega
      | temporary w =>
        simp only [Issued.value] at hv
        have := (hb _).mp hi
        omega

theorem HandlesMatch_run {α ρ : Type} [Zero α] (env : PoolEnv α ρ)
    (calls : List (PoolCall α ρ)) (p p2 : MatPool α ρ) (hs l : List Issued)
    (hc : ∀ c ∈ calls, PoolCall.creates c = true)
    (h : MatPool.run env calls p = Except.ok (p2, hs)) (hI : HandlesMatch p l) :
    HandlesMatch p2 (l ++ hs) := by
  induction calls generalizing p hs l with
  | nil =>
    simp only [MatPool.run] at h
    cases h
    simpa using hI
  | cons c rest ih =>
    obtain ⟨p1, o, hs1, h1, h2, e⟩ := MatPool_run_cons env c rest p p2 hs h
    subst e
    have hstep := HandlesMatch_step env p p1 c o l (hc c (List.mem_cons_self c rest)) h1 hI
    have := ih p1 hs1 (l ++ o.toList) (fun d hd => hc d (List.mem_cons_of_mem c hd)) h2 hstep
    simpa [List.append_assoc] using this

theorem HandlesMatch_empty {α ρ : Type} : HandlesMatch (MatPool.empty : MatPool α ρ) [] := by
  refine ⟨?_, ?_, ?_⟩
  · intro v
    simp [MatPool.empty]
  · intro v
    simp [MatPool.empty]
  · simp


/-- C3. The handle encoding is injective. In every pool reached from the empty pool by a
sequence of successful `InitMat` (either overload), `RandMat` and `AddTempMat` calls, with
`hs` the handles issued: the handle values are pairwise distinct; none equals `-1`; every
persistent handle is `>= 0` and resolves to its own element of `mats`; every temporary
handle is `<= -2` and resolves to element `-(v+2)` of `tmp_mat`; two distinct issued
handles resolve to distinct slots; and every slot of `mats` and of `tmp_mat` is reached by
exactly one issued handle. -/
theorem MatPool_handles_injective {α ρ : Type} [Zero α] (env : PoolEnv α ρ)
    (calls : List (PoolCall α ρ)) (p : MatPool α ρ) (hs : List Issued)
    (hc : ∀ c ∈ calls, PoolCall.creates c = true)
    (hrun : MatPool.run env calls (MatPool.empty : MatPool α ρ) = Except.ok (p, hs)) :
    (hs.map Issued.value).Nodup
      ∧ (∀ h ∈ hs, Issued.value h ≠ -1)
      ∧ (∀ v, Issued.persistent v ∈ hs →
          0 ≤ v ∧ ∃ m, p.Get v = Except.ok (MatRef.persistent v m))
      ∧ (∀ v, Issued.temporary v ∈ hs →
          v ≤ -2 ∧ ∃ q, p.Get v = Except.ok (MatRef.temporary (-(v + 2)) q))
      ∧ (∀ a ∈ hs, ∀ b ∈ hs, ∀ ra rb, p.Get (Issued.value a) = Except.ok ra →
          p.Get (Issued.value b) = Except.ok rb → Issued.value a ≠ Issued.value b →
          MatRef.slot ra ≠ MatRef.slot rb)
      ∧ (∀ i : Nat, i < p.mats.length →
          ∃! v, v ∈ hs.map Issued.value
            ∧ ∃ r, p.Get v = Except.ok r ∧ MatRef.slot r = (true, (i : Int)))
      ∧ (∀ j : Nat, j < p.tmp_mat.length →
          ∃! v, v ∈ hs.map Issued.value
            ∧ ∃ r, p.Get v = Except.ok r ∧ MatRef.slot r = (false, (j : Int))) := by
  have hI := HandlesMatch_run env calls _ p hs [] hc hrun HandlesMatch_empty
  simp only [List.nil_append] at hI
  obtain ⟨ha, hb, hn⟩ := hI
  have hpers : ∀ v, Issued.persistent v ∈ hs →
      0 ≤ v ∧ ∃ m, p.Get v = Except.ok (MatRef.persistent v m) := by
    intro v hv
    obtain ⟨h0, h1⟩ := (ha v).mp hv
    obtain ⟨k, rfl⟩ : ∃ k : Nat, v = (k : Int) := ⟨v.toNat, by omega⟩
    exact ⟨h0, _, MatPool_Get_persistent p k (by omega)⟩
  have htemp : ∀ v, Issued.temporary v ∈ hs →
      v ≤ -2 ∧ ∃ q, p.Get v = Except.ok (MatRef.temporary (-(v + 2)) q) := by
    intro v hv
    obtain ⟨h0, h1⟩ := (hb v).mp hv
    obtain ⟨k, hk⟩ : ∃ k : Nat, -(v + 2) = (k : Int) := ⟨(-(v + 2)).toNat, by omega⟩
    have ev : v = -((k : Int) + 2) := by omega
    have hkl : k < p.tmp_mat.length := by omega
    have hget := MatPool_Get_temporary p k hkl
    rw [← ev, ← hk] at hget
    exact ⟨h0, _, hget⟩
  refine ⟨hn, ?_, hpers, htemp, ?_, ?_, ?_⟩
  · intro h hh
    cases h with
    | persistent v =>
      have := (ha v).mp hh
      simp only [Issued.value]
      omega
    | temporary v =>
      have := (hb v).mp hh
      simp only [Issued.value]
      omega
  · intro a _ b _ ra rb hra hrb hne hslot
    apply hne
    rcases MatPool_Get_slot p _ ra hra with ⟨_, sa⟩ | ⟨_, sa⟩ <;>
      rcases MatPool_Get_slot p _ rb hrb with ⟨_, sb⟩ | ⟨_, sb⟩ <;>
      rw [sa, sb] at hslot <;>
      simp only [Prod.mk.injEq, true_and, Bool.true_eq_false, Bool.false_eq_true,
        false_and] at hslot
    · exact hslot
    · omega
  · intro i hi
    have hmem : Issued.persistent (i : Int) ∈ hs :=
      (ha _).mpr ⟨Int.natCast_nonneg i, by omega⟩
    refine ⟨(i : Int), ⟨?_, ?_⟩, ?_⟩
    · exact List.mem_map.mpr ⟨_, hmem, rfl⟩
    · exact ⟨_, MatPool_Get_persistent p i hi, rfl⟩
    · rintro v ⟨_, r, hr, hs1⟩
      rcases MatPool_Get_slot p v r hr with ⟨_, s1⟩ | ⟨_, s1⟩
      · rw [s1] at hs1
        simp only [Prod.mk.injEq, true_and] at hs1
        exact hs1
      · rw [s1] at hs1
        simp at hs1
  · intro j hj
    have hmem : Issued.temporary (-((j : Int) + 2)) ∈ hs :=
      (hb _).mpr ⟨by omega, by omega⟩
    refine ⟨-((j : Int) + 2), ⟨?_, ?_⟩, ?_⟩
    · exact List.mem_map.mpr ⟨_, hmem, rfl⟩
    · exact ⟨_, MatPool_Get_temporary p j hj, rfl⟩
    · rintro v ⟨_, r, hr, hs1⟩
      rcases MatPool_Get_slot p v r hr with ⟨_, s1⟩ | ⟨_, s1⟩
      · rw [s1] at hs1
        simp at hs1
      · rw [s1] at hs1
        simp only [Prod.mk.injEq, true_and] at hs1
        omega

/-- Witness for C3: two persistent creations interleaved with two temporary
registrations on the empty pool issue the handles `0, -2, 1, -3`. -/
theorem MatPool_handles_injective_witness :
    MatPool.run sampleEnv
        [PoolCall.InitMat 1 1 5, PoolCall.AddTempMat 7, PoolCall.InitMatEmpty,
         PoolCall.AddTempMat 7]
        (MatPool.empty : MatPool Int Nat)
      = Except.ok
          ({ mats := [{ width := 1, height := 1, length := 1, weights := [5],
                        weight_gradients := [0] },
                      { width := 0, height := 0, length := 0, weights := [],
                        weight_gradients := [] }],
             tmp_mat := [7, 7], index_sequence := [] },
           [Issued.persistent 0, Issued.temporary (-2), Issued.persistent 1,
            Issued.temporary (-3)])
    ∧ ([Issued.persistent 0, Issued.temporary (-2), Issued.persistent 1,
        Issued.temporary (-3)].map Issued.value).Nodup :=
  ⟨rfl,
   (MatPool_handles_injective sampleEnv
      [PoolCall.InitMat 1 1 5, PoolCall.AddTempMat 7, PoolCall.InitMatEmpty,
       PoolCall.AddTempMat 7]
      _ _ (by simp [PoolCall.creates]) rfl).1⟩


/-! ### `ValueMap` -/

theorem Vec_Get_cons_succ {α : Type} (a : α) (l : List α) (i : Int) (h : 0 ≤ i) :
    Vec.Get (a :: l) (i + 1) = Vec.Get l i := by
  obtain ⟨k, rfl⟩ : ∃ k : Nat, i = (k : Int) := ⟨i.toNat, by omega⟩
  by_cases hk : k < l.length
  · have hk1 : k + 1 < (a :: l).length := by simp; omega
    have e : ((k : Int) + 1) = ((k + 1 : Nat) : Int) := by push_cast; ring
    rw [e, Vec_Get_natCast (a :: l) (k + 1) hk1, Vec_Get_natCast l k hk]
    simp
  · rw [Vec_Get_error l k (Or.inr (by omega)),
      Vec_Get_error (a :: l) ((k : Int) + 1) (Or.inr (by simp; omega))]

theorem Vec_Get_cons_zero {α : Type} (a : α) (l : List α) :
    Vec.Get (a :: l) 0 = Except.ok a :=
  Vec_Get_natCast (a :: l) 0 (by simp)

theorem ValueMap_Find_range {α : Type} (map : List (String × Value α)) (key : String) :
    ValueMap.Find map key = -1 ∨ 0 ≤ ValueMap.Find map key := by
  induction map with
  | nil => exact Or.inl rfl
  | cons e rest ih =>
    obtain ⟨k, x⟩ := e
    simp only [ValueMap.Find]
    by_cases hk : k = key
    · rw [if_pos hk]
      exact Or.inr (le_refl 0)
    · rw [if_neg hk]
      by_cases hf : ValueMap.Find rest key = -1
      · rw [if_pos hf]
        exact Or.inl rfl
      · rw [if_neg hf]
        rcases ih with h1 | h1
        · exact absurd h1 hf
        · exact Or.inr (by omega)

theorem ValueMap_Find_GetAdd_same {α : Type} (map : List (String × Value α)) (key : String)
    (v : Value α) : 0 ≤ ValueMap.Find (ValueMap.GetAdd map key v) key := by
  induction map with
  | nil => simp [ValueMap.GetAdd, ValueMap.Find]
  | cons e rest ih =>
    obtain ⟨k, x⟩ := e
    simp only [ValueMap.GetAdd]
    by_cases hk : k = key
    · rw [if_pos hk]
      simp [ValueMap.Find, hk]
    · rw [if_neg hk]
      simp only [ValueMap.Find]
      rw [if_neg hk]
      have hne : ¬ (ValueMap.Find (ValueMap.GetAdd rest key v) key = -1) := by omega
      rw [if_neg hne]
      omega

theorem ValueMap_GetValue_GetAdd_same {α : Type} (map : List (String × Value α))
    (key : String) (v : Value α) :
    ValueMap.GetValue (ValueMap.GetAdd map key v)
        (ValueMap.Find (ValueMap.GetAdd map key v) key) = Except.ok v := by
  induction map with
  | nil =>
    simp only [ValueMap.GetAdd, ValueMap.Find, if_true, ValueMap.GetValue, List.map]
    exact Vec_Get_natCast [v] 0 (by simp)
  | cons e rest ih =>
    obtain ⟨k, x⟩ := e
    simp only [ValueMap.GetAdd]
    by_cases hk : k = key
    · rw [if_pos hk]
      simp only [ValueMap.Find, if_pos hk, ValueMap.GetValue, List.map]
      exact Vec_Get_natCast (v :: List.map Prod.snd rest) 0 (by simp)
    · rw [if_neg hk]
      have h0 := ValueMap_Find_GetAdd_same rest key v
      have hne : ¬ (ValueMap.Find (ValueMap.GetAdd rest key v) key = -1) := by omega
      simp only [ValueMap.Find, if_neg hk, if_neg hne, ValueMap.GetValue, List.map]
      rw [Vec_Get_cons_succ _ _ _ h0]
      exact ih

theorem ValueMap_Find_GetAdd_other {α : Type} (map : List (String × Value α))
    (key other : String) (v : Value α) (hne : key ≠ other) :
    ValueMap.Find (ValueMap.GetAdd map other v) key = ValueMap.Find map key := by
  induction map with
  | nil =>
    have hne2 : ¬ (other = key) := fun e => hne e.symm
    simp [ValueMap.GetAdd, ValueMap.Find, hne2]
  | cons e rest ih =>
    obtain ⟨k, x⟩ := e
    simp only [ValueMap.GetAdd]
    by_cases hk : k = other
    · rw [if_pos hk]
      have hkk : ¬ (k = key) := fun e => hne (e.symm.trans hk)
      simp [ValueMap.Find, hkk]
    · rw [if_neg hk]
      simp only [ValueMap.Find, ih]

theorem ValueMap_GetValue_GetAdd_other {α : Type} (map : List (String × Value α))
    (key other : String) (v : Value α) (hne : key ≠ other) :
    ValueMap.GetValue (ValueMap.GetAdd map other v)
        (ValueMap.Find (ValueMap.GetAdd map other v) key)
      = ValueMap.GetValue map (ValueMap.Find map key) := by
  rw [ValueMap_Find_GetAdd_other map key other v hne]
  induction map with
  | nil =>
    simp only [ValueMap.Find, ValueMap.GetValue, ValueMap.GetAdd, List.map]
    rw [Vec_Get_error _ (-1) (Or.inl (by decide)), Vec_Get_error _ (-1) (Or.inl (by decide))]
  | cons e rest ih =>
    obtain ⟨k, x⟩ := e
    simp only [ValueMap.GetAdd]
    by_cases hk : k = other
    · rw [if_pos hk]
      have hkk : ¬ (k = key) := fun e => hne (e.symm.trans hk)
      simp only [ValueMap.Find, if_neg hkk, ValueMap.GetValue, List.map]
      by_cases hf : ValueMap.Find rest key = -1
      · rw [if_pos hf]
        rw [Vec_Get_error _ (-1) (Or.inl (by decide)),
          Vec_Get_error _ (-1) (Or.inl (by decide))]
      · rw [if_neg hf]
        have h0 : 0 ≤ ValueMap.Find rest key := by
          rcases ValueMap_Find_range rest key with h1 | h1
          · exact absurd h1 hf
          · exact h1
        rw [Vec_Get_cons_succ _ _ _ h0, Vec_Get_cons_succ _ _ _ h0]
    · rw [if_neg hk]
      simp only [ValueMap.Find, ValueMap.GetValue, List.map]
      by_cases hkk : k = key
      · rw [if_pos hkk]
        rw [Vec_Get_cons_zero, Vec_Get_cons_zero]
      · rw [if_neg hkk]
        by_cases hf : ValueMap.Find rest key = -1
        · rw [if_pos hf]
          rw [Vec_Get_error _ (-1) (Or.inl (by decide)),
            Vec_Get_error _ (-1) (Or.inl (by decide))]
        · rw [if_neg hf]
          have h0 : 0 ≤ ValueMap.Find rest key := by
            rcases ValueMap_Find_range rest key with h1 | h1
            · exact absurd h1 hf
            · exact h1
          rw [Vec_Get_cons_succ _ _ _ h0, Vec_Get_cons_succ _ _ _ h0]
          have := ih
          simp only [ValueMap.GetValue] at this
          exact this


/-! ### `Mat::Store` and `Mat::Load` -/

theorem Vec_SetCountInit_zero {α : Type} (v : List α) (init : α) :
    Vec.SetCountInit v 0 init = Except.ok [] := by
  simp [Vec.SetCountInit]

theorem getElem?_set_copy {α : Type} (ws xs : List α) (k : Nat) (x : α)
    (hk : k < ws.length) (hx : xs[k]? = some x)
    (hprev : ∀ j, j < k → ws[j]? = xs[j]?) :
    ∀ j, j < k + 1 → (ws.set k x)[j]? = xs[j]? := by
  intro j hj
  by_cases hjk : j = k
  · subst hjk
    simp [List.getElem?_set, hk, hx]
  · have hlt : j < k := by omega
    rw [List.getElem?_set]
    have hne : ¬ (k = j) := fun e => hjk e.symm
    simp only [hne, if_false]
    exact hprev j hlt

/-- The array-building loop of `Mat::Store` returns a `Value` whose item `k` is the
`double` `xs[k]`, for every index of `xs`. -/
theorem Store_loop {α : Type} (xs : List α) :
    ∃ W, forLoop (Vec.GetCount xs)
        (fun i w => (Vec.Get xs i) >>= fun value => Value.Add w (Value.dbl value))
        Value.void = Except.ok W
      ∧ ∀ k (hk : k < xs.length),
          Value.At W (k : Int) = Except.ok (Value.dbl (xs.get ⟨k, hk⟩)) := by
  simp only [forLoop, GetCount_eq, Int.toNat_ofNat]
  obtain ⟨W, hW, hP⟩ := forLoopFrom_inv
    (fun i w => (Vec.Get xs i) >>= fun value => Value.Add w (Value.dbl value))
    (fun k v => v = if k = 0 then Value.void else Value.array ((xs.take k).map Value.dbl))
    xs.length Value.void (by simp)
    (by
      intro k v hk hv
      refine ⟨Value.array ((xs.take (k + 1)).map Value.dbl), ?_, by simp⟩
      have htake : (xs.take (k + 1)).map Value.dbl
          = (xs.take k).map Value.dbl ++ [Value.dbl (xs.get ⟨k, hk⟩)] := by
        rw [List.take_succ, List.getElem?_eq_getElem hk, List.map_append]
        rfl
      beta_reduce
      rw [Vec_Get_natCast xs k hk, bind_ok_eq, htake, hv]
      by_cases h0 : k = 0
      · subst h0
        simp [Value.Add]
      · rw [if_neg h0]
        simp [Value.Add, Vec.Add])
  refine ⟨W, hW, ?_⟩
  intro k hk
  have hne : ¬ (xs.length = 0) := by omega
  rw [hP, if_neg hne, List.take_length]
  simp only [Value.At]
  rw [Vec_Get_natCast (xs.map Value.dbl) k (by simpa using hk)]
  simp

/-- The weight-filling loop of `Mat::Load` copies the items of the array `W` into
`weights`, leaving every other member alone. -/
theorem Load_weights_loop {α : Type} (junk : Nat → α) (W : Value α) (xs : List α)
    (s0 : Mat α) (hlen : s0.weights.length = xs.length)
    (hW : ∀ k (hk : k < xs.length),
      Value.At W (k : Int) = Except.ok (Value.dbl (xs.get ⟨k, hk⟩))) :
    forLoopFrom
        (fun i s =>
          (Value.At W i) >>= fun e => Value.toDouble e >>= fun value =>
          (Vec.Set junk s.weights i value) >>= fun ws =>
          (Except.ok { s with weights := ws } : Except Err (Mat α)))
        xs.length 0 s0
      = Except.ok { s0 with weights := xs } := by
  obtain ⟨s1, hs1, ws, e1, e2, e3⟩ := forLoopFrom_inv
    (fun i s =>
      (Value.At W i) >>= fun e => Value.toDouble e >>= fun value =>
      (Vec.Set junk s.weights i value) >>= fun ws =>
      (Except.ok { s with weights := ws } : Except Err (Mat α)))
    (fun k s => ∃ ws, s = { s0 with weights := ws } ∧ ws.length = xs.length
      ∧ ∀ j, j < k → ws[j]? = xs[j]?)
    xs.length s0 ⟨s0.weights, rfl, hlen, fun j hj => by omega⟩
    (by
      rintro k s hk ⟨ws, rfl, hl, hprev⟩
      have hkw : k < ws.length := by omega
      refine ⟨{ s0 with weights := ws.set k (xs.get ⟨k, hk⟩) }, ?_,
        ws.set k (xs.get ⟨k, hk⟩), rfl, by simpa using hl, ?_⟩
      · simp only [hW k hk, bind_ok_eq, Value.toDouble, Vec_Set_natCast junk ws k _ hkw]
      · exact getElem?_set_copy ws xs k _ hkw (by simp [List.getElem?_eq_getElem hk]) hprev)
  rw [hs1, e1, list_eq_of_getElem? ws xs e2 e3]

/-- The gradient-filling loop of `Mat::Load` copies the items of the array `DW` into
`weight_gradients`, leaving every other member alone. -/
theorem Load_gradients_loop {α : Type} (DW : Value α) (gs : List α)
    (s0 : Mat α) (hlen : s0.weight_gradients.length = gs.length)
    (hW : ∀ k (hk : k < gs.length),
      Value.At DW (k : Int) = Except.ok (Value.dbl (gs.get ⟨k, hk⟩))) :
    forLoopFrom
        (fun i s =>
          (Value.At DW i) >>= fun e => Value.toDouble e >>= fun value =>
          (Vec.Put s.weight_gradients i value) >>= fun g =>
          (Except.ok { s with weight_gradients := g } : Except Err (Mat α)))
        gs.length 0 s0
      = Except.ok { s0 with weight_gradients := gs } := by
  obtain ⟨s1, hs1, ws, e1, e2, e3⟩ := forLoopFrom_inv
    (fun i s =>
      (Value.At DW i) >>= fun e => Value.toDouble e >>= fun value =>
      (Vec.Put s.weight_gradients i value) >>= fun g =>
      (Except.ok { s with weight_gradients := g } : Except Err (Mat α)))
    (fun k s => ∃ ws, s = { s0 with weight_gradients := ws } ∧ ws.length = gs.length
      ∧ ∀ j, j < k → ws[j]? = gs[j]?)
    gs.length s0 ⟨s0.weight_gradients, rfl, hlen, fun j hj => by omega⟩
    (by
      rintro k s hk ⟨ws, rfl, hl, hprev⟩
      have hkw : k < ws.length := by omega
      refine ⟨{ s0 with weight_gradients := ws.set k (gs.get ⟨k, hk⟩) }, ?_,
        ws.set k (gs.get ⟨k, hk⟩), rfl, by simpa using hl, ?_⟩
      · simp only [hW k hk, bind_ok_eq, Value.toDouble, Vec_Put_natCast ws k _ hkw]
      · exact getElem?_set_copy ws gs k _ hkw (by simp [List.getElem?_eq_getElem hk]) hprev)
  rw [hs1, e1, list_eq_of_getElem? ws gs e2 e3]

/-- Source `Mat::Load` on a map that holds `sx`, `sy`, a `w` array of `sx*sy` doubles and a `dw`
array of `sx*sy` doubles: whatever the target held before, it ends with those dimensions,
weights and gradients. -/
theorem Mat_Load_full {α : Type} [Zero α] (junk : Nat → α) (u : Mat α)
    (map : List (String × Value α)) (width height : Int) (W DW : Value α) (xs gs : List α)
    (hsx : ValueMap.GetValue map (ValueMap.Find map "sx") = Except.ok (Value.int width))
    (hsy : ValueMap.GetValue map (ValueMap.Find map "sy") = Except.ok (Value.int height))
    (hw : ValueMap.GetValue map (ValueMap.Find map "w") = Except.ok W)
    (hdw0 : ValueMap.Find map "dw" ≠ -1)
    (hdw : ValueMap.GetValue map (ValueMap.Find map "dw") = Except.ok DW)
    (hxs : (xs.length : Int) = width * height) (hgs : (gs.length : Int) = width * height)
    (hW : ∀ k (hk : k < xs.length),
      Value.At W (k : Int) = Except.ok (Value.dbl (xs.get ⟨k, hk⟩)))
    (hDW : ∀ k (hk : k < gs.length),
      Value.At DW (k : Int) = Except.ok (Value.dbl (gs.get ⟨k, hk⟩))) :
    Mat.Load junk u map
      = Except.ok { width := width, height := height, length := width * height,
                    weights := xs, weight_gradients := gs } := by
  have hgx : gs.length = xs.length := by omega
  unfold Mat.Load
  simp only [hsx, hsy, hw, hdw, bind_ok_eq, Value.toInt, Vec_SetCountInit_zero, ne_eq, hdw0,
    not_false_eq_true, if_true]
  simp only [← hxs, Vec_SetCountInit_natCast, bind_ok_eq, forLoop, Int.toNat_ofNat,
    List.take_nil, List.nil_append, List.length_nil, Nat.sub_zero]
  rw [Load_weights_loop junk W xs _ (by simp) hW]
  simp only [bind_ok_eq]
  rw [← hgx, Load_gradients_loop DW gs _ (by simp) hDW]


/-- C1. Round trip. For every tensor `t` with
`length = width*height = weights.size = gradients.size`, every map `map0` handed to
`Mat::Store` and every target tensor `u` (any dimensions, any contents): `t.Store(map0)`
returns a map, and `u.Load` of that map returns and leaves `u` equal to `t` in all five
members (width, height, length, the weights sequence and the gradients sequence). -/
theorem Mat_Store_Load_roundtrip {α : Type} [Zero α] (junk : Nat → α) (t u : Mat α)
    (map0 : List (String × Value α)) (hlen : t.length = t.width * t.height)
    (hw : (t.weights.length : Int) = t.length)
    (hg : (t.weight_gradients.length : Int) = t.length) :
    ∃ map1, t.Store map0 = Except.ok map1 ∧ Mat.Load junk u map1 = Except.ok t := by
  obtain ⟨W, hWloop, hW⟩ := Store_loop t.weights
  obtain ⟨DW, hDWloop, hDW⟩ := Store_loop t.weight_gradients
  refine ⟨ValueMap.GetAdd (ValueMap.GetAdd (ValueMap.GetAdd
      (ValueMap.GetAdd map0 "sx" (Value.int t.width)) "sy" (Value.int t.height)) "w" W)
      "dw" DW, ?_, ?_⟩
  · unfold Mat.Store
    simp only [hWloop, hDWloop, bind_ok_eq]
  · have hres := Mat_Load_full junk u
      (ValueMap.GetAdd (ValueMap.GetAdd (ValueMap.GetAdd
        (ValueMap.GetAdd map0 "sx" (Value.int t.width)) "sy" (Value.int t.height)) "w" W)
        "dw" DW)
      t.width t.height W DW t.weights t.weight_gradients
      (by
        rw [ValueMap_GetValue_GetAdd_other _ "sx" "dw" _ (by decide),
          ValueMap_GetValue_GetAdd_other _ "sx" "w" _ (by decide),
          ValueMap_GetValue_GetAdd_other _ "sx" "sy" _ (by decide),
          ValueMap_GetValue_GetAdd_same])
      (by
        rw [ValueMap_GetValue_GetAdd_other _ "sy" "dw" _ (by decide),
          ValueMap_GetValue_GetAdd_other _ "sy" "w" _ (by decide),
          ValueMap_GetValue_GetAdd_same])
      (by
        rw [ValueMap_GetValue_GetAdd_other _ "w" "dw" _ (by decide),
          ValueMap_GetValue_GetAdd_same])
      (by
        have := ValueMap_Find_GetAdd_same (ValueMap.GetAdd (ValueMap.GetAdd
          (ValueMap.GetAdd map0 "sx" (Value.int t.width)) "sy" (Value.int t.height)) "w" W)
          "dw" DW
        omega)
      (ValueMap_GetValue_GetAdd_same _ "dw" DW)
      (by omega) (by omega) hW hDW
    rw [hres, ← hlen]

/-- Witness for C1: `sampleMat` is stored into a map that already holds a stale `w`
entry and loaded into a tensor of other dimensions with non-zero gradients. -/
theorem Mat_Store_Load_roundtrip_witness :
    ∃ map1, sampleMat.Store [("w", Value.int 3), ("other", Value.void)] = Except.ok map1
      ∧ Mat.Load (fun _ => 99)
          ({ width := 1, height := 1, length := 1, weights := [5], weight_gradients := [6] }
            : Mat Int) map1
        = Except.ok sampleMat :=
  Mat_Store_Load_roundtrip (fun _ => 99) sampleMat _ _ (by decide) (by decide) (by decide)


/-! ### Coordinate and flat-index access -/

theorem GetPos_bounds (width height x y : Int) (hx0 : 0 ≤ x) (hx1 : x < width)
    (hy0 : 0 ≤ y) (hy1 : y < height) :
    0 ≤ width * y + x ∧ width * y + x < width * height := by
  have hw : 0 ≤ width := by omega
  have h1 : 0 ≤ width * y := Int.mul_nonneg hw hy0
  have h2 : width * (y + 1) ≤ width * height :=
    Int.mul_le_mul_of_nonneg_left (by omega) hw
  have h3 : width * (y + 1) = width * y + width := by ring
  constructor
  · omega
  · omega

theorem Mat_GetPos_ok {α : Type} (m : Mat α) (x y : Int) (hx0 : 0 ≤ x) (hx1 : x < m.width)
    (hy0 : 0 ≤ y) (hy1 : y < m.height) :
    m.GetPos x y = Except.ok (m.width * y + x) := by
  unfold Mat.GetPos
  rw [if_pos ⟨hx0, hy0, hx1, hy1⟩]

theorem Mat_GetPos_error {α : Type} (m : Mat α) (x y : Int)
    (h : x < 0 ∨ y < 0 ∨ m.width ≤ x ∨ m.height ≤ y) :
    m.GetPos x y = Except.error Err.assertion := by
  unfold Mat.GetPos
  have : ¬ (x ≥ 0 ∧ y ≥ 0 ∧ x < m.width ∧ y < m.height) := by omega
  rw [if_neg this]

theorem Vec_Get_Put_same {α : Type} (l : List α) (k : Nat) (v : α) (hk : k < l.length) :
    Vec.Get (l.set k v) (k : Int) = Except.ok v := by
  rw [Vec_Get_natCast (l.set k v) k (by simpa using hk)]
  simp

/-- C8. In a tensor that satisfies the size invariant, at every coordinate
`0 <= x < width`, `0 <= y < height` and for every value `v`: `Set(x,y,v)` returns and
`Get(x,y)` on the result returns `v`; `Get(x,y)` returns and equals the flat-index read
`Get(y*width+x)`; and the same two facts hold for `SetGradient`/`GetGradient`. -/
theorem Mat_Set_Get_coordinate {α : Type} (m : Mat α) (x y : Int) (v : α)
    (hinv : m.SizeInv) (hx0 : 0 ≤ x) (hx1 : x < m.width) (hy0 : 0 ≤ y)
    (hy1 : y < m.height) :
    (∃ m1, m.Set x y v = Except.ok m1 ∧ m1.Get x y = Except.ok v)
      ∧ (∃ d, m.Get x y = Except.ok d ∧ m.GetFlat (y * m.width + x) = Except.ok d)
      ∧ (∃ m2, m.SetGradient x y v = Except.ok m2 ∧ m2.GetGradient x y = Except.ok v)
      ∧ (∃ g, m.GetGradient x y = Except.ok g
          ∧ m.GetGradientFlat (y * m.width + x) = Except.ok g) := by
  obtain ⟨h1, h2, h3⟩ := hinv
  simp only [GetCount_eq] at h2 h3
  obtain ⟨hp0, hp1⟩ := GetPos_bounds m.width m.height x y hx0 hx1 hy0 hy1
  obtain ⟨k, hk⟩ : ∃ k : Nat, m.width * y + x = (k : Int) :=
    ⟨(m.width * y + x).toNat, by omega⟩
  have hkw : k < m.weights.length := by omega
  have hkg : k < m.weight_gradients.length := by omega
  have hflat : y * m.width + x = (k : Int) := by rw [← hk]; ring
  have hpos := Mat_GetPos_ok m x y hx0 hx1 hy0 hy1
  rw [hk] at hpos
  refine ⟨?_, ?_, ?_, ?_⟩
  · refine ⟨{ m with weights := m.weights.set k v }, ?_, ?_⟩
    · simp only [Mat.Set, hpos, bind_ok_eq, Vec_Put_natCast m.weights k v hkw]
    · have hpos1 : Mat.GetPos { m with weights := m.weights.set k v } x y
          = Except.ok (k : Int) := hpos
      simp only [Mat.Get, hpos1, bind_ok_eq]
      exact Vec_Get_Put_same m.weights k v hkw
  · refine ⟨m.weights.get ⟨k, hkw⟩, ?_, ?_⟩
    · simp only [Mat.Get, hpos, bind_ok_eq]
      exact Vec_Get_natCast m.weights k hkw
    · rw [hflat]
      exact Vec_Get_natCast m.weights k hkw
  · refine ⟨{ m with weight_gradients := m.weight_gradients.set k v }, ?_, ?_⟩
    · simp only [Mat.SetGradient, hpos, bind_ok_eq,
        Vec_Put_natCast m.weight_gradients k v hkg]
    · have hpos1 : Mat.GetPos { m with weight_gradients := m.weight_gradients.set k v } x y
          = Except.ok (k : Int) := hpos
      simp only [Mat.GetGradient, hpos1, bind_ok_eq]
      exact Vec_Get_Put_same m.weight_gradients k v hkg
  · refine ⟨m.weight_gradients.get ⟨k, hkg⟩, ?_, ?_⟩
    · simp only [Mat.GetGradient, hpos, bind_ok_eq]
      exact Vec_Get_natCast m.weight_gradients k hkg
    · rw [hflat]
      exact Vec_Get_natCast m.weight_gradients k hkg

/-- Witness for C8 on `sampleMat` at `(x, y) = (1, 1)`, flat index 3. -/
theorem Mat_Set_Get_coordinate_witness :
    (∃ m1, sampleMat.Set 1 1 9 = Except.ok m1 ∧ m1.Get 1 1 = Except.ok 9)
      ∧ (∃ d, sampleMat.Get 1 1 = Except.ok d
          ∧ sampleMat.GetFlat (1 * sampleMat.width + 1) = Except.ok d)
      ∧ (∃ m2, sampleMat.SetGradient 1 1 9 = Except.ok m2
          ∧ m2.GetGradient 1 1 = Except.ok 9)
      ∧ (∃ g, sampleMat.GetGradient 1 1 = Except.ok g
          ∧ sampleMat.GetGradientFlat (1 * sampleMat.width + 1) = Except.ok g) :=
  Mat_Set_Get_coordinate sampleMat 1 1 9 ⟨by decide, by decide, by decide⟩
    (by decide) (by decide) (by decide) (by decide)


/-- Out-of-range access, the part that holds. A coordinate access with `x < 0`, `y < 0`,
`x >= width` or `y >= height` fails the assertion of `GetPos` in all six coordinate
accessors, whatever `width*y+x` is; in a tensor satisfying the size invariant a flat
index `i < 0` or `i >= length` is fatal in `Get`, `GetGradient`, `SetGradient`,
`AddGradient` and `Add`, and a flat index `i < 0` is fatal in `Set`. -/
theorem Mat_out_of_range_fatal {α : Type} [Add α] (junk : Nat → α) (m : Mat α) (v : α) :
    (∀ x y, (x < 0 ∨ y < 0 ∨ m.width ≤ x ∨ m.height ≤ y) →
        m.Get x y = Except.error Err.assertion
          ∧ m.Set x y v = Except.error Err.assertion
          ∧ m.AddCoord x y v = Except.error Err.assertion
          ∧ m.GetGradient x y = Except.error Err.assertion
          ∧ m.SetGradient x y v = Except.error Err.assertion
          ∧ m.AddGradient x y v = Except.error Err.assertion)
      ∧ (∀ i, m.SizeInv → (i < 0 ∨ m.length ≤ i) →
        m.GetFlat i = Except.error Err.index
          ∧ m.GetGradientFlat i = Except.error Err.index
          ∧ m.SetGradientFlat i v = Except.error Err.index
          ∧ m.AddGradientFlat i v = Except.error Err.index
          ∧ m.AddFlat i v = Except.error Err.index)
      ∧ (∀ i, i < 0 → m.SetFlat junk i v = Except.error Err.assertion) := by
  refine ⟨?_, ?_, ?_⟩
  · intro x y h
    have hp := Mat_GetPos_error m x y h
    simp only [Mat.Get, Mat.Set, Mat.AddCoord, Mat.GetGradient, Mat.SetGradient,
      Mat.AddGradient, hp, bind_error_eq, and_self]
  · rintro i ⟨_, h2, h3⟩ h
    simp only [GetCount_eq] at h2 h3
    have hw : i < 0 ∨ (m.weights.length : Int) ≤ i := by omega
    have hg : i < 0 ∨ (m.weight_gradients.length : Int) ≤ i := by omega
    simp only [Mat.GetFlat, Mat.GetGradientFlat, Mat.SetGradientFlat, Mat.AddGradientFlat,
      Mat.AddFlat, Vec_Get_error _ i hw, Vec_Get_error _ i hg, Vec_Put_error _ i v hg,
      bind_error_eq, and_self]
  · intro i hi
    simp only [Mat.SetFlat, Vec.Set, if_pos hi, bind_error_eq]

/-- C9, the failing input. On the 2x2 tensor `sampleMat` (length 4), the flat-index write
`Set(6, 0)` is not a fatal error: whatever the uninitialised slots hold, it returns and
leaves a tensor whose `weights` has 7 items while `length` is still 4, with the value
stored in slot 6. The sibling `SetGradient(6, 0)` is fatal. -/
theorem Mat_SetFlat_past_end_returns :
    sampleMat.SizeInv ∧ sampleMat.length ≤ 6
      ∧ (∀ junk : Nat → Int, ∃ m1, Mat.SetFlat junk sampleMat 6 0 = Except.ok m1
          ∧ m1.weights.length = 7 ∧ m1.length = 4 ∧ m1.weights[6]? = some 0)
      ∧ sampleMat.SetGradientFlat 6 0 = Except.error Err.index :=
  ⟨⟨by decide, by decide, by decide⟩, by decide, fun _ => ⟨_, rfl, rfl, rfl, rfl⟩, rfl⟩

/-- C7, the failing input. `sampleMat` satisfies the size invariant; after the flat-index
write `Set(6, 0)`, which returns, the tensor no longer does: `weights` has 7 items and
`length` is 4. -/
theorem Mat_SetFlat_breaks_SizeInv :
    sampleMat.SizeInv
      ∧ ∀ junk : Nat → Int, ∃ m1, Mat.SetFlat junk sampleMat 6 0 = Except.ok m1
          ∧ ¬ m1.SizeInv := by
  refine ⟨⟨by decide, by decide, by decide⟩, fun junk =>
    ⟨{ sampleMat with weights := [1, 2, 3, 4, junk 4, junk 5, 0] }, rfl, ?_⟩⟩
  rintro ⟨_, h2, _⟩
  simp [Vec.GetCount, sampleMat] at h2


/-! ### Element-wise loops -/

/-- A loop over a tensor whose body only rewrites one member (read by `get`, written by
`set`) is the loop over that member alone. -/
theorem forLoopFrom_member {σ τ : Type} (get : σ → τ) (set : σ → τ → σ)
    (bodyL : Int → τ → Except Err τ) (bodyM : Int → σ → Except Err σ)
    (hget : ∀ s w, get (set s w) = w) (hset : ∀ s w w1, set (set s w) w1 = set s w1)
    (hid : ∀ s, set s (get s) = s)
    (hbody : ∀ i s, bodyM i s = (bodyL i (get s) >>= fun w => Except.ok (set s w)))
    (n : Nat) (i : Int) (s : σ) :
    forLoopFrom bodyM n i s
      = (forLoopFrom bodyL n i (get s) >>= fun w => Except.ok (set s w)) := by
  induction n generalizing i s with
  | zero => simp only [forLoopFrom, bind_ok_eq, hid]
  | succ n ih =>
    have e1 : forLoopFrom bodyM (n + 1) i s
        = (bodyM i s >>= fun s1 => forLoopFrom bodyM n (i + 1) s1) := rfl
    have e2 : forLoopFrom bodyL (n + 1) i (get s)
        = (bodyL i (get s) >>= fun w => forLoopFrom bodyL n (i + 1) w) := rfl
    rw [e1, e2, hbody]
    cases hb : bodyL i (get s) with
    | error e => rfl
    | ok w =>
      simp only [bind_ok_eq]
      rw [ih, hget]
      cases forLoopFrom bodyL n (i + 1) w with
      | error e => rfl
      | ok w1 => simp only [bind_ok_eq, hset]

/-- The accumulation loop `for i < A.size: A[i] = f(A[i], B[i])` returns, when `B` is at
least as long as `A`, the element-wise combination of `A` with `B`. -/
theorem zipWith_loop {α : Type} (f : α → α → α) (A B : List α)
    (hlen : A.length ≤ B.length) :
    forLoopFrom
        (fun i ws => (Vec.Get B i) >>= fun d => (Vec.Get ws i) >>= fun old =>
          Vec.Put ws i (f old d))
        A.length 0 A
      = Except.ok (List.zipWith f A B) := by
  obtain ⟨ws, hws, h1, h2, _⟩ := forLoopFrom_inv
    (fun i ws => (Vec.Get B i) >>= fun d => (Vec.Get ws i) >>= fun old =>
      Vec.Put ws i (f old d))
    (fun k ws => ws.length = A.length
      ∧ (∀ j, j < k → ws[j]? = (List.zipWith f A B)[j]?)
      ∧ (∀ j, k ≤ j → ws[j]? = A[j]?))
    A.length A ⟨rfl, fun j hj => by omega, fun j _ => rfl⟩
    (by
      rintro k ws hk ⟨hl, hlo, hhi⟩
      have hkw : k < ws.length := by omega
      have hkb : k < B.length := by omega
      have hold : ws.get ⟨k, hkw⟩ = A.get ⟨k, hk⟩ := by
        have h3 := hhi k (le_refl k)
        rw [List.getElem?_eq_getElem hkw, List.getElem?_eq_getElem hk] at h3
        exact Option.some.inj h3
      refine ⟨ws.set k (f (A.get ⟨k, hk⟩) (B.get ⟨k, hkb⟩)), ?_, by simpa using hl, ?_, ?_⟩
      · beta_reduce
        rw [Vec_Get_natCast B k hkb, bind_ok_eq, Vec_Get_natCast ws k hkw, bind_ok_eq, hold,
          Vec_Put_natCast ws k _ hkw]
      · intro j hj
        by_cases hjk : j = k
        · subst hjk
          rw [List.getElem?_zipWith, List.getElem?_eq_getElem hk,
            List.getElem?_eq_getElem hkb]
          simp [List.getElem?_set, hkw]
        · have hne : ¬ (k = j) := fun e => hjk e.symm
          rw [List.getElem?_set]
          simp only [hne, if_false]
          exact hlo j (by omega)
      · intro j hj
        have hne : ¬ (k = j) := by omega
        rw [List.getElem?_set]
        simp only [hne, if_false]
        exact hhi j (by omega))
  rw [hws]
  congr 1
  apply list_eq_of_getElem? ws (List.zipWith f A B)
  · rw [h1, List.length_zipWith]
    omega
  · intro j hj
    rw [List.length_zipWith] at hj
    exact h2 j (by omega)


/-! ### `AddFrom` and `AddGradientFrom` -/

theorem Mat_AddFrom_eq {α : Type} [Add α] (a b : Mat α)
    (hlen : a.weights.length ≤ b.weights.length) :
    a.AddFrom b
      = Except.ok { a with weights := List.zipWith (fun x y => x + y) a.weights b.weights } := by
  unfold Mat.AddFrom
  simp only [forLoop, GetCount_eq, Int.toNat_ofNat]
  rw [forLoopFrom_member (fun s : Mat α => s.weights) (fun s w => { s with weights := w })
    (fun i ws => (Vec.Get b.weights i) >>= fun d => (Vec.Get ws i) >>= fun old =>
      Vec.Put ws i (old + d))
    _ (fun _ _ => rfl) (fun _ _ _ => rfl) (fun _ => rfl)
    (by
      intro i s
      simp only [Mat.GetFlat]
      cases Vec.Get b.weights i with
      | error e => rfl
      | ok d =>
        simp only [bind_ok_eq]
        cases Vec.Get s.weights i with
        | error e => rfl
        | ok old => rfl)]
  rw [zipWith_loop (fun x y => x + y) a.weights b.weights hlen, bind_ok_eq]

theorem Mat_AddGradientFrom_eq {α : Type} [Add α] (a b : Mat α)
    (hlen : a.weight_gradients.length ≤ b.weight_gradients.length) :
    a.AddGradientFrom b
      = Except.ok
          { a with
            weight_gradients :=
              List.zipWith (fun x y => x + y) a.weight_gradients b.weight_gradients } := by
  unfold Mat.AddGradientFrom
  simp only [forLoop, GetCount_eq, Int.toNat_ofNat]
  rw [forLoopFrom_member (fun s : Mat α => s.weight_gradients)
    (fun s w => { s with weight_gradients := w })
    (fun i ws => (Vec.Get b.weight_gradients i) >>= fun d => (Vec.Get ws i) >>= fun old =>
      Vec.Put ws i (old + d))
    _ (fun _ _ => rfl) (fun _ _ _ => rfl) (fun _ => rfl)
    (by
      intro i s
      simp only [Mat.GetGradientFlat]
      cases Vec.Get b.weight_gradients i with
      | error e => rfl
      | ok d =>
        simp only [bind_ok_eq]
        cases Vec.Get s.weight_gradients i with
        | error e => rfl
        | ok old => rfl)]
  rw [zipWith_loop (fun x y => x + y) a.weight_gradients b.weight_gradients hlen, bind_ok_eq]

theorem Vec_Get_zipWith {α : Type} (f : α → α → α) (A B : List α) (i : Int) (h0 : 0 ≤ i)
    (hA : i < (A.length : Int)) (hB : i < (B.length : Int)) :
    ∃ x y, Vec.Get A i = Except.ok x ∧ Vec.Get B i = Except.ok y
      ∧ Vec.Get (List.zipWith f A B) i = Except.ok (f x y) := by
  obtain ⟨k, rfl⟩ : ∃ k : Nat, i = (k : Int) := ⟨i.toNat, by omega⟩
  have hkA : k < A.length := by omega
  have hkB : k < B.length := by omega
  have hkZ : k < (List.zipWith f A B).length := by
    rw [List.length_zipWith]
    omega
  refine ⟨A.get ⟨k, hkA⟩, B.get ⟨k, hkB⟩, Vec_Get_natCast A k hkA, Vec_Get_natCast B k hkB, ?_⟩
  rw [Vec_Get_natCast _ k hkZ]
  simp [List.getElem_zipWith]

/-- C10. For tensors `a` and `b` of equal length, both satisfying the size invariant
(`b` is taken by const reference, so the call cannot change it): `a.AddFrom(b)` returns
a tensor with the width, height, length and gradients of `a`, as many weights as `a`,
and at every index `0 <= i < length` the weight `a.Get(i) + b.Get(i)`;
`a.AddGradientFrom(b)` returns a tensor with the width, height, length and weights of
`a`, as many gradients as `a`, and at every index the gradient
`a.GetGradient(i) + b.GetGradient(i)`. -/
theorem Mat_AddFrom_elementwise {α : Type} [Add α] (a b : Mat α) (ha : a.SizeInv)
    (hb : b.SizeInv) (hlen : a.length = b.length) :
    (∃ a1, a.AddFrom b = Except.ok a1
        ∧ a1.width = a.width ∧ a1.height = a.height ∧ a1.length = a.length
        ∧ a1.weight_gradients = a.weight_gradients
        ∧ a1.weights.length = a.weights.length
        ∧ ∀ i, 0 ≤ i → i < a.length →
            ∃ x y, a.GetFlat i = Except.ok x ∧ b.GetFlat i = Except.ok y
              ∧ a1.GetFlat i = Except.ok (x + y))
      ∧ (∃ a2, a.AddGradientFrom b = Except.ok a2
        ∧ a2.width = a.width ∧ a2.height = a.height ∧ a2.length = a.length
        ∧ a2.weights = a.weights
        ∧ a2.weight_gradients.length = a.weight_gradients.length
        ∧ ∀ i, 0 ≤ i → i < a.length →
            ∃ x y, a.GetGradientFlat i = Except.ok x ∧ b.GetGradientFlat i = Except.ok y
              ∧ a2.GetGradientFlat i = Except.ok (x + y)) := by
  obtain ⟨_, ha2, ha3⟩ := ha
  obtain ⟨_, hb2, hb3⟩ := hb
  simp only [GetCount_eq] at ha2 ha3 hb2 hb3
  constructor
  · refine ⟨_, Mat_AddFrom_eq a b (by omega), rfl, rfl, rfl, rfl, ?_, ?_⟩
    · simp only [List.length_zipWith]
      omega
    · intro i h0 h1
      exact Vec_Get_zipWith _ a.weights b.weights i h0 (by omega) (by omega)
  · refine ⟨_, Mat_AddGradientFrom_eq a b (by omega), rfl, rfl, rfl, rfl, ?_, ?_⟩
    · simp only [List.length_zipWith]
      omega
    · intro i h0 h1
      exact Vec_Get_zipWith _ a.weight_gradients b.weight_gradients i h0 (by omega) (by omega)

/-- Witness for C10: `sampleMat` accumulated into a 4x1 tensor of the same length. -/
theorem Mat_AddFrom_elementwise_witness :
    Mat.AddFrom ({ width := 4, height := 1, length := 4, weights := [10, 20, 30, 40],
                   weight_gradients := [1, 1, 1, 1] } : Mat Int) sampleMat
        = Except.ok { width := 4, height := 1, length := 4, weights := [11, 22, 33, 44],
                      weight_gradients := [1, 1, 1, 1] }
      ∧ ∃ a2, Mat.AddGradientFrom
            ({ width := 4, height := 1, length := 4, weights := [10, 20, 30, 40],
               weight_gradients := [1, 1, 1, 1] } : Mat Int) sampleMat = Except.ok a2
          ∧ a2.width = 4 ∧ a2.height = 1 ∧ a2.length = 4
          ∧ a2.weights = [10, 20, 30, 40]
          ∧ a2.weight_gradients.length = 4
          ∧ ∀ i, 0 ≤ i → i < 4 →
              ∃ x y, Mat.GetGradientFlat
                    ({ width := 4, height := 1, length := 4, weights := [10, 20, 30, 40],
                       weight_gradients := [1, 1, 1, 1] } : Mat Int) i = Except.ok x
                ∧ sampleMat.GetGradientFlat i = Except.ok y
                ∧ a2.GetGradientFlat i = Except.ok (x + y) :=
  ⟨rfl,
   (Mat_AddFrom_elementwise
      ({ width := 4, height := 1, length := 4, weights := [10, 20, 30, 40],
         weight_gradients := [1, 1, 1, 1] } : Mat Int) sampleMat
      ⟨by decide, by decide, by decide⟩ ⟨by decide, by decide, by decide⟩ (by decide)).2⟩


/-! ### The size invariant -/

/-- Preservation rule for a loop from 0 that may use the range of the index. -/
theorem forLoopFrom_preserves_idx {σ : Type} (body : Int → σ → Except Err σ) (Q : σ → Prop)
    (n : Nat) (hstep : ∀ (k : Nat) s s1, k < n → Q s → body (k : Int) s = Except.ok s1 → Q s1)
    (s0 s1 : σ) (h0 : Q s0) (h : forLoopFrom body n 0 s0 = Except.ok s1) : Q s1 := by
  have key : ∀ m, m ≤ n → ∀ s2, forLoopFrom body m 0 s0 = Except.ok s2 → Q s2 := by
    intro m
    induction m with
    | zero =>
      intro _ s2 h2
      simp only [forLoopFrom] at h2
      cases h2
      exact h0
    | succ m ih =>
      intro hm s2 h2
      rw [forLoopFrom_succ] at h2
      obtain ⟨s3, h3, h4⟩ := (bind_eq_ok_iff _ _ _).mp h2
      simp only [zero_add] at h4
      exact hstep m s3 s2 (by omega) (ih (by omega) s3 h3) h4
  exact key n le_rfl s1 h

theorem Vec_Set_length_of_lt {α : Type} (junk : Nat → α) (v v1 : List α) (i : Int) (x : α)
    (hi : i < (v.length : Int)) (h : Vec.Set junk v i x = Except.ok v1) :
    v1.length = v.length := by
  unfold Vec.Set at h
  split at h
  · cases h
  · have hge : ¬ (i ≥ Vec.GetCount v) := by
      simp only [GetCount_eq]
      omega
    rw [if_neg hge, bind_ok_eq] at h
    exact Vec_Put_length v v1 i x h

/-- The copying loop `for i < n: w.Set(i, xs[i])` over a vector `w` of the size of `xs`
returns `xs`. -/
theorem copy_loop_Set {α : Type} (junk : Nat → α) (xs ws : List α)
    (hlen : ws.length = xs.length) :
    forLoopFrom (fun i w => (Vec.Get xs i) >>= fun x => Vec.Set junk w i x) xs.length 0 ws
      = Except.ok xs := by
  obtain ⟨w1, hw1, e2, e3⟩ := forLoopFrom_inv
    (fun i w => (Vec.Get xs i) >>= fun x => Vec.Set junk w i x)
    (fun k w => w.length = xs.length ∧ ∀ j, j < k → w[j]? = xs[j]?)
    xs.length ws ⟨hlen, fun j hj => by omega⟩
    (by
      rintro k w hk ⟨hl, hprev⟩
      have hkw : k < w.length := by omega
      refine ⟨w.set k (xs.get ⟨k, hk⟩), ?_, by simpa using hl, ?_⟩
      · beta_reduce
        rw [Vec_Get_natCast xs k hk, bind_ok_eq, Vec_Set_natCast junk w k _ hkw]
      · exact getElem?_set_copy w xs k _ hkw (by simp [List.getElem?_eq_getElem hk]) hprev)
  rw [hw1, list_eq_of_getElem? w1 xs e2 e3]

/-- The copying loop `for i < n: w[i] = xs[i]` over a vector `w` of the size of `xs`
returns `xs`. -/
theorem copy_loop_Put {α : Type} (xs ws : List α) (hlen : ws.length = xs.length) :
    forLoopFrom (fun i w => (Vec.Get xs i) >>= fun x => Vec.Put w i x) xs.length 0 ws
      = Except.ok xs := by
  obtain ⟨w1, hw1, e2, e3⟩ := forLoopFrom_inv
    (fun i w => (Vec.Get xs i) >>= fun x => Vec.Put w i x)
    (fun k w => w.length = xs.length ∧ ∀ j, j < k → w[j]? = xs[j]?)
    xs.length ws ⟨hlen, fun j hj => by omega⟩
    (by
      rintro k w hk ⟨hl, hprev⟩
      have hkw : k < w.length := by omega
      refine ⟨w.set k (xs.get ⟨k, hk⟩), ?_, by simpa using hl, ?_⟩
      · beta_reduce
        rw [Vec_Get_natCast xs k hk, bind_ok_eq, Vec_Put_natCast w k _ hkw]
      · exact getElem?_set_copy w xs k _ hkw (by simp [List.getElem?_eq_getElem hk]) hprev)
  rw [hw1, list_eq_of_getElem? w1 xs e2 e3]

/-- Source `Mat::operator=` returns, from any prior state of the target, a tensor equal to the
source in all five members. -/
theorem Mat_Assign_ok {α : Type} (junk : Nat → α) (self src : Mat α) :
    Mat.Assign junk self src = Except.ok src := by
  unfold Mat.Assign
  simp only [GetCount_eq, Vec_SetCount_natCast, bind_ok_eq, forLoop, Int.toNat_ofNat]
  have hl1 : (List.take src.weights.length self.weights
      ++ List.map junk (List.range' self.weights.length
          (src.weights.length - self.weights.length))).length = src.weights.length := by
    simp
    omega
  have hl2 : (List.take src.weight_gradients.length self.weight_gradients
      ++ List.map junk (List.range' self.weight_gradients.length
          (src.weight_gradients.length - self.weight_gradients.length))).length
      = src.weight_gradients.length := by
    simp
    omega
  rw [hl1, hl2, copy_loop_Set junk src.weights _ hl1, bind_ok_eq,
    copy_loop_Put src.weight_gradients _ hl2, bind_ok_eq]

/-- Source `Mat::Init(width, height, w)` with positive dimensions and `w.size = width*height`
returns, from any prior state, the tensor with those dimensions, the weights `w` and all
gradients 0. -/
theorem Mat_InitFlat_ok {α : Type} [Zero α] (junk : Nat → α) (self : Mat α)
    (width height : Int) (w : List α) (hw : 0 < width) (hh : 0 < height)
    (hsize : width * height = (w.length : Int)) :
    Mat.InitFlat junk self width height w
      = Except.ok { width := width, height := height, length := width * height,
                    weights := w, weight_gradients := List.replicate w.length 0 } := by
  unfold Mat.InitFlat
  rw [if_pos ⟨hw, hh⟩]
  simp only [GetCount_eq, hsize, if_true, Vec_SetCount_natCast, bind_ok_eq, forLoop,
    Int.toNat_ofNat]
  obtain ⟨s1, hs1, hP⟩ := forLoopFrom_inv
    (fun i s =>
        (Vec.Get w i) >>= fun x =>
        (Vec.Put s.weights i x) >>= fun ws =>
        (Vec.Put s.weight_gradients i 0) >>= fun g =>
        (Except.ok { s with weights := ws, weight_gradients := g } : Except Err (Mat α)))
    (fun k s => s.width = width ∧ s.height = height ∧ s.length = (w.length : Int)
        ∧ s.weights.length = w.length ∧ s.weight_gradients.length = w.length
        ∧ (∀ j, j < k → s.weights[j]? = w[j]?)
        ∧ (∀ j, j < k → s.weight_gradients[j]? = some 0))
    w.length
    { width := width, height := height, length := (w.length : Int),
      weights := List.take w.length self.weights
        ++ List.map junk (List.range' self.weights.length (w.length - self.weights.length)),
      weight_gradients := List.take w.length self.weight_gradients
        ++ List.map junk
            (List.range' self.weight_gradients.length
              (w.length - self.weight_gradients.length)) }
    (by
      refine ⟨rfl, rfl, rfl, ?_, ?_, ?_, ?_⟩
      · simp; omega
      · simp; omega
      · intro j hj; omega
      · intro j hj; omega)
    (by
      intro k s hk ⟨h1, h2, h3, h4, h5, h6, h7⟩
      have hkw : k < s.weights.length := by omega
      have hkg : k < s.weight_gradients.length := by omega
      refine ⟨{ s with weights := s.weights.set k (w.get ⟨k, hk⟩),
                       weight_gradients := s.weight_gradients.set k 0 }, ?_, ?_⟩
      · simp only [Vec_Get_natCast w k hk, Vec_Put_natCast _ k _ hkw,
          Vec_Put_natCast _ k 0 hkg, bind_ok_eq]
      · refine ⟨h1, h2, h3, ?_, ?_, ?_, ?_⟩
        · simpa using h4
        · simpa using h5
        · exact getElem?_set_copy s.weights w k _ hkw
            (by simp [List.getElem?_eq_getElem hk]) h6
        · exact getElem?_set_step s.weight_gradients k 0 0 hkg h7 rfl)
  rw [hs1]
  obtain ⟨h1, h2, h3, h4, h5, h6, h7⟩ := hP
  have ew := list_eq_of_getElem? s1.weights w h4 h6
  have eg := list_eq_replicate_of_getElem? s1.weight_gradients w.length 0 h5 h7
  cases s1
  simp only at h1 h2 h3 ew eg
  subst h1 h2 h3 ew eg
  rfl


theorem SizeInv_of_same_shape {α : Type} (m s : Mat α) (hm : m.SizeInv)
    (h : s.width = m.width ∧ s.height = m.height ∧ s.length = m.length
      ∧ s.weights.length = m.weights.length
      ∧ s.weight_gradients.length = m.weight_gradients.length) : s.SizeInv := by
  obtain ⟨h1, h2, h3⟩ := hm
  obtain ⟨e1, e2, e3, e4, e5⟩ := h
  simp only [GetCount_eq] at h2 h3
  refine ⟨by rw [e1, e2, e3]; exact h1, ?_, ?_⟩
  · simp only [GetCount_eq]
    omega
  · simp only [GetCount_eq]
    omega

/-- The element-wise loops of `Mat` keep the dimensions and both vector sizes. -/
theorem Mat_loops_same_shape {α : Type} [Zero α] [Add α] [Mul α] (m b m1 : Mat α) (c : α) :
    (m.ZeroGradients = Except.ok m1 ∨ m.SetConst c = Except.ok m1
      ∨ m.SetConstGradient c = Except.ok m1 ∨ m.AddFrom b = Except.ok m1
      ∨ m.AddGradientFrom b = Except.ok m1 ∨ m.AddFromScaled b c = Except.ok m1) →
    m1.width = m.width ∧ m1.height = m.height ∧ m1.length = m.length
      ∧ m1.weights.length = m.weights.length
      ∧ m1.weight_gradients.length = m.weight_gradients.length := by
  intro h
  rcases h with h | h | h | h | h | h
  · refine forLoopFrom_preserves _
      (fun s => s.width = m.width ∧ s.height = m.height ∧ s.length = m.length
        ∧ s.weights.length = m.weights.length
        ∧ s.weight_gradients.length = m.weight_gradients.length)
      ?_ _ _ m m1 ⟨rfl, rfl, rfl, rfl, rfl⟩ h
    rintro i s s1 ⟨e1, e2, e3, e4, e5⟩ hb
    simp only [bind_eq_ok_iff] at hb
    obtain ⟨g, hg, hs1⟩ := hb
    cases hs1
    exact ⟨e1, e2, e3, e4, (Vec_Put_length _ _ _ _ hg).trans e5⟩
  · refine forLoopFrom_preserves _
      (fun s => s.width = m.width ∧ s.height = m.height ∧ s.length = m.length
        ∧ s.weights.length = m.weights.length
        ∧ s.weight_gradients.length = m.weight_gradients.length)
      ?_ _ _ m m1 ⟨rfl, rfl, rfl, rfl, rfl⟩ h
    rintro i s s1 ⟨e1, e2, e3, e4, e5⟩ hb
    simp only [bind_eq_ok_iff] at hb
    obtain ⟨g, hg, hs1⟩ := hb
    cases hs1
    exact ⟨e1, e2, e3, (Vec_Put_length _ _ _ _ hg).trans e4, e5⟩
  · refine forLoopFrom_preserves _
      (fun s => s.width = m.width ∧ s.height = m.height ∧ s.length = m.length
        ∧ s.weights.length = m.weights.length
        ∧ s.weight_gradients.length = m.weight_gradients.length)
      ?_ _ _ m m1 ⟨rfl, rfl, rfl, rfl, rfl⟩ h
    rintro i s s1 ⟨e1, e2, e3, e4, e5⟩ hb
    simp only [bind_eq_ok_iff] at hb
    obtain ⟨g, hg, hs1⟩ := hb
    cases hs1
    exact ⟨e1, e2, e3, e4, (Vec_Put_length _ _ _ _ hg).trans e5⟩
  · refine forLoopFrom_preserves _
      (fun s => s.width = m.width ∧ s.height = m.height ∧ s.length = m.length
        ∧ s.weights.length = m.weights.length
        ∧ s.weight_gradients.length = m.weight_gradients.length)
      ?_ _ _ m m1 ⟨rfl, rfl, rfl, rfl, rfl⟩ h
    rintro i s s1 ⟨e1, e2, e3, e4, e5⟩ hb
    simp only [bind_eq_ok_iff] at hb
    obtain ⟨_, _, _, _, g, hg, hs1⟩ := hb
    cases hs1
    exact ⟨e1, e2, e3, (Vec_Put_length _ _ _ _ hg).trans e4, e5⟩
  · refine forLoopFrom_preserves _
      (fun s => s.width = m.width ∧ s.height = m.height ∧ s.length = m.length
        ∧ s.weights.length = m.weights.length
        ∧ s.weight_gradients.length = m.weight_gradients.length)
      ?_ _ _ m m1 ⟨rfl, rfl, rfl, rfl, rfl⟩ h
    rintro i s s1 ⟨e1, e2, e3, e4, e5⟩ hb
    simp only [bind_eq_ok_iff] at hb
    obtain ⟨_, _, _, _, g, hg, hs1⟩ := hb
    cases hs1
    exact ⟨e1, e2, e3, e4, (Vec_Put_length _ _ _ _ hg).trans e5⟩
  · refine forLoopFrom_preserves _
      (fun s => s.width = m.width ∧ s.height = m.height ∧ s.length = m.length
        ∧ s.weights.length = m.weights.length
        ∧ s.weight_gradients.length = m.weight_gradients.length)
      ?_ _ _ m m1 ⟨rfl, rfl, rfl, rfl, rfl⟩ h
    rintro i s s1 ⟨e1, e2, e3, e4, e5⟩ hb
    simp only [bind_eq_ok_iff] at hb
    obtain ⟨_, _, _, _, g, hg, hs1⟩ := hb
    cases hs1
    exact ⟨e1, e2, e3, (Vec_Put_length _ _ _ _ hg).trans e4, e5⟩

/-- The single-cell writes of `Mat` other than the flat-index `Set` keep the dimensions
and both vector sizes; the flat-index `Set(i, v)` does so when `i` is below the size of
`weights`. -/
theorem Mat_writes_same_shape {α : Type} [Add α] (junk : Nat → α) (m m1 : Mat α)
    (x y i : Int) (v : α) :
    (m.Set x y v = Except.ok m1 ∨ m.AddCoord x y v = Except.ok m1
      ∨ m.SetGradient x y v = Except.ok m1 ∨ m.AddGradient x y v = Except.ok m1
      ∨ m.AddFlat i v = Except.ok m1 ∨ m.SetGradientFlat i v = Except.ok m1
      ∨ m.AddGradientFlat i v = Except.ok m1
      ∨ (i < (m.weights.length : Int) ∧ m.SetFlat junk i v = Except.ok m1)) →
    m1.width = m.width ∧ m1.height = m.height ∧ m1.length = m.length
      ∧ m1.weights.length = m.weights.length
      ∧ m1.weight_gradients.length = m.weight_gradients.length := by
  intro h
  rcases h with h | h | h | h | h | h | h | ⟨hi, h⟩
  · simp only [Mat.Set, bind_eq_ok_iff] at h
    obtain ⟨_, _, w, hw, hs⟩ := h
    cases hs
    exact ⟨rfl, rfl, rfl, Vec_Put_length _ _ _ _ hw, rfl⟩
  · simp only [Mat.AddCoord, bind_eq_ok_iff] at h
    obtain ⟨_, _, _, _, w, hw, hs⟩ := h
    cases hs
    exact ⟨rfl, rfl, rfl, Vec_Put_length _ _ _ _ hw, rfl⟩
  · simp only [Mat.SetGradient, bind_eq_ok_iff] at h
    obtain ⟨_, _, w, hw, hs⟩ := h
    cases hs
    exact ⟨rfl, rfl, rfl, rfl, Vec_Put_length _ _ _ _ hw⟩
  · simp only [Mat.AddGradient, bind_eq_ok_iff] at h
    obtain ⟨_, _, _, _, w, hw, hs⟩ := h
    cases hs
    exact ⟨rfl, rfl, rfl, rfl, Vec_Put_length _ _ _ _ hw⟩
  · simp only [Mat.AddFlat, bind_eq_ok_iff] at h
    obtain ⟨_, _, w, hw, hs⟩ := h
    cases hs
    exact ⟨rfl, rfl, rfl, Vec_Put_length _ _ _ _ hw, rfl⟩
  · simp only [Mat.SetGradientFlat, bind_eq_ok_iff] at h
    obtain ⟨w, hw, hs⟩ := h
    cases hs
    exact ⟨rfl, rfl, rfl, rfl, Vec_Put_length _ _ _ _ hw⟩
  · simp only [Mat.AddGradientFlat, bind_eq_ok_iff] at h
    obtain ⟨_, _, w, hw, hs⟩ := h
    cases hs
    exact ⟨rfl, rfl, rfl, rfl, Vec_Put_length _ _ _ _ hw⟩
  · simp only [Mat.SetFlat, bind_eq_ok_iff] at h
    obtain ⟨w, hw, hs⟩ := h
    cases hs
    exact ⟨rfl, rfl, rfl, Vec_Set_length_of_lt junk _ _ i v hi hw, rfl⟩


/-- The constructors of `Mat` modelled here establish the size invariant whenever they
return. -/
theorem Mat_SizeInv_constructors {α : Type} [Zero α] (junk : Nat → α) (width height : Int)
    (c : α) (ws : List α) (vol m : Mat α) :
    (Mat.Mat0 : Mat α).SizeInv
      ∧ (Mat.MatFlat ws = Except.ok m → m.SizeInv)
      ∧ (Mat.MatDimsFlat width height ws = Except.ok m → m.SizeInv)
      ∧ (Mat.MatFrom width height vol = Except.ok m → m.SizeInv)
      ∧ (Mat.MatConst junk width height c = Except.ok m → m.SizeInv) := by
  refine ⟨⟨rfl, rfl, rfl⟩, ?_, ?_, ?_, ?_⟩
  · intro h
    simp only [Mat.MatFlat, GetCount_eq, Vec_SetCountInit_natCast, bind_ok_eq] at h
    cases h
    refine ⟨by simp, by simp, by simp⟩
  · intro h
    unfold Mat.MatDimsFlat at h
    split at h
    · simp only [GetCount_eq] at h
      split at h
      · rename_i hsz
        simp only [hsz, Vec_SetCountInit_natCast, bind_ok_eq] at h
        cases h
        exact ⟨hsz.symm, by simp, by simp⟩
      · cases h
    · cases h
  · intro h
    unfold Mat.MatFrom at h
    split at h
    · simp only [GetCount_eq] at h
      split at h
      · rename_i hsz
        simp only [← hsz, Vec_SetCountInit_natCast, bind_ok_eq] at h
        cases h
        exact ⟨hsz, by simp, by simp⟩
      · cases h
    · cases h
  · intro h
    unfold Mat.MatConst at h
    split at h
    · rename_i hpos
      rw [Mat_InitConst_ok junk _ width height c hpos.1 hpos.2] at h
      cases h
      have hnn : 0 < width * height := Int.mul_pos hpos.1 hpos.2
      refine ⟨rfl, ?_, ?_⟩
      · simp only [GetCount_eq, List.length_replicate]
        omega
      · simp only [GetCount_eq, List.length_replicate]
        omega
    · cases h

/-- Source `Init(width, height, c)`, `Init(width, height, w)`, `operator=` (from a source that
satisfies the invariant) and `Load` leave the size invariant established whenever they
return, from any prior state of the tensor. -/
theorem Mat_SizeInv_Init_Assign_Load {α : Type} [Zero α] (junk : Nat → α) (self src m : Mat α)
    (width height : Int) (c : α) (ws : List α) (map : List (String × Value α)) :
    (Mat.InitConst junk self width height c = Except.ok m → m.SizeInv)
      ∧ (Mat.InitFlat junk self width height ws = Except.ok m → m.SizeInv)
      ∧ (src.SizeInv → Mat.Assign junk self src = Except.ok m → m.SizeInv)
      ∧ (Mat.Load junk self map = Except.ok m → m.SizeInv) := by
  refine ⟨?_, ?_, ?_, ?_⟩
  · intro h
    by_cases hpos : width > 0 ∧ height > 0
    · rw [Mat_InitConst_ok junk _ width height c hpos.1 hpos.2] at h
      cases h
      have hnn : 0 < width * height := Int.mul_pos hpos.1 hpos.2
      refine ⟨rfl, ?_, ?_⟩
      · simp only [GetCount_eq, List.length_replicate]
        omega
      · simp only [GetCount_eq, List.length_replicate]
        omega
    · unfold Mat.InitConst at h
      rw [if_neg hpos] at h
      cases h
  · intro h
    by_cases hpos : width > 0 ∧ height > 0
    · by_cases hsz : width * height = (ws.length : Int)
      · rw [Mat_InitFlat_ok junk _ width height ws hpos.1 hpos.2 hsz] at h
        cases h
        exact ⟨rfl, by simp only [GetCount_eq]; omega,
          by simp only [GetCount_eq, List.length_replicate]; omega⟩
      · unfold Mat.InitFlat at h
        rw [if_pos hpos] at h
        simp only [GetCount_eq, if_neg hsz] at h
        cases h
    · unfold Mat.InitFlat at h
      rw [if_neg hpos] at h
      cases h
  · intro hsrc h
    rw [Mat_Assign_ok] at h
    cases h
    exact hsrc
  · intro h
    unfold Mat.Load at h
    simp only [bind_eq_ok_iff, Vec_SetCountInit_zero] at h
    obtain ⟨vsx, _, w, _, vsy, _, ht, _, w0, hw0, w1, hw1, g0, hg0, g1, hg1, W, _, s1,
      hloop, hrest⟩ := h
    cases hw0
    cases hg0
    have hlw := Vec_SetCountInit_length _ _ _ _ hw1
    have hlg := Vec_SetCountInit_length _ _ _ _ hg1
    have hQ1 : s1.width = w ∧ s1.height = ht ∧ s1.length = w * ht
        ∧ (s1.weights.length : Int) = w * ht
        ∧ (s1.weight_gradients.length : Int) = w * ht := by
      refine forLoopFrom_preserves_idx _
        (fun s => s.width = w ∧ s.height = ht ∧ s.length = w * ht
          ∧ (s.weights.length : Int) = w * ht
          ∧ (s.weight_gradients.length : Int) = w * ht)
        (w * ht).toNat ?_ _ s1 ⟨rfl, rfl, rfl, hlw, hlg⟩ hloop
      rintro k s s2 hk ⟨e1, e2, e3, e4, e5⟩ hb
      simp only [bind_eq_ok_iff] at hb
      obtain ⟨_, _, _, _, wsn, hset, hs2⟩ := hb
      cases hs2
      have := Vec_Set_length_of_lt junk _ _ _ _ (by omega) hset
      exact ⟨e1, e2, e3, by simp only; omega, e5⟩
    have hfin : ∀ s2 : Mat α, (s2.width = w ∧ s2.height = ht ∧ s2.length = w * ht
        ∧ (s2.weights.length : Int) = w * ht
        ∧ (s2.weight_gradients.length : Int) = w * ht) → s2.SizeInv := by
      rintro s2 ⟨e1, e2, e3, e4, e5⟩
      exact ⟨by rw [e1, e2, e3], by simp only [GetCount_eq]; omega,
        by simp only [GetCount_eq]; omega⟩
    by_cases hdw : ValueMap.Find map "dw" ≠ -1
    · rw [if_pos hdw] at hrest
      obtain ⟨DW, _, hloop2⟩ := (bind_eq_ok_iff _ _ _).mp hrest
      apply hfin
      refine forLoopFrom_preserves _
        (fun s => s.width = w ∧ s.height = ht ∧ s.length = w * ht
          ∧ (s.weights.length : Int) = w * ht
          ∧ (s.weight_gradients.length : Int) = w * ht)
        ?_ _ _ s1 m hQ1 hloop2
      rintro i s s2 ⟨e1, e2, e3, e4, e5⟩ hb
      simp only [bind_eq_ok_iff] at hb
      obtain ⟨_, _, _, _, gsn, hput, hs2⟩ := hb
      cases hs2
      have := Vec_Put_length _ _ _ _ hput
      exact ⟨e1, e2, e3, e4, by simp only; omega⟩
    · rw [if_neg hdw] at hrest
      cases hrest
      exact hfin _ hQ1


/-! ### Length mismatch in `AddFrom` and `AddGradientFrom` -/

theorem forLoopFrom_add {σ : Type} (body : Int → σ → Except Err σ) (m r : Nat) (i : Int)
    (s : σ) :
    forLoopFrom body (m + r) i s
      = (forLoopFrom body m i s >>= fun s1 => forLoopFrom body r (i + (m : Int)) s1) := by
  induction m generalizing i s with
  | zero => simp [forLoopFrom]
  | succ m ih =>
    have e0 : m + 1 + r = (m + r) + 1 := by omega
    have e1 : forLoopFrom body ((m + r) + 1) i s
        = (body i s >>= fun s1 => forLoopFrom body (m + r) (i + 1) s1) := rfl
    have e2 : forLoopFrom body (m + 1) i s
        = (body i s >>= fun s1 => forLoopFrom body m (i + 1) s1) := rfl
    rw [e0, e1, e2]
    cases hb : body i s with
    | error e => rfl
    | ok s1 =>
      simp only [bind_ok_eq]
      rw [ih]
      have e3 : i + 1 + (m : Int) = i + ((m + 1 : Nat) : Int) := by push_cast; ring
      rw [e3]

/-- The accumulation loop `for i < A.size: A[i] = f(A[i], B[i])` is a fatal index error
when `B` is shorter than `A`: iteration `B.size` reads `B` past its end. -/
theorem zipWith_loop_short {α : Type} (f : α → α → α) (A B : List α)
    (hlen : B.length < A.length) :
    forLoopFrom
        (fun i ws => (Vec.Get B i) >>= fun d => (Vec.Get ws i) >>= fun old =>
          Vec.Put ws i (f old d))
        A.length 0 A
      = Except.error Err.index := by
  obtain ⟨r, hr⟩ : ∃ r, A.length = B.length + (r + 1) := ⟨A.length - B.length - 1, by omega⟩
  rw [hr, forLoopFrom_add]
  obtain ⟨ws, hws, _⟩ := forLoopFrom_inv
    (fun i ws => (Vec.Get B i) >>= fun d => (Vec.Get ws i) >>= fun old =>
      Vec.Put ws i (f old d))
    (fun _ ws => ws.length = A.length) B.length A rfl
    (by
      intro k ws hk hl
      have hkw : k < ws.length := by omega
      refine ⟨ws.set k (f (ws.get ⟨k, hkw⟩) (B.get ⟨k, hk⟩)), ?_, by simpa using hl⟩
      beta_reduce
      rw [Vec_Get_natCast B k hk, bind_ok_eq, Vec_Get_natCast ws k hkw, bind_ok_eq,
        Vec_Put_natCast ws k _ hkw])
  rw [hws, bind_ok_eq]
  have e1 : forLoopFrom
      (fun i ws => (Vec.Get B i) >>= fun d => (Vec.Get ws i) >>= fun old =>
        Vec.Put ws i (f old d)) (r + 1) (0 + (B.length : Int)) ws
      = ((Vec.Get B (0 + (B.length : Int)) >>= fun d =>
          (Vec.Get ws (0 + (B.length : Int))) >>= fun old =>
          Vec.Put ws (0 + (B.length : Int)) (f old d)) >>= fun s1 =>
        forLoopFrom
          (fun i ws => (Vec.Get B i) >>= fun d => (Vec.Get ws i) >>= fun old =>
            Vec.Put ws i (f old d)) r (0 + (B.length : Int) + 1) s1) := rfl
  rw [e1, Vec_Get_error B (0 + (B.length : Int)) (Or.inr (by omega))]
  rfl

theorem Mat_AddFrom_as_loop {α : Type} [Add α] (a b : Mat α) :
    a.AddFrom b
      = (forLoopFrom
          (fun i ws => (Vec.Get b.weights i) >>= fun d => (Vec.Get ws i) >>= fun old =>
            Vec.Put ws i (old + d))
          a.weights.length 0 a.weights >>= fun w => Except.ok { a with weights := w }) := by
  unfold Mat.AddFrom
  simp only [forLoop, GetCount_eq, Int.toNat_ofNat]
  exact forLoopFrom_member (fun s : Mat α => s.weights) (fun s w => { s with weights := w })
    (fun i ws => (Vec.Get b.weights i) >>= fun d => (Vec.Get ws i) >>= fun old =>
      Vec.Put ws i (old + d))
    _ (fun _ _ => rfl) (fun _ _ _ => rfl) (fun _ => rfl)
    (by
      intro i s
      simp only [Mat.GetFlat]
      cases Vec.Get b.weights i with
      | error e => rfl
      | ok d =>
        simp only [bind_ok_eq]
        cases Vec.Get s.weights i with
        | error e => rfl
        | ok old => rfl) _ _ _

theorem Mat_AddGradientFrom_as_loop {α : Type} [Add α] (a b : Mat α) :
    a.AddGradientFrom b
      = (forLoopFrom
          (fun i ws => (Vec.Get b.weight_gradients i) >>= fun d => (Vec.Get ws i) >>= fun old =>
            Vec.Put ws i (old + d))
          a.weight_gradients.length 0 a.weight_gradients >>= fun w =>
            Except.ok { a with weight_gradients := w }) := by
  unfold Mat.AddGradientFrom
  simp only [forLoop, GetCount_eq, Int.toNat_ofNat]
  exact forLoopFrom_member (fun s : Mat α => s.weight_gradients)
    (fun s w => { s with weight_gradients := w })
    (fun i ws => (Vec.Get b.weight_gradients i) >>= fun d => (Vec.Get ws i) >>= fun old =>
      Vec.Put ws i (old + d))
    _ (fun _ _ => rfl) (fun _ _ _ => rfl) (fun _ => rfl)
    (by
      intro i s
      simp only [Mat.GetGradientFlat]
      cases Vec.Get b.weight_gradients i with
      | error e => rfl
      | ok d =>
        simp only [bind_ok_eq]
        cases Vec.Get s.weight_gradients i with
        | error e => rfl
        | ok old => rfl) _ _ _

/-- C11, counterexample. A tensor `a` of length 1 and a tensor `b` of length 2, both
satisfying the size invariant: `a.length != b.length`, yet neither `a.AddFrom(b)` nor
`a.AddGradientFrom(b)` fails; each returns, having accumulated item 0 of `b`. -/
theorem Mat_AddFrom_longer_source_returns :
    (({ width := 1, height := 1, length := 1, weights := [10], weight_gradients := [1] }
        : Mat Int).SizeInv)
      ∧ (({ width := 2, height := 1, length := 2, weights := [3, 4],
            weight_gradients := [5, 6] } : Mat Int).SizeInv)
      ∧ (1 : Int) ≠ 2
      ∧ Mat.AddFrom
          ({ width := 1, height := 1, length := 1, weights := [10], weight_gradients := [1] }
            : Mat Int)
          { width := 2, height := 1, length := 2, weights := [3, 4],
            weight_gradients := [5, 6] }
        = Except.ok { width := 1, height := 1, length := 1, weights := [13],
                      weight_gradients := [1] }
      ∧ Mat.AddGradientFrom
          ({ width := 1, height := 1, length := 1, weights := [10], weight_gradients := [1] }
            : Mat Int)
          { width := 2, height := 1, length := 2, weights := [3, 4],
            weight_gradients := [5, 6] }
        = Except.ok { width := 1, height := 1, length := 1, weights := [10],
                      weight_gradients := [6] } :=
  ⟨⟨by decide, by decide, by decide⟩, ⟨by decide, by decide, by decide⟩, by decide, rfl, rfl⟩

/-- C11, amended. For tensors `a` and `b` satisfying the size invariant: when `b` is
shorter than `a`, `a.AddFrom(b)` and `a.AddGradientFrom(b)` are fatal index errors; when
`b` is longer than `a`, both return, accumulating the first `a.length` items of `b` and
leaving the dimensions and the other vector of `a` as they were. -/
theorem Mat_AddFrom_length_mismatch {α : Type} [Add α] (a b : Mat α) (ha : a.SizeInv)
    (hb : b.SizeInv) :
    (b.length < a.length →
        a.AddFrom b = Except.error Err.index
          ∧ a.AddGradientFrom b = Except.error Err.index)
      ∧ (a.length < b.length →
        a.AddFrom b
            = Except.ok
                { a with weights := List.zipWith (fun x y => x + y) a.weights b.weights }
          ∧ a.AddGradientFrom b
            = Except.ok
                { a with
                  weight_gradients :=
                    List.zipWith (fun x y => x + y) a.weight_gradients b.weight_gradients }
          ∧ (List.zipWith (fun x y => x + y) a.weights b.weights).length = a.weights.length
          ∧ (List.zipWith (fun x y => x + y) a.weight_gradients b.weight_gradients).length
              = a.weight_gradients.length) := by
  obtain ⟨_, ha2, ha3⟩ := ha
  obtain ⟨_, hb2, hb3⟩ := hb
  simp only [GetCount_eq] at ha2 ha3 hb2 hb3
  constructor
  · intro hlt
    constructor
    · rw [Mat_AddFrom_as_loop, zipWith_loop_short _ a.weights b.weights (by omega)]
      rfl
    · rw [Mat_AddGradientFrom_as_loop,
        zipWith_loop_short _ a.weight_gradients b.weight_gradients (by omega)]
      rfl
  · intro hlt
    refine ⟨Mat_AddFrom_eq a b (by omega), Mat_AddGradientFrom_eq a b (by omega), ?_, ?_⟩
    · simp only [List.length_zipWith]
      omega
    · simp only [List.length_zipWith]
      omega

/-- Witness for C11 (amended): a length-2 tensor accumulated from a length-1 tensor is a
fatal index error. -/
theorem Mat_AddFrom_length_mismatch_witness :
    Mat.AddFrom
        ({ width := 2, height := 1, length := 2, weights := [3, 4],
           weight_gradients := [5, 6] } : Mat Int)
        { width := 1, height := 1, length := 1, weights := [10], weight_gradients := [1] }
      = Except.error Err.index
    ∧ Mat.AddGradientFrom
        ({ width := 2, height := 1, length := 2, weights := [3, 4],
           weight_gradients := [5, 6] } : Mat Int)
        { width := 1, height := 1, length := 1, weights := [10], weight_gradients := [1] }
      = Except.error Err.index :=
  (Mat_AddFrom_length_mismatch
    ({ width := 2, height := 1, length := 2, weights := [3, 4],
       weight_gradients := [5, 6] } : Mat Int)
    { width := 1, height := 1, length := 1, weights := [10], weight_gradients := [1] }
    ⟨by decide, by decide, by decide⟩ ⟨by decide, by decide, by decide⟩).1 (by decide)

/-! ### `GetMaxColumn` -/

/-- C12. For every tensor whose `weights` has `length > 0` items, over a totally ordered
scalar type and whatever `-DBL_MAX` is: `GetMaxColumn` returns an index `p` with
`0 <= p < length` such that `weights[p] >= weights[i]` for every `i` and
`weights[j] < weights[p]` for every `j < p` (the first occurrence of the maximum). -/
theorem Mat_GetMaxColumn_first_max {α : Type} [LinearOrder α] (negDblMax : α) (m : Mat α)
    (hsize : Vec.GetCount m.weights = m.length) (hpos : 0 < m.length) :
    ∃ (p : Nat) (M : α), m.GetMaxColumn negDblMax = Except.ok (p : Int)
      ∧ 0 ≤ (p : Int) ∧ (p : Int) < m.length
      ∧ m.weights[p]? = some M
      ∧ (∀ (i : Nat) (x : α), m.weights[i]? = some x → x ≤ M)
      ∧ (∀ (j : Nat) (x : α), j < p → m.weights[j]? = some x → x < M) := by
  simp only [GetCount_eq] at hsize
  have hne : 0 < m.weights.length := by omega
  obtain ⟨s1, hs1, hP⟩ := forLoopFrom_inv
    (fun i (s : α × Int) =>
      (Vec.Get m.weights i) >>= fun d =>
      if i = 0 ∨ d > s.1 then (Except.ok (d, i) : Except Err (α × Int)) else Except.ok s)
    (fun k s => (k = 0 ∧ s.2 = -1) ∨
      (∃ p : Nat, p < k ∧ s.2 = (p : Int) ∧ m.weights[p]? = some s.1
        ∧ (∀ (i : Nat) (x : α), i < k → m.weights[i]? = some x → x ≤ s.1)
        ∧ (∀ (j : Nat) (x : α), j < p → m.weights[j]? = some x → x < s.1)))
    m.weights.length (negDblMax, -1) (Or.inl ⟨rfl, rfl⟩)
    (by
      rintro k ⟨mx, pos⟩ hk hinv
      have hd : m.weights[k]? = some (m.weights.get ⟨k, hk⟩) := by
        simp [List.getElem?_eq_getElem hk]
      beta_reduce
      rw [Vec_Get_natCast m.weights k hk, bind_ok_eq]
      rcases hinv with ⟨hk0, _⟩ | ⟨p, hp, hpos1, hpm, hall, hfirst⟩
      · subst hk0
        refine ⟨(m.weights.get ⟨0, hk⟩, ((0 : Nat) : Int)), ?_, Or.inr ⟨0, by omega, rfl, hd, ?_, ?_⟩⟩
        · simp
        · intro i x hi hx
          have hi0 : i = 0 := by omega
          subst hi0
          rw [hd] at hx
          exact le_of_eq (Option.some.inj hx).symm
        · intro j x hj
          omega
      · simp only at hpos1 hpm hall hfirst
        have hk0 : ¬ ((k : Int) = 0) := by omega
        by_cases hgt : m.weights.get ⟨k, hk⟩ > mx
        · refine ⟨(m.weights.get ⟨k, hk⟩, (k : Int)), ?_, Or.inr ⟨k, by omega, rfl, hd, ?_, ?_⟩⟩
          · exact if_pos (Or.inr hgt)
          · intro i x hi hx
            by_cases hik : i = k
            · subst hik
              rw [hd] at hx
              exact le_of_eq (Option.some.inj hx).symm
            · exact le_of_lt (lt_of_le_of_lt (hall i x (by omega) hx) hgt)
          · intro j x hj hx
            exact lt_of_le_of_lt (hall j x hj hx) hgt
        · refine ⟨(mx, pos), ?_, Or.inr ⟨p, by omega, hpos1, hpm, ?_, hfirst⟩⟩
          · exact if_neg (fun h => h.elim hk0 hgt)
          · intro i x hi hx
            by_cases hik : i = k
            · subst hik
              rw [hd] at hx
              have := Option.some.inj hx
              rw [← this]
              exact not_lt.mp hgt
            · exact hall i x (by omega) hx)
  rcases hP with ⟨h0, _⟩ | ⟨p, hp, hpos1, hpm, hall, hfirst⟩
  · omega
  · refine ⟨p, s1.1, ?_, Int.natCast_nonneg p, by omega, hpm, ?_, hfirst⟩
    · simp only [Mat.GetMaxColumn, forLoop, GetCount_eq, Int.toNat_ofNat, hs1, bind_ok_eq, hpos1]
    · intro i x hx
      have hi : i < m.weights.length := (List.getElem?_eq_some_iff.mp hx).1
      exact hall i x hi hx

/-- Witness for C12: the weights `[0.1, 0.9, 0.3]` give index 1 and the tie `[0.5, 0.5]`
gives index 0. -/
theorem Mat_GetMaxColumn_first_max_witness :
    Mat.GetMaxColumn (-1000 : ℚ)
        { width := 3, height := 1, length := 3, weights := [0.1, 0.9, 0.3],
          weight_gradients := [0, 0, 0] } = Except.ok 1
      ∧ Mat.GetMaxColumn (-1000 : ℚ)
        { width := 2, height := 1, length := 2, weights := [0.5, 0.5],
          weight_gradients := [0, 0] } = Except.ok 0
      ∧ ∃ (p : Nat) (M : ℚ), Mat.GetMaxColumn (-1000 : ℚ)
          { width := 2, height := 1, length := 2, weights := [0.5, 0.5],
            weight_gradients := [0, 0] } = Except.ok (p : Int)
        ∧ 0 ≤ (p : Int) ∧ (p : Int) < 2
        ∧ ([0.5, 0.5] : List ℚ)[p]? = some M
        ∧ (∀ (i : Nat) (x : ℚ), ([0.5, 0.5] : List ℚ)[i]? = some x → x ≤ M)
        ∧ (∀ (j : Nat) (x : ℚ), j < p → ([0.5, 0.5] : List ℚ)[j]? = some x → x < M) :=
  ⟨by norm_num [Mat.GetMaxColumn, forLoop, forLoopFrom, Vec.Get, Vec.GetCount,
      (by decide : Int.toNat 2 = 2)],
   by norm_num [Mat.GetMaxColumn, forLoop, forLoopFrom, Vec.Get, Vec.GetCount],
   Mat_GetMaxColumn_first_max (-1000 : ℚ)
      { width := 2, height := 1, length := 2, weights := [0.5, 0.5],
        weight_gradients := [0, 0] } (by rfl) (by decide)⟩

/-! ### `GetSampledColumn` -/

theorem prefixSum_succ {α : Type} [Zero α] [Add α] (ws : List α) (k : Nat)
    (hk : k < ws.length) :
    prefixSum ws (k + 1) = prefixSum ws k + ws.get ⟨k, hk⟩ := by
  unfold prefixSum
  rw [List.take_succ, List.getElem?_eq_getElem hk, List.foldl_append]
  rfl

/-- The loop of `GetSampledColumn`, entered at iteration `k` with the running sum of the
first `k` weights: it returns from inside at the first index `j >= k` whose running sum
exceeds `r`, or runs to its end when there is none. -/
theorem GetSampledColumnLoop_spec {α : Type} [Zero α] [Add α] [LT α]
    [DecidableRel (fun a b : α => a < b)] (ws : List α) (r : α) (fuel k : Nat)
    (hfuel : k + fuel = ws.length) :
    (∃ j : Nat, k ≤ j ∧ j < ws.length
        ∧ Mat.GetSampledColumnLoop ws r fuel (k : Int) (prefixSum ws k)
            = Except.ok (some (j : Int))
        ∧ prefixSum ws (j + 1) > r
        ∧ ∀ t, k ≤ t → t < j → ¬ (prefixSum ws (t + 1) > r))
      ∨ (Mat.GetSampledColumnLoop ws r fuel (k : Int) (prefixSum ws k) = Except.ok none
        ∧ ∀ t, k ≤ t → t < ws.length → ¬ (prefixSum ws (t + 1) > r)) := by
  induction fuel generalizing k with
  | zero =>
    right
    refine ⟨rfl, ?_⟩
    intro t h1 h2
    omega
  | succ fuel ih =>
    have hk : k < ws.length := by omega
    have hstep : Mat.GetSampledColumnLoop ws r (fuel + 1) (k : Int) (prefixSum ws k)
        = if prefixSum ws (k + 1) > r then Except.ok (some (k : Int))
          else Mat.GetSampledColumnLoop ws r fuel ((k : Int) + 1) (prefixSum ws (k + 1)) := by
      rw [Mat.GetSampledColumnLoop, Vec_Get_natCast ws k hk, bind_ok_eq,
        prefixSum_succ ws k hk]
    by_cases hgt : prefixSum ws (k + 1) > r
    · left
      refine ⟨k, le_refl k, hk, ?_, hgt, ?_⟩
      · rw [hstep, if_pos hgt]
      · intro t h1 h2
        omega
    · rw [hstep, if_neg hgt]
      have hcast : ((k : Int) + 1) = ((k + 1 : Nat) : Int) := by push_cast; ring
      rw [hcast]
      rcases ih (k + 1) (by omega) with ⟨j, h1, h2, h3, h4, h5⟩ | ⟨h3, h5⟩
      · left
        refine ⟨j, by omega, h2, h3, h4, ?_⟩
        intro t ht1 ht2
        by_cases htk : t = k
        · subst htk
          exact hgt
        · exact h5 t (by omega) ht2
      · right
        refine ⟨h3, ?_⟩
        intro t ht1 ht2
        by_cases htk : t = k
        · subst htk
          exact hgt
        · exact h5 t (by omega) ht2

/-- C13. With the draw `r` as an input, for every tensor whose `weights` has `length`
items and every `r`: `GetSampledColumn` returns the smallest index `i` such that the
running sum `weights[0] + ... + weights[i]` (added in index order) exceeds `r`, if there
is such an index, and returns `length - 1` otherwise. -/
theorem Mat_GetSampledColumn_first_crossing {α : Type} [Zero α] [Add α] [LT α]
    [DecidableRel (fun a b : α => a < b)] (m : Mat α) (r : α)
    (hsize : Vec.GetCount m.weights = m.length) :
    (∃ i : Nat, (i : Int) < m.length ∧ m.GetSampledColumn r = Except.ok (i : Int)
        ∧ prefixSum m.weights (i + 1) > r
        ∧ ∀ j, j < i → ¬ (prefixSum m.weights (j + 1) > r))
      ∨ (m.GetSampledColumn r = Except.ok (m.length - 1)
        ∧ ∀ i : Nat, (i : Int) < m.length → ¬ (prefixSum m.weights (i + 1) > r)) := by
  simp only [GetCount_eq] at hsize
  have h0 : prefixSum m.weights 0 = 0 := rfl
  have hloop := GetSampledColumnLoop_spec m.weights r m.weights.length 0 (by omega)
  rw [h0] at hloop
  rcases hloop with ⟨j, _, h2, h3, h4, h5⟩ | ⟨h3, h5⟩
  · left
    refine ⟨j, by omega, ?_, h4, fun t ht => h5 t (Nat.zero_le t) ht⟩
    simp only [Mat.GetSampledColumn, GetCount_eq, Int.toNat_ofNat]
    have h3b : Mat.GetSampledColumnLoop m.weights r m.weights.length 0 0
        = Except.ok (some (j : Int)) := h3
    rw [h3b, bind_ok_eq]
  · right
    refine ⟨?_, fun i hi => h5 i (Nat.zero_le i) (by omega)⟩
    simp only [Mat.GetSampledColumn, GetCount_eq, Int.toNat_ofNat]
    have h3b : Mat.GetSampledColumnLoop m.weights r m.weights.length 0 0
        = Except.ok none := h3
    rw [h3b, bind_ok_eq, hsize]

/-- Witness for C13: on the weights `[0.2, 0.3, 0.5]` the draw `0.25` gives index 1 and
the draw `0.0` gives index 0. -/
theorem Mat_GetSampledColumn_first_crossing_witness :
    Mat.GetSampledColumn (0.25 : ℚ)
        { width := 3, height := 1, length := 3, weights := [0.2, 0.3, 0.5],
          weight_gradients := [0, 0, 0] } = Except.ok 1
      ∧ Mat.GetSampledColumn (0 : ℚ)
        { width := 3, height := 1, length := 3, weights := [0.2, 0.3, 0.5],
          weight_gradients := [0, 0, 0] } = Except.ok 0
      ∧ ((∃ i : Nat, (i : Int) < 3
          ∧ Mat.GetSampledColumn (0.25 : ℚ)
              { width := 3, height := 1, length := 3, weights := [0.2, 0.3, 0.5],
                weight_gradients := [0, 0, 0] } = Except.ok (i : Int)
          ∧ prefixSum ([0.2, 0.3, 0.5] : List ℚ) (i + 1) > 0.25
          ∧ ∀ j, j < i → ¬ (prefixSum ([0.2, 0.3, 0.5] : List ℚ) (j + 1) > 0.25))
        ∨ (Mat.GetSampledColumn (0.25 : ℚ)
              { width := 3, height := 1, length := 3, weights := [0.2, 0.3, 0.5],
                weight_gradients := [0, 0, 0] } = Except.ok (3 - 1)
          ∧ ∀ i : Nat, (i : Int) < 3
              → ¬ (prefixSum ([0.2, 0.3, 0.5] : List ℚ) (i + 1) > 0.25))) :=
  ⟨by norm_num [Mat.GetSampledColumn, Mat.GetSampledColumnLoop, Vec.Get, Vec.GetCount],
   by norm_num [Mat.GetSampledColumn, Mat.GetSampledColumnLoop, Vec.Get, Vec.GetCount],
   Mat_GetSampledColumn_first_crossing
      ({ width := 3, height := 1, length := 3, weights := [0.2, 0.3, 0.5],
         weight_gradients := [0, 0, 0] } : Mat ℚ) 0.25 (by rfl)⟩

theorem prefixSum_eq_sum {α : Type} [AddMonoid α] (ws : List α) (k : Nat) :
    prefixSum ws k = (ws.take k).sum := by
  unfold prefixSum
  rw [List.sum_eq_foldl]

/-- C19. In exact arithmetic (any linearly ordered field, so the rationals and the
reals), on a normalized distribution the last-index fallback of `GetSampledColumn` is not
reached: for every non-empty tensor whose weights are all `>= 0` and sum to 1 and every
draw `0 <= r < 1`, the loop returns from inside, at an index `i` with
`(sum of weights[0..i-1]) <= r < (sum of weights[0..i])` and `weights[i] > 0`. -/
theorem Mat_GetSampledColumn_normalized {α : Type} [LinearOrderedField α] (m : Mat α)
    (r : α) (hne : m.weights ≠ []) (hnonneg : ∀ w ∈ m.weights, 0 ≤ w)
    (hsum : m.weights.sum = 1) (hr0 : 0 ≤ r) (hr1 : r < 1) :
    ∃ (i : Nat) (w : α), i < m.weights.length
      ∧ Mat.GetSampledColumnLoop m.weights r (Vec.GetCount m.weights).toNat 0 0
          = Except.ok (some (i : Int))
      ∧ m.GetSampledColumn r = Except.ok (i : Int)
      ∧ (m.weights.take i).sum ≤ r ∧ r < (m.weights.take (i + 1)).sum
      ∧ m.weights[i]? = some w ∧ 0 < w := by
  have _ := hnonneg
  have hlen : 0 < m.weights.length := List.length_pos.mpr hne
  have h0 : prefixSum m.weights 0 = 0 := rfl
  have hloop := GetSampledColumnLoop_spec m.weights r m.weights.length 0 (by omega)
  rw [h0] at hloop
  rcases hloop with ⟨j, _, h2, h3, h4, h5⟩ | ⟨_, h5⟩
  · have h3b : Mat.GetSampledColumnLoop m.weights r m.weights.length 0 0
        = Except.ok (some (j : Int)) := h3
    have hlow : prefixSum m.weights j ≤ r := by
      rcases Nat.eq_zero_or_pos j with hj | hj
      · subst hj
        rw [h0]
        exact hr0
      · obtain ⟨t, rfl⟩ : ∃ t, j = t + 1 := ⟨j - 1, by omega⟩
        exact not_lt.mp (h5 t (Nat.zero_le t) (by omega))
    have hsucc := prefixSum_succ m.weights j h2
    refine ⟨j, m.weights.get ⟨j, h2⟩, h2, ?_, ?_, ?_, ?_, ?_, ?_⟩
    · simp only [GetCount_eq, Int.toNat_ofNat]
      exact h3b
    · simp only [Mat.GetSampledColumn, GetCount_eq, Int.toNat_ofNat]
      rw [h3b, bind_ok_eq]
    · rw [← prefixSum_eq_sum]
      exact hlow
    · rw [← prefixSum_eq_sum]
      exact h4
    · simp [List.getElem?_eq_getElem h2]
    · have h6 : prefixSum m.weights j < prefixSum m.weights (j + 1) := lt_of_le_of_lt hlow h4
      rw [hsucc] at h6
      exact pos_of_lt_add_right h6
  · exfalso
    have hlast := h5 (m.weights.length - 1) (Nat.zero_le _) (by omega)
    apply hlast
    have e : m.weights.length - 1 + 1 = m.weights.length := by omega
    rw [e, prefixSum_eq_sum, List.take_length, hsum]
    exact hr1

/-- Witness for C19: the distribution `[1/5, 3/10, 1/2]` with the draw `1/4`. -/
theorem Mat_GetSampledColumn_normalized_witness :
    ∃ (i : Nat) (w : ℚ), i < 3
      ∧ Mat.GetSampledColumnLoop ([1/5, 3/10, 1/2] : List ℚ) (1/4)
          (Vec.GetCount ([1/5, 3/10, 1/2] : List ℚ)).toNat 0 0 = Except.ok (some (i : Int))
      ∧ Mat.GetSampledColumn (1/4 : ℚ)
          { width := 3, height := 1, length := 3, weights := [1/5, 3/10, 1/2],
            weight_gradients := [0, 0, 0] } = Except.ok (i : Int)
      ∧ (([1/5, 3/10, 1/2] : List ℚ).take i).sum ≤ 1/4
      ∧ 1/4 < (([1/5, 3/10, 1/2] : List ℚ).take (i + 1)).sum
      ∧ ([1/5, 3/10, 1/2] : List ℚ)[i]? = some w ∧ 0 < w :=
  Mat_GetSampledColumn_normalized
    ({ width := 3, height := 1, length := 3, weights := [1/5, 3/10, 1/2],
       weight_gradients := [0, 0, 0] } : Mat ℚ) (1/4)
    (by simp) (by norm_num) (by norm_num) (by norm_num) (by norm_num)

/-! ### `Mat::Load` without `dw` -/

theorem Value_At_array_dbl {α : Type} (ws : List α) (k : Nat) (hk : k < ws.length) :
    Value.At (Value.array (ws.map Value.dbl)) (k : Int)
      = Except.ok (Value.dbl (ws.get ⟨k, hk⟩)) := by
  simp only [Value.At]
  rw [Vec_Get_natCast (ws.map Value.dbl) k (by simpa using hk)]
  simp

/-- C14. For every target tensor in any prior state and every map that holds `sx`, `sy`
and an array `w` of `sx*sy` doubles but no `dw` entry, `Mat::Load` returns and leaves the
tensor with `width = sx`, `height = sy`, `length = sx*sy`, weights equal to `w`, and a
gradients sequence of `sx*sy` items that are all 0. -/
theorem Mat_Load_without_dw {α : Type} [Zero α] (junk : Nat → α) (u : Mat α)
    (map : List (String × Value α)) (sx sy : Int) (ws : List α)
    (hsx : ValueMap.GetValue map (ValueMap.Find map "sx") = Except.ok (Value.int sx))
    (hsy : ValueMap.GetValue map (ValueMap.Find map "sy") = Except.ok (Value.int sy))
    (hw : ValueMap.GetValue map (ValueMap.Find map "w")
      = Except.ok (Value.array (ws.map Value.dbl)))
    (hlen : (ws.length : Int) = sx * sy) (hdw : ValueMap.Find map "dw" = -1) :
    Mat.Load junk u map
      = Except.ok { width := sx, height := sy, length := sx * sy, weights := ws,
                    weight_gradients := List.replicate ws.length 0 } := by
  unfold Mat.Load
  simp only [hsx, hsy, hw, bind_ok_eq, Value.toInt, Vec_SetCountInit_zero, ne_eq, hdw,
    not_true_eq_false, if_false]
  simp only [← hlen, Vec_SetCountInit_natCast, bind_ok_eq, forLoop, Int.toNat_ofNat,
    List.take_nil, List.nil_append, List.length_nil, Nat.sub_zero]
  rw [Load_weights_loop junk _ ws _ (by simp) (Value_At_array_dbl ws)]
  rfl

/-- Witness for C14: a 2x1 record without `dw`, loaded into a 1x3 tensor that holds
non-zero gradients. -/
theorem Mat_Load_without_dw_witness :
    Mat.Load (fun _ => 99)
        ({ width := 1, height := 3, length := 3, weights := [1, 2, 3],
           weight_gradients := [7, 8, 9] } : Mat Int)
        [("sx", Value.int 2), ("sy", Value.int 1),
         ("w", Value.array ([4, 5].map Value.dbl))]
      = Except.ok { width := 2, height := 1, length := 2 * 1, weights := [4, 5],
                    weight_gradients := List.replicate [4, 5].length 0 } :=
  Mat_Load_without_dw (fun _ => 99) _ _ 2 1 [4, 5] rfl rfl rfl (by decide) rfl

/-! ### Creation from a flat array -/

/-- C16. Creation from a flat array, by the constructor `Mat(width, height, flatValues)`
and by `Init(width, height, flatValues)` on a tensor in any prior state, returns if and
only if `width > 0`, `height > 0` and `flatValues.size = width*height`: under that
condition both return the tensor with that width and height, `length = width*height`,
weights equal to `flatValues` and all gradients 0; in every other case both are a fatal
assertion failure. -/
theorem Mat_flat_creation {α : Type} [Zero α] (junk : Nat → α) (self : Mat α)
    (width height : Int) (ws : List α) :
    ((0 < width ∧ 0 < height ∧ (ws.length : Int) = width * height) →
        Mat.MatDimsFlat width height ws
            = Except.ok { width := width, height := height, length := width * height,
                          weights := ws, weight_gradients := List.replicate ws.length 0 }
          ∧ Mat.InitFlat junk self width height ws
            = Except.ok { width := width, height := height, length := width * height,
                          weights := ws, weight_gradients := List.replicate ws.length 0 })
      ∧ (¬ (0 < width ∧ 0 < height ∧ (ws.length : Int) = width * height) →
        Mat.MatDimsFlat width height ws = Except.error Err.assertion
          ∧ Mat.InitFlat junk self width height ws = Except.error Err.assertion) := by
  constructor
  · rintro ⟨hw, hh, hsz⟩
    refine ⟨?_, Mat_InitFlat_ok junk self width height ws hw hh hsz.symm⟩
    unfold Mat.MatDimsFlat
    rw [if_pos ⟨hw, hh⟩]
    simp only [GetCount_eq, ← hsz, if_true, Vec_SetCountInit_natCast, bind_ok_eq,
      List.take_nil, List.nil_append, List.length_nil, Nat.sub_zero]
  · intro hcond
    by_cases hpos : width > 0 ∧ height > 0
    · have hsz : ¬ (width * height = (ws.length : Int)) := by
        intro e
        exact hcond ⟨hpos.1, hpos.2, e.symm⟩
      constructor
      · unfold Mat.MatDimsFlat
        rw [if_pos hpos]
        simp only [GetCount_eq, if_neg hsz]
      · unfold Mat.InitFlat
        rw [if_pos hpos]
        simp only [GetCount_eq, if_neg hsz]
    · constructor
      · unfold Mat.MatDimsFlat
        rw [if_neg hpos]
      · unfold Mat.InitFlat
        rw [if_neg hpos]

/-- Witness for C16: a 2x2 creation from four values returns, and a 2x2 creation from
three values is a fatal assertion failure, by the constructor and by `Init`. -/
theorem Mat_flat_creation_witness :
    (Mat.MatDimsFlat 2 2 ([1, 2, 3, 4] : List Int)
        = Except.ok { width := 2, height := 2, length := 2 * 2, weights := [1, 2, 3, 4],
                      weight_gradients := List.replicate [1, 2, 3, 4].length 0 }
      ∧ Mat.InitFlat (fun _ => 99) sampleMat 2 2 ([1, 2, 3, 4] : List Int)
        = Except.ok { width := 2, height := 2, length := 2 * 2, weights := [1, 2, 3, 4],
                      weight_gradients := List.replicate [1, 2, 3, 4].length 0 })
      ∧ (Mat.MatDimsFlat 2 2 ([1, 2, 3] : List Int) = Except.error Err.assertion
        ∧ Mat.InitFlat (fun _ => 99) sampleMat 2 2 ([1, 2, 3] : List Int)
            = Except.error Err.assertion) :=
  ⟨(Mat_flat_creation (fun _ => 99) sampleMat 2 2 [1, 2, 3, 4]).1 (by decide),
   (Mat_flat_creation (fun _ => 99) sampleMat 2 2 [1, 2, 3]).2 (by decide)⟩

/-! ### Coordinate writes touch one cell -/

theorem GetPos_injective (width x y x1 y1 : Int) (hx0 : 0 ≤ x) (hx1 : x < width)
    (hx10 : 0 ≤ x1) (hx11 : x1 < width) (h : width * y + x = width * y1 + x1) :
    x = x1 ∧ y = y1 := by
  have hw : 0 < width := by omega
  have e1 : (width * y + x) % width = x := by
    rw [Int.add_comm, Int.add_mul_emod_self_left]
    exact Int.emod_eq_of_lt hx0 hx1
  have e2 : (width * y1 + x1) % width = x1 := by
    rw [Int.add_comm, Int.add_mul_emod_self_left]
    exact Int.emod_eq_of_lt hx10 hx11
  have hx : x = x1 := by rw [← e1, ← e2, h]
  refine ⟨hx, ?_⟩
  subst hx
  have h2 : width * y = width * y1 := by omega
  exact Int.eq_of_mul_eq_mul_left (by omega) h2

theorem Vec_Get_set_ne {α : Type} (l : List α) (k j : Nat) (v : α) (hne : k ≠ j) :
    Vec.Get (l.set k v) (j : Int) = Vec.Get l (j : Int) := by
  by_cases hj : j < l.length
  · rw [Vec_Get_natCast (l.set k v) j (by simpa using hj), Vec_Get_natCast l j hj]
    simp [List.getElem_set_of_ne hne]
  · rw [Vec_Get_error l j (Or.inr (by omega)),
      Vec_Get_error (l.set k v) j (Or.inr (by simp; omega))]

/-- C20. In a tensor satisfying the size invariant with `width > 0`, `GetPos` is a
bijection from the valid coordinates `0 <= x < width`, `0 <= y < height` onto the flat
indices `[0, length)`: it returns on every valid coordinate with a value in range, it is
injective on them, and every flat index in range is the position of a valid coordinate.
Consequently `Set(x,y,v)` and `Add(x,y,v)` at a valid `(x,y)` return a tensor with the
same width, height, length and gradients in which `Get(x1,y1)` is unchanged at every
other valid coordinate. -/
theorem Mat_coordinate_write_frame {α : Type} [Add α] (m : Mat α) (x y : Int) (v : α)
    (hinv : m.SizeInv) (hw : 0 < m.width) (hx0 : 0 ≤ x) (hx1 : x < m.width)
    (hy0 : 0 ≤ y) (hy1 : y < m.height) :
    (∀ a b, 0 ≤ a → a < m.width → 0 ≤ b → b < m.height →
        ∃ i, m.GetPos a b = Except.ok i ∧ 0 ≤ i ∧ i < m.length)
      ∧ (∀ a b a1 b1, 0 ≤ a → a < m.width → 0 ≤ b → b < m.height →
          0 ≤ a1 → a1 < m.width → 0 ≤ b1 → b1 < m.height →
          m.GetPos a b = m.GetPos a1 b1 → a = a1 ∧ b = b1)
      ∧ (∀ i, 0 ≤ i → i < m.length →
          ∃ a b, 0 ≤ a ∧ a < m.width ∧ 0 ≤ b ∧ b < m.height ∧ m.GetPos a b = Except.ok i)
      ∧ (∃ m1, m.Set x y v = Except.ok m1
          ∧ m1.width = m.width ∧ m1.height = m.height ∧ m1.length = m.length
          ∧ m1.weight_gradients = m.weight_gradients
          ∧ ∀ a b, 0 ≤ a → a < m.width → 0 ≤ b → b < m.height → (a, b) ≠ (x, y) →
              m1.Get a b = m.Get a b)
      ∧ (∃ m2, m.AddCoord x y v = Except.ok m2
          ∧ m2.width = m.width ∧ m2.height = m.height ∧ m2.length = m.length
          ∧ m2.weight_gradients = m.weight_gradients
          ∧ ∀ a b, 0 ≤ a → a < m.width → 0 ≤ b → b < m.height → (a, b) ≠ (x, y) →
              m2.Get a b = m.Get a b) := by
  obtain ⟨h1, h2, h3⟩ := hinv
  simp only [GetCount_eq] at h2 h3
  obtain ⟨hp0, hp1⟩ := GetPos_bounds m.width m.height x y hx0 hx1 hy0 hy1
  obtain ⟨k, hk⟩ : ∃ k : Nat, m.width * y + x = (k : Int) :=
    ⟨(m.width * y + x).toNat, by omega⟩
  have hkw : k < m.weights.length := by omega
  have hpos := Mat_GetPos_ok m x y hx0 hx1 hy0 hy1
  rw [hk] at hpos
  -- what a write at slot `k` leaves alone
  have frame : ∀ (z : α) a b, 0 ≤ a → a < m.width → 0 ≤ b → b < m.height →
      (a, b) ≠ (x, y) →
      Mat.Get { m with weights := m.weights.set k z } a b = m.Get a b := by
    intro z a b ha0 ha1 hb0 hb1 hne
    obtain ⟨hq0, _⟩ := GetPos_bounds m.width m.height a b ha0 ha1 hb0 hb1
    obtain ⟨j, hj⟩ : ∃ j : Nat, m.width * b + a = (j : Int) :=
      ⟨(m.width * b + a).toNat, by omega⟩
    have hposa := Mat_GetPos_ok m a b ha0 ha1 hb0 hb1
    rw [hj] at hposa
    have hposa1 : Mat.GetPos { m with weights := m.weights.set k z } a b
        = Except.ok (j : Int) := hposa
    have hkj : k ≠ j := by
      intro e
      apply hne
      have e2 : m.width * b + a = m.width * y + x := by rw [hj, hk, e]
      obtain ⟨ea, eb⟩ := GetPos_injective m.width a b x y ha0 ha1 hx0 hx1 e2
      rw [ea, eb]
    simp only [Mat.Get, hposa, hposa1, bind_ok_eq]
    exact Vec_Get_set_ne m.weights k j z hkj
  refine ⟨?_, ?_, ?_, ?_, ?_⟩
  · intro a b ha0 ha1 hb0 hb1
    obtain ⟨hq0, hq1⟩ := GetPos_bounds m.width m.height a b ha0 ha1 hb0 hb1
    exact ⟨_, Mat_GetPos_ok m a b ha0 ha1 hb0 hb1, hq0, by omega⟩
  · intro a b a1 b1 ha0 ha1 hb0 hb1 hc0 hc1 hd0 hd1 heq
    rw [Mat_GetPos_ok m a b ha0 ha1 hb0 hb1, Mat_GetPos_ok m a1 b1 hc0 hc1 hd0 hd1] at heq
    exact GetPos_injective m.width a b a1 b1 ha0 ha1 hc0 hc1 (Except.ok.inj heq)
  · intro i hi0 hi1
    have hxa : 0 ≤ i % m.width := Int.emod_nonneg i (by omega)
    have hxb : i % m.width < m.width := Int.emod_lt_of_pos i hw
    have hya : 0 ≤ i / m.width := Int.ediv_nonneg hi0 (by omega)
    have hyb : i / m.width < m.height := by
      apply Int.ediv_lt_of_lt_mul hw
      rw [Int.mul_comm]
      omega
    refine ⟨i % m.width, i / m.width, hxa, hxb, hya, hyb, ?_⟩
    rw [Mat_GetPos_ok m _ _ hxa hxb hya hyb, Int.ediv_add_emod]
  · refine ⟨{ m with weights := m.weights.set k v }, ?_, rfl, rfl, rfl, rfl, frame v⟩
    simp only [Mat.Set, hpos, bind_ok_eq, Vec_Put_natCast m.weights k v hkw]
  · refine ⟨{ m with weights := m.weights.set k (m.weights.get ⟨k, hkw⟩ + v) }, ?_, rfl, rfl,
      rfl, rfl, frame _⟩
    simp only [Mat.AddCoord, hpos, bind_ok_eq, Vec_Get_natCast m.weights k hkw,
      Vec_Put_natCast m.weights k _ hkw]

/-- Witness for C20 on `sampleMat` at `(x, y) = (1, 0)`. -/
theorem Mat_coordinate_write_frame_witness :
    ∃ m1, sampleMat.Set 1 0 9 = Except.ok m1
      ∧ m1.width = sampleMat.width ∧ m1.height = sampleMat.height
      ∧ m1.length = sampleMat.length
      ∧ m1.weight_gradients = sampleMat.weight_gradients
      ∧ ∀ a b, 0 ≤ a → a < sampleMat.width → 0 ≤ b → b < sampleMat.height →
          (a, b) ≠ (1, 0) → m1.Get a b = sampleMat.Get a b :=
  (Mat_coordinate_write_frame sampleMat 1 0 9 ⟨by decide, by decide, by decide⟩
    (by decide) (by decide) (by decide) (by decide) (by decide)).2.2.2.1

/-! ### The sampler cache -/

theorem ArrayMap_Find_congr {β γ : Type} (m1 : List (Int × β)) (m2 : List (Int × γ))
    (key : Int) (h : m1.map Prod.fst = m2.map Prod.fst) :
    ArrayMap.Find m1 key = ArrayMap.Find m2 key := by
  induction m1 generalizing m2 with
  | nil =>
    cases m2 with
    | nil => rfl
    | cons e rest => simp at h
  | cons e rest ih =>
    cases m2 with
    | nil => simp at h
    | cons e2 rest2 =>
      obtain ⟨k, v⟩ := e
      obtain ⟨k2, v2⟩ := e2
      simp only [List.map_cons, List.cons.injEq] at h
      obtain ⟨hk, hrest⟩ := h
      subst hk
      simp only [ArrayMap.Find, ih rest2 hrest]

theorem ArrayMap_Find_absent {β : Type} (m : List (Int × β)) (key : Int) :
    ArrayMap.Find m key = -1 ↔ key ∉ m.map Prod.fst := by
  induction m with
  | nil => simp [ArrayMap.Find]
  | cons e rest ih =>
    obtain ⟨k, v⟩ := e
    simp only [ArrayMap.Find, List.map_cons, List.mem_cons, not_or]
    by_cases hk : k = key
    · rw [if_pos hk]
      constructor
      · intro h
        omega
      · rintro ⟨h, _⟩
        exact absurd hk.symm h
    · rw [if_neg hk]
      by_cases hf : ArrayMap.Find rest key = -1
      · rw [if_pos hf]
        simp only [true_iff]
        exact ⟨fun e => hk e.symm, ih.mp hf⟩
      · rw [if_neg hf]
        constructor
        · intro h
          exfalso
          have hmem : key ∈ rest.map Prod.fst := by
            by_contra hn
            exact hf (ih.mpr hn)
          clear ih
          -- a found index is never negative
          have hnn : ∀ (l : List (Int × β)), ArrayMap.Find l key = -1 ∨ 0 ≤ ArrayMap.Find l key := by
            intro l
            induction l with
            | nil => exact Or.inl rfl
            | cons e2 r2 ih2 =>
              obtain ⟨k2, v2⟩ := e2
              simp only [ArrayMap.Find]
              by_cases hk2 : k2 = key
              · rw [if_pos hk2]
                exact Or.inr (le_refl 0)
              · rw [if_neg hk2]
                by_cases hf2 : ArrayMap.Find r2 key = -1
                · rw [if_pos hf2]
                  exact Or.inl rfl
                · rw [if_neg hf2]
                  rcases ih2 with h1 | h1
                  · exact absurd h1 hf2
                  · exact Or.inr (by omega)
          rcases hnn rest with h1 | h1
          · exact hf h1
          · omega
        · rintro ⟨_, h⟩
          exact absurd (ih.mpr h) hf

/-- A found index refers to an entry with the key that was looked up. -/
theorem ArrayMap_Find_present {β : Type} (m : List (Int × β)) (key : Int)
    (h : ArrayMap.Find m key ≠ -1) :
    ∃ (i : Nat) (v : β), ArrayMap.Find m key = (i : Int) ∧ i < m.length
      ∧ m[i]? = some (key, v) := by
  induction m with
  | nil => simp [ArrayMap.Find] at h
  | cons e rest ih =>
    obtain ⟨k, v⟩ := e
    simp only [ArrayMap.Find] at h ⊢
    by_cases hk : k = key
    · rw [if_pos hk]
      subst hk
      exact ⟨0, v, rfl, by simp, by simp⟩
    · rw [if_neg hk] at h ⊢
      by_cases hf : ArrayMap.Find rest key = -1
      · rw [if_pos hf] at h
        exact absurd rfl h
      · rw [if_neg hf]
        obtain ⟨i, w, h1, h2, h3⟩ := ih hf
        refine ⟨i + 1, w, ?_, by simp; omega, by simpa using h3⟩
        rw [h1]
        push_cast
        ring

theorem ArrayMap_Find_append_new {β : Type} (m : List (Int × β)) (key : Int) (v : β)
    (h : ArrayMap.Find m key = -1) :
    ArrayMap.Find (m ++ [(key, v)]) key = (m.length : Int) := by
  induction m with
  | nil => simp [ArrayMap.Find]
  | cons e rest ih =>
    obtain ⟨k, w⟩ := e
    simp only [ArrayMap.Find] at h
    by_cases hk : k = key
    · rw [if_pos hk] at h
      omega
    · rw [if_neg hk] at h
      by_cases hf : ArrayMap.Find rest key = -1
      · have e := ih hf
        have e0 : ((k, w) :: rest) ++ [(key, v)] = (k, w) :: (rest ++ [(key, v)]) := rfl
        have hne : ¬ ((rest.length : Int) = -1) := by omega
        rw [e0]
        simp only [ArrayMap.Find, if_neg hk, e, if_neg hne, List.length_cons]
        push_cast
        ring
      · rw [if_neg hf] at h
        have := (ArrayMap_Find_present rest key hf)
        obtain ⟨i, _, h1, _, _⟩ := this
        omega

/-- `GetRandomGaussian` always returns, with the index of an entry of the cache it
leaves whose key is `length`. -/
theorem GetRandomGaussian_ok {α : Type} (newStream : Nat → α)
    (rands : List (Int × RandomGaussian α)) (length : Int) :
    ∃ (rands1 : List (Int × RandomGaussian α)) (i : Nat) (g : RandomGaussian α),
      GetRandomGaussian newStream rands length = Except.ok (rands1, (i : Int))
      ∧ i < rands1.length ∧ rands1[i]? = some (length, g)
      ∧ (ArrayMap.Find rands length = -1 →
          rands1 = rands ++ [(length, RandomGaussian.New newStream length)]
            ∧ i = rands.length)
      ∧ (ArrayMap.Find rands length ≠ -1 →
          rands1 = rands ∧ ArrayMap.Find rands length = (i : Int)) := by
  by_cases hf : ArrayMap.Find rands length = -1
  · have hG : GetRandomGaussian newStream rands length
        = Except.ok (rands ++ [(length, RandomGaussian.New newStream length)],
            ((rands.length : Nat) : Int)) := by
      unfold GetRandomGaussian
      simp only [hf, if_true]
      rfl
    refine ⟨_, rands.length, RandomGaussian.New newStream length, hG, ?_, ?_, ?_, ?_⟩
    · simp
    · simp
    · intro _
      exact ⟨rfl, rfl⟩
    · intro h
      exact absurd hf h
  · obtain ⟨i, g, h1, h2, h3⟩ := ArrayMap_Find_present rands length hf
    have hG : GetRandomGaussian newStream rands length = Except.ok (rands, (i : Int)) := by
      unfold GetRandomGaussian
      simp only [hf, if_false]
      rw [h1, Vec_Get_natCast rands i h2, bind_ok_eq]
    refine ⟨rands, i, g, hG, h2, h3, ?_, ?_⟩
    · intro h
      exact absurd h hf
    · intro _
      exact ⟨rfl, h1⟩

/-- C17. The sampler cache, sequentially. For every cache whose keys are pairwise
distinct and every `length`, `GetRandomGaussian(length)` returns a reference to the
entry stored under the key `length`; if the key was absent the cache is the old cache
with exactly one entry appended, for that length, and if the key was present the cache
is unchanged. The keys stay pairwise distinct, and any later call for the same `length`,
on any cache with the same keys (such as the cache after values were drawn), returns the
same entry and leaves that cache unchanged: two creations with the same length obtain
the same sampler. -/
theorem GetRandomGaussian_cache {α : Type} (newStream laterStream : Nat → α)
    (rands : List (Int × RandomGaussian α)) (length : Int)
    (hnodup : (rands.map Prod.fst).Nodup) :
    ∃ (rands1 : List (Int × RandomGaussian α)) (i : Nat) (g : RandomGaussian α),
      GetRandomGaussian newStream rands length = Except.ok (rands1, (i : Int))
      ∧ rands1[i]? = some (length, g)
      ∧ (length ∉ rands.map Prod.fst →
          rands1 = rands ++ [(length, RandomGaussian.New newStream length)]
            ∧ rands1.length = rands.length + 1)
      ∧ (length ∈ rands.map Prod.fst → rands1 = rands)
      ∧ (rands1.map Prod.fst).Nodup
      ∧ ∀ rands2 : List (Int × RandomGaussian α),
          rands2.map Prod.fst = rands1.map Prod.fst →
          GetRandomGaussian laterStream rands2 length = Except.ok (rands2, (i : Int)) := by
  obtain ⟨rands1, i, g, h1, h2, h3, h4, h5⟩ := GetRandomGaussian_ok newStream rands length
  have hfind1 : ArrayMap.Find rands1 length = (i : Int) := by
    by_cases hf : ArrayMap.Find rands length = -1
    · obtain ⟨e1, e2⟩ := h4 hf
      rw [e1, e2]
      exact ArrayMap_Find_append_new rands length _ hf
    · obtain ⟨e1, e2⟩ := h5 hf
      rw [e1]
      exact e2
  refine ⟨rands1, i, g, h1, h3, ?_, ?_, ?_, ?_⟩
  · intro hn
    obtain ⟨e1, _⟩ := h4 ((ArrayMap_Find_absent rands length).mpr hn)
    refine ⟨e1, ?_⟩
    rw [e1]
    simp
  · intro hin
    have hf : ArrayMap.Find rands length ≠ -1 := by
      intro hc
      exact (ArrayMap_Find_absent rands length).mp hc hin
    exact (h5 hf).1
  · by_cases hf : ArrayMap.Find rands length = -1
    · obtain ⟨e1, _⟩ := h4 hf
      rw [e1, List.map_append, List.nodup_append]
      refine ⟨hnodup, by simp, ?_⟩
      intro x hx hx2
      simp only [List.map_cons, List.map_nil, List.mem_singleton] at hx2
      subst hx2
      exact (ArrayMap_Find_absent rands x).mp hf hx
    · rw [(h5 hf).1]
      exact hnodup
  · intro rands2 hkeys
    have hfind2 : ArrayMap.Find rands2 length = (i : Int) := by
      rw [ArrayMap_Find_congr rands2 rands1 length hkeys]
      exact hfind1
    have hlen : rands2.length = rands1.length := by
      have := congrArg List.length hkeys
      simpa using this
    unfold GetRandomGaussian
    have hne : ¬ ((i : Int) = -1) := by omega
    simp only [hfind2, if_neg hne]
    rw [Vec_Get_natCast rands2 i (by omega), bind_ok_eq]

/-- Witness for C17: on a cache holding one sampler under key 4, a request for length 4
and a request for length 6. -/
theorem GetRandomGaussian_cache_witness :
    (∃ (rands1 : List (Int × RandomGaussian Int)) (i : Nat) (g : RandomGaussian Int),
      GetRandomGaussian (fun _ => 7) [((4 : Int), RandomGaussian.New (fun _ => (1 : Int)) 4)] 6
          = Except.ok (rands1, (i : Int))
      ∧ rands1[i]? = some (6, g)
      ∧ ((6 : Int) ∉ [((4 : Int), RandomGaussian.New (fun _ => (1 : Int)) 4)].map Prod.fst →
          rands1 = [((4 : Int), RandomGaussian.New (fun _ => (1 : Int)) 4)]
              ++ [(6, RandomGaussian.New (fun _ => 7) 6)]
            ∧ rands1.length
              = [((4 : Int), RandomGaussian.New (fun _ => (1 : Int)) 4)].length + 1)
      ∧ ((6 : Int) ∈ [((4 : Int), RandomGaussian.New (fun _ => (1 : Int)) 4)].map Prod.fst →
          rands1 = [((4 : Int), RandomGaussian.New (fun _ => (1 : Int)) 4)])
      ∧ (rands1.map Prod.fst).Nodup
      ∧ ∀ rands2 : List (Int × RandomGaussian Int),
          rands2.map Prod.fst = rands1.map Prod.fst →
          GetRandomGaussian (fun _ => 8) rands2 6 = Except.ok (rands2, (i : Int)))
    ∧ GetRandomGaussian (fun _ => (7 : Int))
          [((4 : Int), RandomGaussian.New (fun _ => (1 : Int)) 4)] 4
        = Except.ok ([((4 : Int), RandomGaussian.New (fun _ => (1 : Int)) 4)], 0) :=
  ⟨GetRandomGaussian_cache (fun _ => 7) (fun _ => 8)
      [((4 : Int), RandomGaussian.New (fun _ => (1 : Int)) 4)] 6 (by simp), rfl⟩

/-! ### Gaussian creation -/

/-- Gaussian creation, the part that holds. For positive dimensions `Init(width, height)`
returns from any prior state of the tensor and of the cache, for every stream of the
sampler: the tensor has the given dimensions, `width*height` weights and `width*height`
gradients. The gradients are the old ones, trimmed or padded with zeros to that size:
they are all 0 when the tensor held no gradients before, as under the constructor. -/
theorem Mat_InitRand_ok {α : Type} [Zero α] (junk newStream : Nat → α)
    (rands : List (Int × RandomGaussian α)) (self : Mat α) (width height : Int)
    (hw : 0 < width) (hh : 0 < height) :
    ∃ m1 c1, Mat.InitRand junk newStream rands self width height = Except.ok (m1, c1)
      ∧ m1.width = width ∧ m1.height = height ∧ m1.length = width * height
      ∧ (m1.weights.length : Int) = width * height
      ∧ (m1.weight_gradients.length : Int) = width * height
      ∧ m1.weight_gradients
          = self.weight_gradients.take (width * height).toNat
            ++ List.replicate ((width * height).toNat - self.weight_gradients.length) 0 := by
  have hnpos : 0 < width * height := Int.mul_pos hw hh
  obtain ⟨N, hN⟩ : ∃ N : Nat, width * height = (N : Int) :=
    ⟨(width * height).toNat, by omega⟩
  obtain ⟨rands1, i, g, hG, hi, _, _, _⟩ := GetRandomGaussian_ok newStream rands (N : Int)
  unfold Mat.InitRand
  rw [if_pos ⟨hw, hh⟩]
  simp only [hN, Vec_SetCountInit_natCast, bind_ok_eq, hG, forLoop, Int.toNat_ofNat]
  obtain ⟨s1, hs1, hP⟩ := forLoopFrom_inv
    (fun k (s : Mat α × List (Int × RandomGaussian α)) =>
        (Vec.Get s.2 (i : Int)) >>= fun e =>
        (Vec.Put s.2 (i : Int) (e.1, e.2.Get.2)) >>= fun c =>
        (Vec.Set junk s.1.weights k e.2.Get.1) >>= fun w =>
        (Except.ok ({ s.1 with weights := w }, c)
          : Except Err (Mat α × List (Int × RandomGaussian α))))
    (fun _ s => s.1.width = width ∧ s.1.height = height ∧ s.1.length = (N : Int)
        ∧ s.1.weights.length = N
        ∧ s.1.weight_gradients = List.take N self.weight_gradients
            ++ List.replicate (N - self.weight_gradients.length) 0
        ∧ s.2.length = rands1.length)
    N
    ({ width := width, height := height, length := (N : Int),
       weights := List.take N self.weights ++ List.replicate (N - self.weights.length) 0,
       weight_gradients := List.take N self.weight_gradients
         ++ List.replicate (N - self.weight_gradients.length) 0 }, rands1)
    (by
      refine ⟨rfl, rfl, rfl, ?_, rfl, rfl⟩
      simp
      omega)
    (by
      rintro k ⟨sm, sc⟩ hk ⟨h1, h2, h3, h4, h5, h6⟩
      simp only at h1 h2 h3 h4 h5 h6
      have hic : i < sc.length := by omega
      have hkw : k < sm.weights.length := by omega
      refine ⟨({ sm with weights := sm.weights.set k (sc.get ⟨i, hic⟩).2.Get.1 },
        sc.set i ((sc.get ⟨i, hic⟩).1, (sc.get ⟨i, hic⟩).2.Get.2)), ?_, ?_⟩
      · simp only [Vec_Get_natCast sc i hic, Vec_Put_natCast sc i _ hic,
          Vec_Set_natCast junk sm.weights k _ hkw, bind_ok_eq]
      · refine ⟨h1, h2, h3, ?_, h5, ?_⟩
        · simpa using h4
        · simpa using h6)
  obtain ⟨h1, h2, h3, h4, h5, _⟩ := hP
  refine ⟨s1.1, s1.2, hs1, h1, h2, h3, by omega, ?_, h5⟩
  rw [h5]
  simp
  omega

/-- C15, the failing input. A 1x1 tensor that holds the gradient `6` is re-initialised by
`Init(1, 1)`: for every stream of the sampler and every state of the cache the call
returns with `weight_gradients = [6]`, not `[0]`, because `SetCount(n, 0.0)` keeps the
items already present. The sibling `Init(1, 1, c)` on the same tensor leaves the
gradient `0`. -/
theorem Mat_InitRand_keeps_old_gradients (junk newStream : Nat → Int)
    (rands : List (Int × RandomGaussian Int)) (c : Int) :
    (∃ m1 c1, Mat.InitRand junk newStream rands
          { width := 1, height := 1, length := 1, weights := [5], weight_gradients := [6] }
          1 1 = Except.ok (m1, c1)
        ∧ m1.weight_gradients = [6])
      ∧ Mat.InitConst junk
          { width := 1, height := 1, length := 1, weights := [5], weight_gradients := [6] }
          1 1 c
        = Except.ok { width := 1, height := 1, length := 1, weights := [c],
                      weight_gradients := [0] } := by
  constructor
  · obtain ⟨m1, c1, h, _, _, _, _, _, hg⟩ := Mat_InitRand_ok junk newStream rands
      ({ width := 1, height := 1, length := 1, weights := [5], weight_gradients := [6] }
        : Mat Int) 1 1 (by decide) (by decide)
    exact ⟨m1, c1, h, by simpa using hg⟩
  · exact Mat_InitConst_ok junk _ 1 1 c (by decide) (by decide)

/-- The constructor `Mat(width, height)` with positive dimensions returns a tensor with
`width*height` weights and `width*height` gradients, all gradients 0, for every stream
of the sampler and every state of the cache. -/
theorem Mat_MatRand_ok {α : Type} [Zero α] (junk newStream : Nat → α)
    (rands : List (Int × RandomGaussian α)) (width height : Int)
    (hw : 0 < width) (hh : 0 < height) :
    ∃ m1 c1, Mat.MatRand junk newStream rands width height = Except.ok (m1, c1)
      ∧ m1.width = width ∧ m1.height = height ∧ m1.length = width * height
      ∧ (m1.weights.length : Int) = width * height
      ∧ (m1.weight_gradients.length : Int) = width * height
      ∧ ∀ g ∈ m1.weight_gradients, g = 0 := by
  obtain ⟨m1, c1, h, h1, h2, h3, h4, h5, hg⟩ :=
    Mat_InitRand_ok junk newStream rands (Mat.Mat0 : Mat α) width height hw hh
  refine ⟨m1, c1, ?_, h1, h2, h3, h4, h5, ?_⟩
  · unfold Mat.MatRand
    rw [if_pos ⟨hw, hh⟩]
    exact h
  · intro g hgm
    rw [hg] at hgm
    simp only [Mat.Mat0, List.take_nil, List.nil_append] at hgm
    exact List.eq_of_mem_replicate hgm

/-! ### The pool lock -/

theorem LockedPool_writeLast_appended {α ρ : Type} (p : MatPool α ρ) (held : Bool) (u : Nat)
    (mat : Mat α) :
    LockedPool.writeLast
        ({ pool := { p with mats := Vec.Add p.mats Mat.Mat0 }, held := held, unguarded := u }
          : LockedPool α ρ) mat
      = Except.ok { pool := { p with mats := Vec.Add p.mats mat }, held := held,
                    unguarded := u } := by
  unfold LockedPool.writeLast
  have hidx : Vec.GetCount (Vec.Add p.mats (Mat.Mat0 : Mat α)) - 1 = (p.mats.length : Int) := by
    simp [Vec.GetCount, Vec.Add]
  simp only [hidx]
  rw [Vec_Put_natCast _ p.mats.length mat (by simp [Vec.Add]), bind_ok_eq]
  simp [Vec.Add]

/-- The four mutators that take the lock: started with the lock free, each performs its
structural change with the lock held (the count of unguarded changes does not move),
releases the lock before it returns, and leaves the pool and the handle that the
lock-free reading of the same function gives. -/
theorem LockedPool_mutators_guarded {α ρ : Type} [Zero α] (junk : Nat → α)
    (randMat : Int → Int → α → α → Mat α → Except Err (Mat α))
    (p : MatPool α ρ) (u : Nat) (width height n d : Int) (c mu std : α) (mat : ρ) :
    (∀ r, p.InitMat junk width height c = Except.ok r →
        LockedPool.InitMat junk { pool := p, held := false, unguarded := u } width height c
          = Except.ok ({ pool := r.1, held := false, unguarded := u }, r.2))
      ∧ LockedPool.InitMatEmpty { pool := p, held := false, unguarded := u }
          = ({ pool := p.InitMatEmpty.1, held := false, unguarded := u }, p.InitMatEmpty.2)
      ∧ (∀ r, p.RandMat randMat n d mu std = Except.ok r →
        LockedPool.RandMat randMat { pool := p, held := false, unguarded := u } n d mu std
          = Except.ok ({ pool := r.1, held := false, unguarded := u }, r.2))
      ∧ LockedPool.AddTempMat { pool := p, held := false, unguarded := u } mat
          = ({ pool := (p.AddTempMat mat).1, held := false, unguarded := u },
             (p.AddTempMat mat).2) := by
  refine ⟨?_, rfl, ?_, rfl⟩
  · intro r hr
    simp only [MatPool.InitMat, bind_eq_ok_iff] at hr
    obtain ⟨m, hm, hr2⟩ := hr
    cases hr2
    simp only [LockedPool.InitMat, hm, bind_ok_eq, LockedPool.Enter, LockedPool.mutate,
      if_true]
    rw [LockedPool_writeLast_appended, bind_ok_eq]
    rfl
  · intro r hr
    simp only [MatPool.RandMat, bind_eq_ok_iff] at hr
    obtain ⟨m, hm, hr2⟩ := hr
    cases hr2
    simp only [LockedPool.RandMat, hm, bind_ok_eq, LockedPool.Enter, LockedPool.mutate,
      if_true]
    rw [LockedPool_writeLast_appended, bind_ok_eq]
    rfl

/-- C18, the failing input. `MatPool::ClearTempMat` on any pool whose lock is free:
the temporary sequence is cleared (the same pool the lock-free reading gives) while the
lock is not held, so the count of unguarded structural changes goes from 0 to 1; the
lock is never taken. The sibling `AddTempMat` on the same pool changes `tmp_mat` with the
lock held and releases it. -/
theorem LockedPool_ClearTempMat_unguarded {α ρ : Type} (junk : Nat → ρ) (p : MatPool α ρ)
    (mat : ρ) :
    LockedPool.ClearTempMat { pool := p, held := false, unguarded := 0 }
        = { pool := { p with tmp_mat := [] }, held := false, unguarded := 1 }
      ∧ p.ClearTempMat junk = Except.ok { p with tmp_mat := [] }
      ∧ (LockedPool.AddTempMat { pool := p, held := false, unguarded := 0 } mat).1.unguarded
          = 0
      ∧ (LockedPool.AddTempMat { pool := p, held := false, unguarded := 0 } mat).1.held
          = false := by
  refine ⟨rfl, ?_, rfl, rfl⟩
  simp [MatPool.ClearTempMat, Vec.SetCount]

end FastDQL
